import Mathlib

/-!
# MaliOC: the asynchronous offline-compilation pipeline

A shallow embedding of the Mali Offline Compiler plugin's pipeline:

* the compile job (`FCompileJobHandle::Run`, `AppendNewRawCompilerOutput` and the two
  flexible-output parsers) from `MaliOCAsyncCompiler.cpp`;
* the job scheduler (`FAsyncCompiler::Tick`, `AddJob`, `FinishCompilation`);
* the report session (`FAsyncReportGenerator`) from `MaliOCAsyncReportGenerator.cpp`;
* the capability graph built by the constructor of `FAsyncCompiler`;
* the loading of the backend library (`FCompilerManager::Initialize`, `Deinitialize`) from
  `MaliOCCompilerManager.cpp`, and `FAsyncCompiler::Initialize`.

C++ objects become records, pointers to job handles become indices into the list of
handles that were ever created, and a call that can die (a failed `check`, a null
dereference, a read past the end of a backend list) returns `Except Failure`.
Engine and backend functions that are not part of the plugin are fields of `Externals`.
-/

namespace MaliOC

/-! ## Outcomes -/

/-- Fatal outcomes of a call: each failed `check(...)` of the plugin, and the two kinds of
undefined behaviour the embedded code can run into. -/
inductive Failure where
  /-- The assertion `check(Progress == EProgress::MALIOC_COMPILATION_IN_PROGRESS)` in `FinishReportGeneration` -/
  | checkProgressIsMaliocInProgress
  /-- The assertion `check(Progress == EProgress::COMPILATION_COMPLETE)` at the end of `FinishReportGeneration` -/
  | checkProgressIsCompleteAtFinish
  /-- The assertion `check(Progress == EProgress::COMPILATION_COMPLETE)` on entry to `GetReport` -/
  | checkProgressIsCompleteAtGetReport
  /-- The assertion `check(!JobHandle.IsValid())` in `FAsyncReportGenerator::Tick` -/
  | checkJobHandleNotValid
  /-- The assertion `check(JobHandle.IsValid())` in `GetReport` -/
  | checkJobHandleValid
  /-- The assertion `check(IsCompilationFinished())` in `GetRawCompilerOutput` -/
  | checkIsCompilationFinished
  /-- The assertion `check(VertexFactoryName.Len() == 0)` in `GetBeautifiedVertexFactoryName` -/
  | checkVertexFactoryNameEmpty
  /-- A dereference `JobHandle->...` through a null `TSharedPtr` -/
  | nullDereference
  /-- The assertion `check(false)` in the `default:` of the architecture switch -/
  | checkFalse
  /-- A read of `list[i]` at or beyond the end of a backend-owned array -/
  | outOfBoundsRead
  /-- The assertion `check(!CompilerManager.IsValid())` in `FCompilerManager::Initialize` -/
  | checkCompilerManagerNotValid
  /-- The assertion `check(!AsyncCompiler.IsValid())` in `FAsyncCompiler::Initialize` -/
  | checkAsyncCompilerNotValid
  /-- The assertion `check(compilerManager != nullptr)` in the constructor of `FAsyncCompiler` -/
  | checkCompilerManagerNotNull
  deriving DecidableEq, Repr

/-! ## Shaders and backend output -/

/-- The engine's shader stages (`EShaderFrequency`). -/
inductive EShaderFrequency where
  | SF_Vertex
  | SF_Hull
  | SF_Domain
  | SF_Pixel
  | SF_Geometry
  | SF_Compute
  deriving DecidableEq, Repr

/-- What a compile job reads from an `FShader*`: its type name and stage, the name of its
vertex factory type (when it has one) and the GLSL text stored in its code blob. -/
structure FShader where
  TypeName : String
  Frequency : EShaderFrequency
  VertexFactoryType : Option String
  GlslCode : String
  deriving DecidableEq, Repr

/-- The type `malicm_compiler`, an unsigned token naming one backend compiler. -/
abbrev malicm_compiler := Nat

/-- The struct `malioc_key_value_pairs`: `list` holds keys at even and values at odd
positions; `number_of_entries` is the length of `list`. -/
structure malioc_key_value_pairs where
  list : List String
  deriving DecidableEq, Repr

/-- The field `number_of_entries` (an `unsigned int`): the total number of entries. -/
def malioc_key_value_pairs.number_of_entries (kv : malioc_key_value_pairs) : Nat :=
  kv.list.length

/-- The struct `malioc_outputs`, restricted to the fields the plugin reads. Each count
(`number_of_flexible_outputs`, `number_of_errors`, `number_of_warnings`) is the length of
its list. -/
structure malioc_outputs where
  flexible_outputs : List malioc_key_value_pairs
  errors : List String
  warnings : List String
  deriving DecidableEq, Repr

/-- What a compile job reads through its `const FMaliPlatform&`: the platform name, and
the driver's compiler token, highest API version, extension string and core name. -/
structure FJobTarget where
  PlatformName : String
  Compiler : malicm_compiler
  MaxAPI : Nat
  Extensions : String
  CoreName : String
  deriving DecidableEq, Repr

/-- The observable state of the session's `FMaterialResource`, the engine object that
cross-compiles the material: `IsCompilationFinished()`, the shader list of
`GetGameThreadShaderMap()` (`none` for a null map), `GetCompileErrors()` and the map filled
by `GetRepresentativeShaderTypesAndDescriptions`. -/
structure FMaterialResource where
  bCompilationFinished : Bool
  GameThreadShaderMap : Option (List FShader)
  CompileErrors : List String
  ShaderTypeNamesAndDescriptions : List (String × String)
  deriving DecidableEq, Repr

/-- Engine, C-library and backend functions the plugin calls but does not define. `F` is
the type of `float` values. -/
structure Externals (F : Type) where
  /-- The function `FCStringAnsi::Atoi` -/
  Atoi : String → Int
  /-- The function `FCStringAnsi::Atof` -/
  Atof : String → F
  /-- The `float` value `0` -/
  zero : F
  /-- Conversion of a `float` argument to a `uint32` parameter -/
  toUInt32 : F → Nat
  /-- The format `FString::Printf(TEXT("%.4g"), x)` -/
  PrintfG4 : F → String
  /-- The comparison `operator<` on `FString` -/
  FStringLess : String → String → Bool
  /-- The function `GLSLToDeviceCompatibleGLSL`, with the capabilities of the target and the GL
  shader type enum -/
  GLSLToDeviceCompatibleGLSL : FJobTarget → Nat → String → String
  /-- The entry point `_malicm_compile` on source, shader type and compiler token: whether
  the compiler ran, and its outputs -/
  malicm_compile : String → String → malicm_compiler → Bool × malioc_outputs
  /-- The method `FMaterialResource::CacheShaders`: whether the request succeeded, and the
  state it leaves the resource in -/
  CacheShaders : FMaterialResource → Bool × FMaterialResource

/-! ## Raw compiler output -/

/-- The struct `FMaliOCRawCompilerOutput::FCommonOutput`. -/
structure FCommonOutput where
  ShaderName : String := ""
  Frequency : EShaderFrequency := EShaderFrequency.SF_Vertex
  VertexFactoryName : String := ""
  SourceCode : String := ""
  Warnings : List String := []
  deriving DecidableEq, Repr

/-- The struct `FMaliOCRawCompilerOutput::FErrorOutput`. -/
structure FErrorOutput where
  CommonOutput : FCommonOutput := {}
  Errors : List String := []
  deriving DecidableEq, Repr

/-- The struct `FMaliOCRawCompilerOutput::FMidgardOutput::FRenderTarget`. -/
structure FRenderTarget (F : Type) where
  render_target : Int
  work_registers_used : Int
  uniform_registers_used : Int
  arithmetic_cycles : F
  arithmetic_shortest_path : F
  arithmetic_longest_path : F
  load_store_cycles : F
  load_store_shortest_path : F
  load_store_longest_path : F
  texture_cycles : F
  texture_shortest_path : F
  texture_longest_path : F
  spilling_used : Bool
  deriving DecidableEq, Repr

/-- The default member initialisers of `FRenderTarget`: every number `0`, no spilling. -/
def FRenderTarget.init {F : Type} (X : Externals F) : FRenderTarget F :=
  { render_target := 0, work_registers_used := 0, uniform_registers_used := 0,
    arithmetic_cycles := X.zero, arithmetic_shortest_path := X.zero,
    arithmetic_longest_path := X.zero, load_store_cycles := X.zero,
    load_store_shortest_path := X.zero, load_store_longest_path := X.zero,
    texture_cycles := X.zero, texture_shortest_path := X.zero,
    texture_longest_path := X.zero, spilling_used := false }

/-- The struct `FMaliOCRawCompilerOutput::FMidgardOutput`. -/
structure FMidgardOutput (F : Type) where
  CommonOutput : FCommonOutput := {}
  RenderTargets : List (FRenderTarget F) := []
  deriving DecidableEq, Repr

/-- The struct `FMaliOCRawCompilerOutput::FUtgardOutput`. -/
structure FUtgardOutput where
  CommonOutput : FCommonOutput := {}
  min_number_of_cycles : Int := 0
  max_number_of_cycles : Int := 0
  n_instruction_words : Int := 0
  deriving DecidableEq, Repr

/-- The struct `FMaliOCRawCompilerOutput`: one list per kind of per-shader result. -/
structure FMaliOCRawCompilerOutput (F : Type) where
  ErrorOutput : List FErrorOutput := []
  MidgardOutput : List (FMidgardOutput F) := []
  UtgardOutput : List FUtgardOutput := []
  deriving DecidableEq, Repr

/-! ## Parsing the flexible outputs -/

/-- The loop bound `number_of_entries - 1`, computed in `unsigned int`: taking one away
modulo `2 ^ 32` is adding `2 ^ 32 - 1`. -/
def entriesBound (kv : malioc_key_value_pairs) : Nat :=
  (2 ^ 32 - 1 + kv.number_of_entries) % 2 ^ 32

/-- One iteration of the key tests in `ParseMidgardFlexibleOutputs`: `key` is `list[j]`
and `value` reads `list[j + 1]`, which happens only under a recognised key. -/
def midgardAssign {F : Type} (X : Externals F) (key : String)
    (value : Except Failure String) (rt : FRenderTarget F) :
    Except Failure (FRenderTarget F) :=
  if key = "render_target" then
    value.map fun v => { rt with render_target := X.Atoi v }
  else if key = "work_registers_used" then
    value.map fun v => { rt with work_registers_used := X.Atoi v }
  else if key = "uniform_registers_used" then
    value.map fun v => { rt with uniform_registers_used := X.Atoi v }
  else if key = "arithmetic_cycles" then
    value.map fun v => { rt with arithmetic_cycles := X.Atof v }
  else if key = "arithmetic_shortest_path" then
    value.map fun v => { rt with arithmetic_shortest_path := X.Atof v }
  else if key = "arithmetic_longest_path" then
    value.map fun v => { rt with arithmetic_longest_path := X.Atof v }
  else if key = "load_store_cycles" then
    value.map fun v => { rt with load_store_cycles := X.Atof v }
  else if key = "load_store_shortest_path" then
    value.map fun v => { rt with load_store_shortest_path := X.Atof v }
  else if key = "load_store_longest_path" then
    value.map fun v => { rt with load_store_longest_path := X.Atof v }
  else if key = "texture_cycles" then
    value.map fun v => { rt with texture_cycles := X.Atof v }
  else if key = "texture_shortest_path" then
    value.map fun v => { rt with texture_shortest_path := X.Atof v }
  else if key = "texture_longest_path" then
    value.map fun v => { rt with texture_longest_path := X.Atof v }
  else if key = "spilling_used" then
    value.map fun v => { rt with spilling_used := decide (v = "true") }
  else
    .ok rt

/-- A read of `list[i]` from a backend-owned array. -/
def readEntry (list : List String) (i : Nat) : Except Failure String :=
  match list[i]? with
  | some s => .ok s
  | none => .error Failure.outOfBoundsRead

/-- The inner loop `for (j = 0; j < number_of_entries - 1; j += 2)` of
`ParseMidgardFlexibleOutputs`, from index `j` on. The first argument bounds the number of
iterations; `list.length + 1` is never used up, because an iteration that runs reads
`list[j]`. -/
def midgardLoop {F : Type} (X : Externals F) (list : List String) (bound : Nat) :
    Nat → Nat → FRenderTarget F → Except Failure (FRenderTarget F)
  | 0, _, _ => .error Failure.outOfBoundsRead
  | fuel + 1, j, rt =>
    if j < bound then
      match readEntry list j with
      | .error e => .error e
      | .ok key =>
        match midgardAssign X key (readEntry list (j + 1)) rt with
        | .error e => .error e
        | .ok rt' => midgardLoop X list bound fuel (j + 2) rt'
    else
      .ok rt

/-- One render target: the body of the outer loop of `ParseMidgardFlexibleOutputs`. -/
def parseRenderTarget {F : Type} (X : Externals F) (kv : malioc_key_value_pairs) :
    Except Failure (FRenderTarget F) :=
  midgardLoop X kv.list (entriesBound kv) (kv.list.length + 1) 0 (FRenderTarget.init X)

/-- The function `ParseMidgardFlexibleOutputs`: one render target per flexible output. -/
def ParseMidgardFlexibleOutputs {F : Type} (X : Externals F) :
    List malioc_key_value_pairs → Except Failure (FMidgardOutput F)
  | [] => .ok {}
  | kv :: rest =>
    match parseRenderTarget X kv with
    | .error e => .error e
    | .ok rt =>
      match ParseMidgardFlexibleOutputs X rest with
      | .error e => .error e
      | .ok output => .ok { output with RenderTargets := rt :: output.RenderTargets }

/-- One iteration of the key tests in `ParseUtgardFlexibleOutputs`. -/
def utgardAssign {F : Type} (X : Externals F) (key : String)
    (value : Except Failure String) (output : FUtgardOutput) : Except Failure FUtgardOutput :=
  if key = "min_number_of_cycles" then
    value.map fun v => { output with min_number_of_cycles := X.Atoi v }
  else if key = "max_number_of_cycles" then
    value.map fun v => { output with max_number_of_cycles := X.Atoi v }
  else if key = "n_instruction_words" then
    value.map fun v => { output with n_instruction_words := X.Atoi v }
  else
    .ok output

/-- The loop of `ParseUtgardFlexibleOutputs` over `flexible_outputs[0]`, from index `i`. -/
def utgardLoop {F : Type} (X : Externals F) (list : List String) (bound : Nat) :
    Nat → Nat → FUtgardOutput → Except Failure FUtgardOutput
  | 0, _, _ => .error Failure.outOfBoundsRead
  | fuel + 1, i, output =>
    if i < bound then
      match readEntry list i with
      | .error e => .error e
      | .ok key =>
        match utgardAssign X key (readEntry list (i + 1)) output with
        | .error e => .error e
        | .ok output' => utgardLoop X list bound fuel (i + 2) output'
    else
      .ok output

/-- The function `ParseUtgardFlexibleOutputs`: it reads `flexible_outputs[0]` only. -/
def ParseUtgardFlexibleOutputs {F : Type} (X : Externals F)
    (flexible_outputs : List malioc_key_value_pairs) : Except Failure FUtgardOutput :=
  match flexible_outputs with
  | [] => .error Failure.outOfBoundsRead
  | kv :: _ => utgardLoop X kv.list (entriesBound kv) (kv.list.length + 1) 0 {}

/-! ## Classifying one backend result -/

/-- The table `VertexFactoryPrettyNameMap`. -/
def VertexFactoryPrettyNameMap : List (String × String) :=
  [("FLocalVertexFactory", "Default Usage"),
   ("TGPUSkinVertexFactoryfalse", "Used with Skeletal Mesh"),
   ("TGPUSkinVertexFactorytrue", "Used with Skeletal Mesh"),
   ("FLandscapeVertexFactoryMobile", "Used with Landscape"),
   ("FLandscapeVertexFactory", "Used with Landscape"),
   ("FLandscapeXYOffsetVertexFactory", "Used with Landscape"),
   ("FParticleSpriteVertexFactory", "Used with Particle Sprites"),
   ("FGPUSpriteVertexFactory", "Used with Particle Sprites"),
   ("FParticleBeamTrailVertexFactory", "Used with Beam Trails"),
   ("FMeshParticleVertexFactory", "Used with Mesh Particles"),
   ("FMeshParticleVertexFactoryEmulatedInstancing", "Used with Mesh Particles"),
   ("TGPUSkinMorphVertexFactoryfalse", "Used with Morph Targets"),
   ("FSplineMeshVertexFactory", "Used with Spline Meshes"),
   ("FInstancedStaticMeshVertexFactory", "Used with Instanced Static Meshes"),
   ("FEmulatedInstancedStaticMeshVertexFactory", "Used with Instanced Static Meshes"),
   ("TGPUSkinMorphVertexFactorytrue", "Used with Skeletal Mesh and Morph Targets"),
   ("TGPUSkinAPEXClothVertexFactoryfalse", "Used with Skeletal Mesh and Clothing"),
   ("TGPUSkinAPEXClothVertexFactorytrue", "Used with Skeletal Mesh and Clothing")]

/-- The function `GetBeautifiedVertexFactoryName`. -/
def GetBeautifiedVertexFactoryName (VertexFactoryName : String) : Except Failure String :=
  match VertexFactoryPrettyNameMap.lookup VertexFactoryName with
  | some prettyName => .ok prettyName
  | none =>
    if VertexFactoryName.length = 0 then .ok "No Vertex Factory"
    else .error Failure.checkVertexFactoryNameEmpty

/-- The local enum `EMaliArch` of `AppendNewRawCompilerOutput`. -/
inductive EMaliArch where
  | None
  | Utgard
  | Midgard
  deriving DecidableEq, Repr

/-- The architecture scan over `flexible_outputs[0]`, from index `i`:
`for (i = 0; i < number_of_entries - 1; i += 2)`, leaving with `break` on the first
`architecture` key whose value is `midgard` or `utgard`. -/
def archLoop (list : List String) (bound : Nat) : Nat → Nat → Except Failure EMaliArch
  | 0, _ => .error Failure.outOfBoundsRead
  | fuel + 1, i =>
    if i < bound then
      match readEntry list i with
      | .error e => .error e
      | .ok key =>
        if key = "architecture" then
          match readEntry list (i + 1) with
          | .error e => .error e
          | .ok value =>
            if value = "midgard" then .ok EMaliArch.Midgard
            else if value = "utgard" then .ok EMaliArch.Utgard
            else archLoop list bound fuel (i + 2)
        else archLoop list bound fuel (i + 2)
    else
      .ok EMaliArch.None

/-- The architecture found in a flexible-output block. -/
def detectArch (kv : malioc_key_value_pairs) : Except Failure EMaliArch :=
  archLoop kv.list (entriesBound kv) (kv.list.length + 1) 0

/-- One per-shader result: an element for one of the three lists of the raw output. -/
inductive FRawEntry (F : Type) where
  | error (entry : FErrorOutput)
  | midgard (entry : FMidgardOutput F)
  | utgard (entry : FUtgardOutput)
  deriving DecidableEq, Repr

/-- The three `Add` calls of the job: `RawCompilerOutput->ErrorOutput.Add`,
`RawCompilerOutput->MidgardOutput.Add` and `RawCompilerOutput->UtgardOutput.Add`. -/
def FMaliOCRawCompilerOutput.Add {F : Type} (Raw : FMaliOCRawCompilerOutput F) :
    FRawEntry F → FMaliOCRawCompilerOutput F
  | FRawEntry.error entry => { Raw with ErrorOutput := Raw.ErrorOutput ++ [entry] }
  | FRawEntry.midgard entry => { Raw with MidgardOutput := Raw.MidgardOutput ++ [entry] }
  | FRawEntry.utgard entry => { Raw with UtgardOutput := Raw.UtgardOutput ++ [entry] }

/-- An error entry: the common output and the error messages. -/
def errorEntry {F : Type} (commonOutput : FCommonOutput) (Errors : List String) : FRawEntry F :=
  FRawEntry.error { CommonOutput := commonOutput, Errors := Errors }

/-- The head of `AppendNewRawCompilerOutput`: the common output of a shader, before the
warnings are copied. -/
def commonOutputOf (GLSL : String) (Shader : FShader) : Except Failure FCommonOutput :=
  let VertexFactoryType : String :=
    match Shader.VertexFactoryType with
    | some name => name
    | none => ""
  match GetBeautifiedVertexFactoryName VertexFactoryType with
  | .error e => .error e
  | .ok prettyName =>
    .ok { ShaderName := Shader.TypeName, Frequency := Shader.Frequency,
          VertexFactoryName := prettyName, SourceCode := GLSL }

/-- The end of `AppendNewRawCompilerOutput`, from `const bool bNoArch` on: the entry for
valid output of the architecture found, or the unknown-format error. -/
def entryOfArch {F : Type} (X : Externals F) (outputs : malioc_outputs)
    (commonOutput : FCommonOutput) (outputArch : EMaliArch) : Except Failure (FRawEntry F) :=
  let bNoArch : Bool := decide (outputArch = EMaliArch.None)
  let bUtgardTooManyRTs : Bool :=
    decide (outputArch = EMaliArch.Utgard) && decide (outputs.flexible_outputs.length ≠ 1)
  if bNoArch || bUtgardTooManyRTs then
    .ok (errorEntry commonOutput ["Unknown verbose output format from compiler"])
  else
    match outputArch with
    | EMaliArch.Midgard =>
      match ParseMidgardFlexibleOutputs X outputs.flexible_outputs with
      | .error e => .error e
      | .ok MidgardOutput =>
        .ok (FRawEntry.midgard { MidgardOutput with CommonOutput := commonOutput })
    | EMaliArch.Utgard =>
      match ParseUtgardFlexibleOutputs X outputs.flexible_outputs with
      | .error e => .error e
      | .ok UtgardOutput =>
        .ok (FRawEntry.utgard { UtgardOutput with CommonOutput := commonOutput })
    | EMaliArch.None => .error Failure.checkFalse

/-- The middle of `AppendNewRawCompilerOutput`, from `if (!bCompilerRan)` on: the entry the
call adds for a backend result. -/
def entryOfOutputs {F : Type} (X : Externals F) (bCompilerRan : Bool) (outputs : malioc_outputs)
    (commonOutput : FCommonOutput) : Except Failure (FRawEntry F) :=
  if bCompilerRan = false then
    .ok (errorEntry commonOutput ["Compiler could not be run"])
  else
    let commonOutput : FCommonOutput := { commonOutput with Warnings := outputs.warnings }
    if outputs.errors.length ≠ 0 then
      .ok (errorEntry commonOutput outputs.errors)
    else
      match outputs.flexible_outputs with
      | [] => .ok (errorEntry commonOutput ["No verbose output from compiler"])
      | first :: _ =>
        match detectArch first with
        | .error e => .error e
        | .ok outputArch => entryOfArch X outputs commonOutput outputArch

/-- The method `FCompileJobHandle::AppendNewRawCompilerOutput`, acting on the job's
`RawCompilerOutput`: every path that returns has added one entry. -/
def AppendNewRawCompilerOutput {F : Type} (X : Externals F) (bCompilerRan : Bool)
    (outputs : malioc_outputs) (GLSL : String) (Shader : FShader)
    (Raw : FMaliOCRawCompilerOutput F) : Except Failure (FMaliOCRawCompilerOutput F) :=
  match commonOutputOf GLSL Shader with
  | .error e => .error e
  | .ok commonOutput =>
    match entryOfOutputs X bCompilerRan outputs commonOutput with
    | .error e => .error e
    | .ok entry => .ok (Raw.Add entry)

/-! ## The compile job -/

/-- The constants `GL_FRAGMENT_SHADER` and `GL_VERTEX_SHADER`. -/
def GL_FRAGMENT_SHADER : Nat := 0x8B30

/-- The constant `GL_VERTEX_SHADER`. -/
def GL_VERTEX_SHADER : Nat := 0x8B31

/-- The class `FCompileJobHandle`: `Thread` records whether `BeginCompilationAsync` has
created the job's thread. -/
structure FCompileJobHandle (F : Type) where
  OutShaders : List FShader
  Platform : FJobTarget
  RawCompilerOutput : FMaliOCRawCompilerOutput F := {}
  Thread : Bool := false
  TotalNumShaders : Nat
  NumCompiledShaders : Nat := 0
  bIsCompilationComplete : Bool := false
  deriving DecidableEq, Repr

/-- The constructor of `FCompileJobHandle`: the shader list of the map, and its size. -/
def FCompileJobHandle.create {F : Type} (ShaderMap : List FShader) (Platform : FJobTarget) :
    FCompileJobHandle F :=
  { OutShaders := ShaderMap, Platform := Platform, TotalNumShaders := ShaderMap.length }

/-- The body of the loop of `FCompileJobHandle::Run` for one shader, up to the increment of
`NumCompiledShaders`. -/
def RunShader {F : Type} (X : Externals F) (Platform : FJobTarget) (shader : FShader)
    (Raw : FMaliOCRawCompilerOutput F) : Except Failure (FMaliOCRawCompilerOutput F) :=
  let freq := shader.Frequency
  if freq ≠ EShaderFrequency.SF_Pixel ∧ freq ≠ EShaderFrequency.SF_Vertex then
    .ok (Raw.Add (errorEntry { ShaderName := shader.TypeName, Frequency := freq }
      ["Cross compiler produced invalid output",
       "The shader type is neither fragment nor vertex"]))
  else
    let TypeEnum : Nat :=
      if freq = EShaderFrequency.SF_Vertex then GL_VERTEX_SHADER else GL_FRAGMENT_SHADER
    let GlslCode : String := X.GLSLToDeviceCompatibleGLSL Platform TypeEnum shader.GlslCode
    let type : String := if freq = EShaderFrequency.SF_Pixel then "fragment" else "vertex"
    let result := X.malicm_compile GlslCode type Platform.Compiler
    AppendNewRawCompilerOutput X result.1 result.2 GlslCode shader Raw

/-- The loop of `FCompileJobHandle::Run` over the remaining shaders, carrying the raw
output and the counter `NumCompiledShaders`. -/
def RunLoop {F : Type} (X : Externals F) (Platform : FJobTarget) :
    List FShader → FMaliOCRawCompilerOutput F × Nat →
      Except Failure (FMaliOCRawCompilerOutput F × Nat)
  | [], state => .ok state
  | shader :: rest, (Raw, NumCompiledShaders) =>
    match RunShader X Platform shader Raw with
    | .error e => .error e
    | .ok Raw' => RunLoop X Platform rest (Raw', NumCompiledShaders + 1)

/-- The method `FCompileJobHandle::Run`. -/
def FCompileJobHandle.Run {F : Type} (X : Externals F) (job : FCompileJobHandle F) :
    Except Failure (FCompileJobHandle F) :=
  match RunLoop X job.Platform job.OutShaders (job.RawCompilerOutput, job.NumCompiledShaders) with
  | .error e => .error e
  | .ok (Raw, n) => .ok { job with RawCompilerOutput := Raw, NumCompiledShaders := n }

/-- The method `FCompileJobHandle::Exit`. -/
def FCompileJobHandle.Exit {F : Type} (job : FCompileJobHandle F) : FCompileJobHandle F :=
  { job with bIsCompilationComplete := true }

/-- The method `FCompileJobHandle::BeginCompilationAsync`: the thread now exists. -/
def FCompileJobHandle.BeginCompilationAsync {F : Type} (job : FCompileJobHandle F) :
    FCompileJobHandle F :=
  { job with Thread := true }

/-- The job's thread from start to end: `Run()` and then `Exit()`. -/
def FCompileJobHandle.runThread {F : Type} (X : Externals F) (job : FCompileJobHandle F) :
    Except Failure (FCompileJobHandle F) :=
  match job.Run X with
  | .error e => .error e
  | .ok job' => .ok job'.Exit

/-! ## The job scheduler -/

/-- The scheduler part of `FAsyncCompiler`. `handles` lists every job handle created so
far, in creation order; a pointer to a handle is its position in `handles`. `CurrentJob`
is the `TSharedPtr` of that name (`none` for null) and `Jobs` is the queue, front first. -/
structure FAsyncCompiler (F : Type) where
  handles : List (FCompileJobHandle F) := []
  CurrentJob : Option Nat := none
  Jobs : List Nat := []
  deriving DecidableEq, Repr

/-- Applies `f` to the handle behind pointer `j`. -/
def FAsyncCompiler.updateJob {F : Type} (c : FAsyncCompiler F) (j : Nat)
    (f : FCompileJobHandle F → FCompileJobHandle F) : FAsyncCompiler F :=
  match c.handles[j]? with
  | some job => { c with handles := c.handles.set j (f job) }
  | none => c

/-- The test `CurrentJob.IsValid() && CurrentJob->IsCompilationFinished()`. -/
def FAsyncCompiler.currentJobFinished {F : Type} (c : FAsyncCompiler F) : Bool :=
  match c.CurrentJob with
  | some j =>
    match c.handles[j]? with
    | some job => job.bIsCompilationComplete
    | none => false
  | none => false

/-- The first statement of `FAsyncCompiler::Tick`: a finished current job is released. -/
def FAsyncCompiler.releaseFinished {F : Type} (c : FAsyncCompiler F) : FAsyncCompiler F :=
  if c.currentJobFinished then { c with CurrentJob := none } else c

/-- The second statement of `FAsyncCompiler::Tick`: with no current job and a pending one,
the front of the queue becomes the current job and its thread is created. -/
def FAsyncCompiler.startNext {F : Type} (c : FAsyncCompiler F) : FAsyncCompiler F :=
  match c.CurrentJob, c.Jobs with
  | none, j :: rest =>
    ({ c with CurrentJob := some j, Jobs := rest } : FAsyncCompiler F).updateJob j
      FCompileJobHandle.BeginCompilationAsync
  | _, _ => c

/-- The method `FAsyncCompiler::Tick`. -/
def FAsyncCompiler.Tick {F : Type} (c : FAsyncCompiler F) : FAsyncCompiler F :=
  c.releaseFinished.startNext

/-- The method `FAsyncCompiler::AddJob`: the new handle and the scheduler after the call. -/
def FAsyncCompiler.AddJob {F : Type} (c : FAsyncCompiler F) (ShaderMap : List FShader)
    (Platform : FJobTarget) : Nat × FAsyncCompiler F :=
  let handle := c.handles.length
  (handle, { c with handles := c.handles ++ [FCompileJobHandle.create ShaderMap Platform],
                    Jobs := c.Jobs ++ [handle] })

/-- The thread of job `j` runs to its end. Only a job whose thread was created and has not
ended has a running thread; for any other `j` nothing happens. -/
def FAsyncCompiler.threadEnds {F : Type} (X : Externals F) (c : FAsyncCompiler F) (j : Nat) :
    Except Failure (FAsyncCompiler F) :=
  match c.handles[j]? with
  | some job =>
    if job.Thread = true ∧ job.bIsCompilationComplete = false then
      match job.runThread X with
      | .error e => .error e
      | .ok job' => .ok { c with handles := c.handles.set j job' }
    else .ok c
  | none => .ok c

/-- Several thread endings, one after the other. -/
def FAsyncCompiler.threadsEnd {F : Type} (X : Externals F) :
    List Nat → FAsyncCompiler F → Except Failure (FAsyncCompiler F)
  | [], c => .ok c
  | j :: rest, c =>
    match c.threadEnds X j with
    | .error e => .error e
    | .ok c' => FAsyncCompiler.threadsEnd X rest c'

/-- The loop `while (CurrentJob.IsValid()) { Sleep(0.01f); Tick(0.0f); }` of
`FinishCompilation`. The list gives, for each `Sleep`, the jobs whose threads end during
it; the result is `none` when the loop is still waiting after the last listed `Sleep`. -/
def FAsyncCompiler.finishLoop {F : Type} (X : Externals F) :
    List (List Nat) → FAsyncCompiler F → Except Failure (Option (FAsyncCompiler F))
  | [], c => if c.CurrentJob.isSome then .ok none else .ok (some c)
  | ended :: sleeps, c =>
    if c.CurrentJob.isSome then
      match c.threadsEnd X ended with
      | .error e => .error e
      | .ok c' => FAsyncCompiler.finishLoop X sleeps c'.Tick
    else .ok (some c)

/-- The method `FAsyncCompiler::FinishCompilation`: a `Tick`, then the waiting loop. -/
def FAsyncCompiler.FinishCompilation {F : Type} (X : Externals F) (sleeps : List (List Nat))
    (c : FAsyncCompiler F) : Except Failure (Option (FAsyncCompiler F)) :=
  FAsyncCompiler.finishLoop X sleeps c.Tick

/-! ## The report -/

/-- The struct `FMaliOCReport::FErrorReport`. -/
structure FErrorReport where
  TitleName : String := ""
  Details : List String := []
  Errors : List String := []
  Warnings : List String := []
  SourceCode : String := ""
  deriving DecidableEq, Repr

/-- The struct `FMaliOCReport::FMidgardReport::FRenderTarget`; `StatsTable` is the 5*4
table of texts, row by row. -/
structure FReportRenderTarget where
  Index : Nat
  StatsTable : List String
  ExtraDetails : List String
  deriving DecidableEq, Repr

/-- The struct `FMaliOCReport::FMidgardReport`. -/
structure FMidgardReport where
  TitleName : String
  VertexFactoryName : String
  Details : List String
  RenderTargets : List FReportRenderTarget
  Warnings : List String
  SourceCode : String
  deriving DecidableEq, Repr

/-- The struct `FMaliOCReport::FUtgardReport`. -/
structure FUtgardReport where
  TitleName : String
  VertexFactoryName : String
  Details : List String
  ExtraDetails : List String
  Warnings : List String
  SourceCode : String
  deriving DecidableEq, Repr

/-- The struct `FMaliOCReport`. -/
structure FMaliOCReport where
  ErrorList : List FErrorReport := []
  ShaderSummaryStrings : List String := []
  MidgardSummaryReports : List FMidgardReport := []
  MidgardReports : List FMidgardReport := []
  UtgardSummaryReports : List FUtgardReport := []
  UtgardReports : List FUtgardReport := []
  deriving DecidableEq, Repr

/-- The lambda `GetMidgardBoundPipe` on its three `uint32` parameters. -/
def GetMidgardBoundPipe (a ls t : Nat) : String :=
  let max := Nat.max (Nat.max a ls) t
  if max = a then "Arithmetic"
  else if max = ls then "Load/Store"
  else "Texture"

/-- The struct `FMidgardBoundPipes`. -/
structure FMidgardBoundPipes where
  ShortestBound : String
  LongestBound : String
  deriving DecidableEq, Repr

/-- The function `GetMidgardBoundPipes`: the `float` counts are passed as `uint32`. -/
def GetMidgardBoundPipes {F : Type} (X : Externals F) (RenderTarget : FRenderTarget F) :
    FMidgardBoundPipes :=
  { ShortestBound :=
      GetMidgardBoundPipe (X.toUInt32 RenderTarget.arithmetic_shortest_path)
        (X.toUInt32 RenderTarget.load_store_shortest_path)
        (X.toUInt32 RenderTarget.texture_shortest_path),
    LongestBound :=
      GetMidgardBoundPipe (X.toUInt32 RenderTarget.arithmetic_longest_path)
        (X.toUInt32 RenderTarget.load_store_longest_path)
        (X.toUInt32 RenderTarget.texture_longest_path) }

/-- The function `GetDetailsFromCommonOutput`. -/
def GetDetailsFromCommonOutput (CommonOutput : FCommonOutput) : List String :=
  if CommonOutput.Frequency = EShaderFrequency.SF_Pixel then ["<Text.Bold>Fragment Shader</>"]
  else if CommonOutput.Frequency = EShaderFrequency.SF_Vertex then ["<Text.Bold>Vertex Shader</>"]
  else []

/-- The format `%u` applied to an `int` argument. -/
def PrintfU (x : Int) : String :=
  toString (x % 2 ^ 32).toNat

/-- The error report built for one raw error entry. -/
def errorReportOf (rawError : FErrorOutput) : FErrorReport :=
  { TitleName := rawError.CommonOutput.ShaderName,
    Details := GetDetailsFromCommonOutput rawError.CommonOutput,
    SourceCode := rawError.CommonOutput.SourceCode,
    Warnings := rawError.CommonOutput.Warnings,
    Errors := rawError.Errors }

/-- The render-target report built for one raw render target. -/
def renderTargetReportOf {F : Type} (X : Externals F) (rt : FRenderTarget F) :
    FReportRenderTarget :=
  let BoundPipes := GetMidgardBoundPipes X rt
  { Index := (rt.render_target % 2 ^ 32).toNat,
    StatsTable :=
      ["", "A", "L/S", "T", "Bound",
       "Shortest Path (Cycles)", X.PrintfG4 rt.arithmetic_shortest_path,
       X.PrintfG4 rt.load_store_shortest_path, X.PrintfG4 rt.texture_shortest_path,
       BoundPipes.ShortestBound,
       "Longest Path (Cycles)", X.PrintfG4 rt.arithmetic_longest_path,
       X.PrintfG4 rt.load_store_longest_path, X.PrintfG4 rt.texture_longest_path,
       BoundPipes.LongestBound,
       "Instructions Emitted", X.PrintfG4 rt.arithmetic_cycles,
       X.PrintfG4 rt.load_store_cycles, X.PrintfG4 rt.texture_cycles, ""],
    ExtraDetails :=
      [PrintfU rt.work_registers_used ++ " work registers used",
       PrintfU rt.uniform_registers_used ++ " uniform registers used",
       if rt.spilling_used then "<Text.Warning>Register spilling used</>"
       else "Register spilling not used"] }

/-- The Midgard report built for one raw Midgard entry. -/
def midgardReportOf {F : Type} (X : Externals F) (output : FMidgardOutput F) : FMidgardReport :=
  { TitleName := output.CommonOutput.ShaderName,
    VertexFactoryName := output.CommonOutput.VertexFactoryName,
    Details := GetDetailsFromCommonOutput output.CommonOutput,
    SourceCode := output.CommonOutput.SourceCode,
    Warnings := output.CommonOutput.Warnings,
    RenderTargets := output.RenderTargets.map (renderTargetReportOf X) }

/-- The Utgard report built for one raw Utgard entry. -/
def utgardReportOf (output : FUtgardOutput) : FUtgardReport :=
  { TitleName := output.CommonOutput.ShaderName,
    VertexFactoryName := output.CommonOutput.VertexFactoryName,
    Details := GetDetailsFromCommonOutput output.CommonOutput,
    SourceCode := output.CommonOutput.SourceCode,
    Warnings := output.CommonOutput.Warnings,
    ExtraDetails :=
      ["Number of instruction words emitted: " ++ PrintfU output.n_instruction_words,
       "Number of cycles for shortest code path: " ++ PrintfU output.min_number_of_cycles,
       "Number of cycles for longest code path: " ++ PrintfU output.max_number_of_cycles] }

/-- The two lines a summary copy of a report adds to `Details`. -/
def summaryDetails (Details : List String) (VertexFactoryName shaderDescription : String) :
    List String :=
  Details ++ ["<Text.Bold>" ++ VertexFactoryName ++ "</>",
              "<Text.Bold>" ++ shaderDescription ++ "</>"]

/-- The summary copies of the Midgard reports: one for each report whose title has a
description, in order. -/
def midgardSummaries (descriptions : List (String × String)) (reports : List FMidgardReport) :
    List FMidgardReport :=
  reports.filterMap fun report =>
    match descriptions.lookup report.TitleName with
    | some shaderDescription =>
      some { report with
             Details := summaryDetails report.Details report.VertexFactoryName shaderDescription }
    | none => none

/-- The summary copies of the Utgard reports. -/
def utgardSummaries (descriptions : List (String × String)) (reports : List FUtgardReport) :
    List FUtgardReport :=
  reports.filterMap fun report =>
    match descriptions.lookup report.TitleName with
    | some shaderDescription =>
      some { report with
             Details := summaryDetails report.Details report.VertexFactoryName shaderDescription }
    | none => none

/-- The order a `Sort` with the predicate `a->TitleName < b->TitleName` sorts by: `a` may
stand before `b` unless `b` is less than `a`. -/
def titleOrder {F : Type} (X : Externals F) (a b : String) : Prop :=
  X.FStringLess b a = false

instance titleOrderDecidable {F : Type} (X : Externals F) : DecidableRel (titleOrder X) :=
  fun a b => inferInstanceAs (Decidable (X.FStringLess b a = false))

/-- The report `GetReport` builds when the error flag is set. -/
def crossCompilationErrorReport (compileErrors : List String) : FMaliOCReport :=
  let errorReport : FErrorReport :=
    { TitleName := "Cross Compilation Errors",
      Errors :=
        if compileErrors.length = 0 then ["An unknown error occurred. Try again."]
        else compileErrors }
  { ErrorList := [errorReport] }

/-- The report `GetReport` builds from the raw output of the finished job. -/
def compilationReport {F : Type} (X : Externals F) (descriptions : List (String × String))
    (rawReport : FMaliOCRawCompilerOutput F) : FMaliOCReport :=
  let ErrorList := rawReport.ErrorOutput.map errorReportOf
  let MidgardReports := rawReport.MidgardOutput.map (midgardReportOf X)
  let UtgardReports := rawReport.UtgardOutput.map utgardReportOf
  let ShaderSummaryStrings : List String :=
    (if rawReport.MidgardOutput.length ≠ 0 then
      ["<Text.Bold>A = Arithmetic, L/S = Load/Store, T = Texture</>"]
     else []) ++
    ["<Text.Bold>The cycle counts do not include possible stalls due to cache misses.</>",
     "<Text.Bold>Shaders with loops may return \" - 1\" for cycle counts if the number of cycles cannot be statically determined.</>"]
  { ErrorList := ErrorList.insertionSort (fun a b => titleOrder X a.TitleName b.TitleName),
    ShaderSummaryStrings := ShaderSummaryStrings,
    MidgardSummaryReports := midgardSummaries descriptions MidgardReports,
    MidgardReports :=
      MidgardReports.insertionSort (fun a b => titleOrder X a.TitleName b.TitleName),
    UtgardSummaryReports := utgardSummaries descriptions UtgardReports,
    UtgardReports :=
      UtgardReports.insertionSort (fun a b => titleOrder X a.TitleName b.TitleName) }

/-! ## The report session -/

/-- The enum `FAsyncReportGenerator::EProgress`. -/
inductive EProgress where
  | CROSS_COMPILATION_IN_PROGRESS
  | MALIOC_COMPILATION_IN_PROGRESS
  | COMPILATION_COMPLETE
  deriving DecidableEq, Repr

/-- The struct `FAsyncReportGenerator::FMaliOCCompilationProgress`. -/
structure FMaliOCCompilationProgress where
  NumCompiledShaders : Nat := 0
  NumTotalShaders : Nat := 0
  deriving DecidableEq, Repr

/-- The class `FAsyncReportGenerator`. `JobHandle` is a pointer into the scheduler's
`handles`. `NumCacheShadersCalls` is not a member of the class: it counts the calls of
`Resource->CacheShaders` the session has made. -/
structure FAsyncReportGenerator where
  Platform : FJobTarget
  Resource : FMaterialResource
  bWasCompilationError : Bool := false
  Progress : EProgress := EProgress.CROSS_COMPILATION_IN_PROGRESS
  JobHandle : Option Nat := none
  CachedReport : Option FMaliOCReport := none
  NumAttempts : Nat := 0
  NumCacheShadersCalls : Nat := 0
  deriving DecidableEq, Repr

/-- The constructor of `FAsyncReportGenerator`, on the resource as `SetMaterial` left it. -/
def FAsyncReportGenerator.create {F : Type} (X : Externals F) (Resource : FMaterialResource)
    (Platform : FJobTarget) : FAsyncReportGenerator :=
  let result := X.CacheShaders Resource
  let g : FAsyncReportGenerator :=
    { Platform := Platform, Resource := result.2, NumCacheShadersCalls := 1 }
  if result.1 = false then
    { g with bWasCompilationError := true, Progress := EProgress.COMPILATION_COMPLETE }
  else g

/-- The dereference `JobHandle->`: the handle a session's pointer leads to. -/
def FAsyncCompiler.deref {F : Type} (c : FAsyncCompiler F) (JobHandle : Option Nat) :
    Except Failure (FCompileJobHandle F) :=
  match JobHandle with
  | none => .error Failure.nullDereference
  | some h =>
    match c.handles[h]? with
    | some job => .ok job
    | none => .error Failure.nullDereference

/-- The end of `FAsyncReportGenerator::Tick`, from
`if (Progress == EProgress::MALIOC_COMPILATION_IN_PROGRESS)` on. -/
def FAsyncReportGenerator.tickBackend {F : Type} (g : FAsyncReportGenerator)
    (c : FAsyncCompiler F) : Except Failure (FAsyncReportGenerator × FAsyncCompiler F) :=
  if g.Progress = EProgress.MALIOC_COMPILATION_IN_PROGRESS then
    match c.deref g.JobHandle with
    | .error e => .error e
    | .ok job =>
      if job.bIsCompilationComplete = false then .ok (g, c)
      else .ok ({ g with Progress := EProgress.COMPILATION_COMPLETE }, c)
  else .ok ({ g with Progress := EProgress.COMPILATION_COMPLETE }, c)

/-- The method `FAsyncReportGenerator::Tick`, on the session and the scheduler
`FAsyncCompiler::Get()`. The call `Resource->FinishCompilation()` is made on a resource
whose compilation is finished, where it does nothing. -/
def FAsyncReportGenerator.Tick {F : Type} (X : Externals F) (g : FAsyncReportGenerator)
    (c : FAsyncCompiler F) : Except Failure (FAsyncReportGenerator × FAsyncCompiler F) :=
  if g.Progress = EProgress.COMPILATION_COMPLETE then .ok (g, c)
  else if g.Progress = EProgress.CROSS_COMPILATION_IN_PROGRESS then
    if g.Resource.bCompilationFinished = false then .ok (g, c)
    else
      match g.Resource.GameThreadShaderMap with
      | none =>
        if g.Resource.CompileErrors.length = 0 ∧ g.NumAttempts = 0 then
          .ok ({ g with Resource := (X.CacheShaders g.Resource).2,
                        NumAttempts := g.NumAttempts + 1,
                        NumCacheShadersCalls := g.NumCacheShadersCalls + 1 }, c)
        else
          .ok ({ g with bWasCompilationError := true,
                        Progress := EProgress.COMPILATION_COMPLETE }, c)
      | some ShaderMap =>
        if g.JobHandle.isSome then .error Failure.checkJobHandleNotValid
        else
          let added := c.AddJob ShaderMap g.Platform
          FAsyncReportGenerator.tickBackend
            { g with JobHandle := some added.1,
                     Progress := EProgress.MALIOC_COMPILATION_IN_PROGRESS } added.2
  else FAsyncReportGenerator.tickBackend g c

/-- The blocking `Resource->FinishCompilation()`: a pending cross-compilation ends with the
given shader map and errors; a finished one is left as it is. -/
def FMaterialResource.FinishCompilation (outcome : Option (List FShader) × List String)
    (r : FMaterialResource) : FMaterialResource :=
  if r.bCompilationFinished then r
  else { r with bCompilationFinished := true, GameThreadShaderMap := outcome.1,
                CompileErrors := outcome.2 }

/-- The method `FAsyncReportGenerator::FinishReportGeneration`. `outcome` is what a pending
cross-compilation ends with, `sleeps` the thread endings during each `Sleep` of the
scheduler's `FinishCompilation`; the result is `none` when that loop is still waiting after
the last listed `Sleep`. -/
def FAsyncReportGenerator.FinishReportGeneration {F : Type} (X : Externals F)
    (outcome : Option (List FShader) × List String) (sleeps : List (List Nat))
    (g : FAsyncReportGenerator) (c : FAsyncCompiler F) :
    Except Failure (Option (FAsyncReportGenerator × FAsyncCompiler F)) :=
  if g.Progress = EProgress.COMPILATION_COMPLETE then .ok (some (g, c))
  else
    let crossDone : Except Failure (FAsyncReportGenerator × FAsyncCompiler F) :=
      if g.Progress = EProgress.CROSS_COMPILATION_IN_PROGRESS then
        match FAsyncReportGenerator.Tick X
            { g with Resource := g.Resource.FinishCompilation outcome } c with
        | .error e => .error e
        | .ok (g1, c1) =>
          if g1.Progress = EProgress.MALIOC_COMPILATION_IN_PROGRESS then .ok (g1, c1)
          else .error Failure.checkProgressIsMaliocInProgress
      else .ok (g, c)
    match crossDone with
    | .error e => .error e
    | .ok (g1, c1) =>
      let backendDone : Except Failure (Option (FAsyncReportGenerator × FAsyncCompiler F)) :=
        if g1.Progress = EProgress.MALIOC_COMPILATION_IN_PROGRESS then
          match c1.FinishCompilation X sleeps with
          | .error e => .error e
          | .ok none => .ok none
          | .ok (some c2) =>
            match FAsyncReportGenerator.Tick X g1 c2 with
            | .error e => .error e
            | .ok r => .ok (some r)
        else .ok (some (g1, c1))
      match backendDone with
      | .error e => .error e
      | .ok none => .ok none
      | .ok (some (g2, c2)) =>
        if g2.Progress = EProgress.COMPILATION_COMPLETE then .ok (some (g2, c2))
        else .error Failure.checkProgressIsCompleteAtFinish

/-- The method `FAsyncReportGenerator::GetProgress`. -/
def FAsyncReportGenerator.GetProgress (g : FAsyncReportGenerator) : EProgress :=
  g.Progress

/-- The method `FAsyncReportGenerator::GetMaliOCCompilationProgress`. -/
def FAsyncReportGenerator.GetMaliOCCompilationProgress {F : Type} (g : FAsyncReportGenerator)
    (c : FAsyncCompiler F) : Except Failure FMaliOCCompilationProgress :=
  if g.JobHandle.isSome then
    match c.deref g.JobHandle with
    | .error e => .error e
    | .ok job =>
      .ok { NumCompiledShaders := job.NumCompiledShaders,
            NumTotalShaders := job.TotalNumShaders }
  else .ok {}

/-- The method `FCompileJobHandle::GetRawCompilerOutput`. -/
def FCompileJobHandle.GetRawCompilerOutput {F : Type} (job : FCompileJobHandle F) :
    Except Failure (FMaliOCRawCompilerOutput F) :=
  if job.bIsCompilationComplete then .ok job.RawCompilerOutput
  else .error Failure.checkIsCompilationFinished

/-- The method `FAsyncReportGenerator::GetReport`: the report, and the session with its
`mutable` member `CachedReport` as the call leaves it. -/
def FAsyncReportGenerator.GetReport {F : Type} (X : Externals F) (g : FAsyncReportGenerator)
    (c : FAsyncCompiler F) : Except Failure (FMaliOCReport × FAsyncReportGenerator) :=
  if g.Progress ≠ EProgress.COMPILATION_COMPLETE then
    .error Failure.checkProgressIsCompleteAtGetReport
  else
    match g.CachedReport with
    | some report => .ok (report, g)
    | none =>
      if g.bWasCompilationError then
        let report := crossCompilationErrorReport g.Resource.CompileErrors
        .ok (report, { g with CachedReport := some report })
      else if g.JobHandle.isSome = false then .error Failure.checkJobHandleValid
      else
        match c.deref g.JobHandle with
        | .error e => .error e
        | .ok job =>
          match job.GetRawCompilerOutput with
          | .error e => .error e
          | .ok rawReport =>
            let report :=
              compilationReport X g.Resource.ShaderTypeNamesAndDescriptions rawReport
            .ok (report, { g with CachedReport := some report })

/-! ## Scheduler events and reachable scheduler states -/

/-- What can happen to the scheduler: a call of `AddJob`, a call of `Tick`, and the end of
the thread of job `j`. -/
inductive SchedulerEvent where
  | addJob (ShaderMap : List FShader) (Platform : FJobTarget)
  | tick
  | threadEnds (j : Nat)
  deriving DecidableEq, Repr

/-- The scheduler after one event. -/
def FAsyncCompiler.step {F : Type} (X : Externals F) (c : FAsyncCompiler F) :
    SchedulerEvent → Except Failure (FAsyncCompiler F)
  | SchedulerEvent.addJob ShaderMap Platform => .ok (c.AddJob ShaderMap Platform).2
  | SchedulerEvent.tick => .ok c.Tick
  | SchedulerEvent.threadEnds j => c.threadEnds X j

/-- The scheduler after a list of events, one after the other. -/
def FAsyncCompiler.run {F : Type} (X : Externals F) :
    FAsyncCompiler F → List SchedulerEvent → Except Failure (FAsyncCompiler F)
  | c, [] => .ok c
  | c, e :: rest =>
    match c.step X e with
    | .error e => .error e
    | .ok c' => FAsyncCompiler.run X c' rest

/-- The scheduler states reachable from the freshly constructed scheduler. -/
inductive FAsyncCompiler.Reachable {F : Type} (X : Externals F) : FAsyncCompiler F → Prop
  | init : FAsyncCompiler.Reachable X {}
  | step {c c' : FAsyncCompiler F} (e : SchedulerEvent) :
      FAsyncCompiler.Reachable X c → c.step X e = .ok c' → FAsyncCompiler.Reachable X c'

/-- Whether the thread of job `j` has been created (the job has been started). -/
def FAsyncCompiler.started {F : Type} (c : FAsyncCompiler F) (j : Nat) : Bool :=
  match c.handles[j]? with
  | some job => job.Thread
  | none => false

/-- Whether job `j` has finished (`IsCompilationFinished()`). -/
def FAsyncCompiler.finished {F : Type} (c : FAsyncCompiler F) (j : Nat) : Bool :=
  match c.handles[j]? with
  | some job => job.bIsCompilationComplete
  | none => false

/-- Whether job `j` has been started and has not yet finished. -/
def FAsyncCompiler.running {F : Type} (c : FAsyncCompiler F) (j : Nat) : Bool :=
  c.started j && !c.finished j

/-- The number of entries of a raw output, over its three lists. -/
def FMaliOCRawCompilerOutput.size {F : Type} (Raw : FMaliOCRawCompilerOutput F) : Nat :=
  Raw.ErrorOutput.length + Raw.MidgardOutput.length + Raw.UtgardOutput.length

/-- The invariant of the scheduler, with `k` the number of jobs started so far: the queue
holds the handles `k, k+1, ...` in this order, exactly the jobs below `k` are started, and
each of them is finished unless it is the current job, which can only be job `k - 1`. -/
def FAsyncCompiler.InvAt {F : Type} (c : FAsyncCompiler F) (k : Nat) : Prop :=
  k ≤ c.handles.length ∧
  c.Jobs = List.range' k (c.handles.length - k) ∧
  (∀ j, c.started j = true ↔ j < k) ∧
  (∀ j, c.finished j = true → j < k) ∧
  (∀ j, j < k → c.finished j = true ∨ c.CurrentJob = some j) ∧
  (∀ j, c.CurrentJob = some j → j + 1 = k)

/-- The invariant of one job handle: its total is the number of its shaders; before its
thread has ended nothing is recorded, afterwards one entry and one count per shader. -/
def FCompileJobHandle.Inv {F : Type} (job : FCompileJobHandle F) : Prop :=
  job.TotalNumShaders = job.OutShaders.length ∧
  (job.bIsCompilationComplete = false →
    job.RawCompilerOutput.size = 0 ∧ job.NumCompiledShaders = 0) ∧
  (job.bIsCompilationComplete = true →
    job.RawCompilerOutput.size = job.TotalNumShaders ∧
    job.NumCompiledShaders = job.TotalNumShaders)

/-- The number of jobs the scheduler still has to see finish: the queued ones and the
current one. -/
def FAsyncCompiler.pending {F : Type} (c : FAsyncCompiler F) : Nat :=
  c.Jobs.length + (if c.CurrentJob.isSome then 1 else 0)

/-- No job of the scheduler has a shader on which `Run` dies. -/
def FAsyncCompiler.threadsNeverFail {F : Type} (X : Externals F) (c : FAsyncCompiler F) : Prop :=
  ∀ job, job ∈ c.handles → ∀ Raw n, ∃ r, RunLoop X job.Platform job.OutShaders (Raw, n) = .ok r

/-! ## Session events and reachable sessions -/

/-- The position of a progress value in the order CrossCompiling, BackendCompiling,
Complete. -/
def EProgress.rank : EProgress → Nat
  | EProgress.CROSS_COMPILATION_IN_PROGRESS => 0
  | EProgress.MALIOC_COMPILATION_IN_PROGRESS => 1
  | EProgress.COMPILATION_COMPLETE => 2

/-- A report session together with the scheduler `FAsyncCompiler::Get()` it adds its job to. -/
structure Session (F : Type) where
  gen : FAsyncReportGenerator
  compiler : FAsyncCompiler F
  deriving DecidableEq, Repr

/-- What can happen to a session: the editor ticks the report generator; the scheduler is
ticked, gets a job of another session, or sees a thread end; a pending cross-compilation
ends with a shader map (or none) and a list of errors; the report is fetched. -/
inductive SessionEvent where
  | generatorTick
  | scheduler (e : SchedulerEvent)
  | crossCompiled (ShaderMap : Option (List FShader)) (CompileErrors : List String)
  | getReport
  deriving DecidableEq, Repr

/-- The session after one event. -/
def Session.step {F : Type} (X : Externals F) (s : Session F) :
    SessionEvent → Except Failure (Session F)
  | SessionEvent.generatorTick =>
    match s.gen.Tick X s.compiler with
    | .error e => .error e
    | .ok (g, c) => .ok { gen := g, compiler := c }
  | SessionEvent.scheduler e =>
    match s.compiler.step X e with
    | .error e => .error e
    | .ok c => .ok { s with compiler := c }
  | SessionEvent.crossCompiled ShaderMap CompileErrors =>
    .ok { s with gen := { s.gen with
            Resource := s.gen.Resource.FinishCompilation (ShaderMap, CompileErrors) } }
  | SessionEvent.getReport =>
    match s.gen.GetReport X s.compiler with
    | .error e => .error e
    | .ok (_, g) => .ok { s with gen := g }

/-- The session after a list of events, one after the other. -/
def Session.run {F : Type} (X : Externals F) :
    Session F → List SessionEvent → Except Failure (Session F)
  | s, [] => .ok s
  | s, e :: rest =>
    match s.step X e with
    | .error e => .error e
    | .ok s' => Session.run X s' rest

/-- The sessions reachable from a newly constructed report generator beside a reachable
scheduler. -/
inductive Session.Reachable {F : Type} (X : Externals F) : Session F → Prop
  | init (c : FAsyncCompiler F) (Resource : FMaterialResource) (Platform : FJobTarget) :
      FAsyncCompiler.Reachable X c →
      Session.Reachable X { gen := FAsyncReportGenerator.create X Resource Platform, compiler := c }
  | step {s s' : Session F} (e : SessionEvent) :
      Session.Reachable X s → s.step X e = .ok s' → Session.Reachable X s'

/-- The invariant of a session. -/
def Session.Inv {F : Type} (s : Session F) : Prop :=
  (s.gen.NumAttempts ≤ 1 ∧ s.gen.NumCacheShadersCalls = s.gen.NumAttempts + 1) ∧
  (s.gen.Progress = EProgress.CROSS_COMPILATION_IN_PROGRESS →
    s.gen.bWasCompilationError = false ∧ s.gen.JobHandle = none) ∧
  (s.gen.Progress ≠ EProgress.COMPILATION_COMPLETE → s.gen.CachedReport = none) ∧
  (∀ h, s.gen.JobHandle = some h → h < s.compiler.handles.length) ∧
  (s.gen.Progress = EProgress.MALIOC_COMPILATION_IN_PROGRESS →
    s.gen.bWasCompilationError = false ∧ s.gen.JobHandle.isSome = true) ∧
  (s.gen.Progress = EProgress.COMPILATION_COMPLETE → s.gen.bWasCompilationError = false →
    ∃ h, s.gen.JobHandle = some h ∧ s.compiler.finished h = true) ∧
  (∀ r, s.gen.CachedReport = some r → s.gen.bWasCompilationError = true →
    ∃ errors, r = crossCompilationErrorReport errors)

/-! ## Sample objects -/

/-- Sample externals over integer `float`s: a backend that answers every compilation with
one Midgard flexible output, and a cross-compiler whose requests succeed. -/
def demoExternals : Externals Int :=
  { Atoi := fun s => s.length
    Atof := fun s => s.length
    zero := 0
    toUInt32 := Int.toNat
    PrintfG4 := fun _ => "0"
    FStringLess := fun a b => decide (a < b)
    GLSLToDeviceCompatibleGLSL := fun _ _ glsl => glsl
    malicm_compile := fun _ _ _ =>
      (true, { flexible_outputs :=
                 [{ list := ["architecture", "midgard", "render_target", "0",
                             "work_registers_used", "4"] }],
               errors := [], warnings := [] })
    CacheShaders := fun r => (true, { r with bCompilationFinished := false }) }

/-- A sample fragment shader. -/
def demoShader : FShader :=
  { TypeName := "TBasePassPS", Frequency := EShaderFrequency.SF_Pixel,
    VertexFactoryType := some "FLocalVertexFactory", GlslCode := "void main() {}" }

/-- A sample target. -/
def demoTarget : FJobTarget :=
  { PlatformName := "OpenGL ES 2.0", Compiler := 0, MaxAPI := 300, Extensions := "",
    CoreName := "Mali-T600" }

/-- The scheduler after `AddJob` of two jobs and a `Tick`: job 0 runs, job 1 waits. -/
def demoRunning : FAsyncCompiler Int :=
  ((({} : FAsyncCompiler Int).AddJob [demoShader] demoTarget).2.AddJob
    [demoShader] demoTarget).2.Tick

/-- A sample material resource whose cross-compilation has not been requested yet. -/
def demoResource : FMaterialResource :=
  { bCompilationFinished := true, GameThreadShaderMap := none, CompileErrors := [],
    ShaderTypeNamesAndDescriptions := [("TBasePassPS", "Base pass shader")] }

/-- A sample session right after its construction: cross-compilation is pending. -/
def demoSession : Session Int :=
  { gen := FAsyncReportGenerator.create demoExternals demoResource demoTarget, compiler := {} }

/-- The sample session once its cross-compilation has ended with no shader map and no
errors. -/
def demoCrossFailed : Session Int :=
  { gen := { demoSession.gen with
             Resource := demoSession.gen.Resource.FinishCompilation (none, []) },
    compiler := {} }

/-- The sample session once its cross-compilation has ended with no shader map and one
error, and the generator has been ticked. -/
def demoFlagged : Session Int :=
  { gen := { Platform := demoTarget,
             Resource := { bCompilationFinished := true, GameThreadShaderMap := none,
                           CompileErrors := ["error X3004"],
                           ShaderTypeNamesAndDescriptions :=
                             [("TBasePassPS", "Base pass shader")] },
             bWasCompilationError := true, Progress := EProgress.COMPILATION_COMPLETE,
             NumCacheShadersCalls := 1 },
    compiler := {} }

/-- The handle a sample job's thread leaves behind: one Midgard entry, one shader counted. -/
def demoFinishedJob : FCompileJobHandle Int :=
  { OutShaders := [demoShader], Platform := demoTarget,
    RawCompilerOutput :=
      { MidgardOutput :=
          [{ CommonOutput :=
               { ShaderName := "TBasePassPS", Frequency := EShaderFrequency.SF_Pixel,
                 VertexFactoryName := "Default Usage", SourceCode := "void main() {}" },
             RenderTargets :=
               [{ render_target := 1, work_registers_used := 1, uniform_registers_used := 0,
                  arithmetic_cycles := 0, arithmetic_shortest_path := 0,
                  arithmetic_longest_path := 0, load_store_cycles := 0,
                  load_store_shortest_path := 0, load_store_longest_path := 0,
                  texture_cycles := 0, texture_shortest_path := 0,
                  texture_longest_path := 0, spilling_used := false }] }] },
    Thread := true, TotalNumShaders := 1, NumCompiledShaders := 1,
    bIsCompilationComplete := true }

/-- The scheduler `demoRunning` after both of its jobs have run. -/
def demoDrained : FAsyncCompiler Int :=
  { handles := [demoFinishedJob, demoFinishedJob], CurrentJob := none, Jobs := [] }

/-! ## Flexible outputs read as key/value pairs -/

/-- The architecture a block names, read off its key/value pairs: the first pair whose key
is `architecture` and whose value is `midgard` or `utgard` decides; with no such pair there
is none. A last entry without a partner is not a pair. -/
def archOfPairs : List String → EMaliArch
  | key :: value :: rest =>
    if key = "architecture" then
      if value = "midgard" then EMaliArch.Midgard
      else if value = "utgard" then EMaliArch.Utgard
      else archOfPairs rest
    else archOfPairs rest
  | _ => EMaliArch.None

/-- The value paired with `key` in a block: that of the last pair with this key. -/
def lastValue (key : String) : List String → Option String
  | k :: v :: rest =>
    match lastValue key rest with
    | some found => some found
    | none => if k = key then some v else none
  | _ => none

/-- What one recognised pair does to a render-target record: the key tests of
`ParseMidgardFlexibleOutputs` with the value in hand. -/
def midgardAssignPair {F : Type} (X : Externals F) (key value : String) (rt : FRenderTarget F) :
    FRenderTarget F :=
  if key = "render_target" then { rt with render_target := X.Atoi value }
  else if key = "work_registers_used" then { rt with work_registers_used := X.Atoi value }
  else if key = "uniform_registers_used" then
    { rt with uniform_registers_used := X.Atoi value }
  else if key = "arithmetic_cycles" then { rt with arithmetic_cycles := X.Atof value }
  else if key = "arithmetic_shortest_path" then
    { rt with arithmetic_shortest_path := X.Atof value }
  else if key = "arithmetic_longest_path" then
    { rt with arithmetic_longest_path := X.Atof value }
  else if key = "load_store_cycles" then { rt with load_store_cycles := X.Atof value }
  else if key = "load_store_shortest_path" then
    { rt with load_store_shortest_path := X.Atof value }
  else if key = "load_store_longest_path" then
    { rt with load_store_longest_path := X.Atof value }
  else if key = "texture_cycles" then { rt with texture_cycles := X.Atof value }
  else if key = "texture_shortest_path" then { rt with texture_shortest_path := X.Atof value }
  else if key = "texture_longest_path" then { rt with texture_longest_path := X.Atof value }
  else if key = "spilling_used" then { rt with spilling_used := decide (value = "true") }
  else rt

/-- The record a block's pairs lead to, pair after pair from the front. -/
def renderTargetOfPairs {F : Type} (X : Externals F) :
    List String → FRenderTarget F → FRenderTarget F
  | key :: value :: rest, rt => renderTargetOfPairs X rest (midgardAssignPair X key value rt)
  | _, rt => rt

/-- The record the words "for every recognised key present the value paired with it, and
what the record held before for every recognised key that is absent" describe; on the
initial record the latter are the defaults `0` and `false`. -/
def renderTargetByKey {F : Type} (X : Externals F) (list : List String) (rt : FRenderTarget F) :
    FRenderTarget F :=
  { render_target := (lastValue "render_target" list).elim rt.render_target X.Atoi
    work_registers_used :=
      (lastValue "work_registers_used" list).elim rt.work_registers_used X.Atoi
    uniform_registers_used :=
      (lastValue "uniform_registers_used" list).elim rt.uniform_registers_used X.Atoi
    arithmetic_cycles := (lastValue "arithmetic_cycles" list).elim rt.arithmetic_cycles X.Atof
    arithmetic_shortest_path :=
      (lastValue "arithmetic_shortest_path" list).elim rt.arithmetic_shortest_path X.Atof
    arithmetic_longest_path :=
      (lastValue "arithmetic_longest_path" list).elim rt.arithmetic_longest_path X.Atof
    load_store_cycles := (lastValue "load_store_cycles" list).elim rt.load_store_cycles X.Atof
    load_store_shortest_path :=
      (lastValue "load_store_shortest_path" list).elim rt.load_store_shortest_path X.Atof
    load_store_longest_path :=
      (lastValue "load_store_longest_path" list).elim rt.load_store_longest_path X.Atof
    texture_cycles := (lastValue "texture_cycles" list).elim rt.texture_cycles X.Atof
    texture_shortest_path :=
      (lastValue "texture_shortest_path" list).elim rt.texture_shortest_path X.Atof
    texture_longest_path :=
      (lastValue "texture_longest_path" list).elim rt.texture_longest_path X.Atof
    spilling_used :=
      (lastValue "spilling_used" list).elim rt.spilling_used
        (fun value => decide (value = "true")) }

/-- A block whose entry count is at least one and fits an `unsigned int`. -/
def malioc_key_value_pairs.hasEntries (kv : malioc_key_value_pairs) : Prop :=
  0 < kv.list.length ∧ kv.list.length < 2 ^ 32

instance hasEntriesDecidable (kv : malioc_key_value_pairs) : Decidable kv.hasEntries :=
  inferInstanceAs (Decidable (0 < kv.list.length ∧ kv.list.length < 2 ^ 32))

/-! ## The capability graph -/

/-- The two values of the engine's `EShaderPlatform` the plugin names. -/
inductive EShaderPlatform where
  | SP_OPENGL_ES2_ANDROID
  | SP_OPENGL_ES31_EXT
  deriving DecidableEq, Repr

/-- The entry points of `FCompilerManager` the constructor of `FAsyncCompiler` calls:
the compiler list `_malicm_get_compilers` returns for the type `openglessl`, and the
accessors of one compiler. -/
structure FCompilerManager where
  malicm_get_compilers : List malicm_compiler
  malicm_get_core_name : malicm_compiler → String
  malicm_get_core_revision : malicm_compiler → String
  malicm_get_driver_name : malicm_compiler → String
  malicm_get_highest_api_version : malicm_compiler → Nat
  malicm_get_extensions : malicm_compiler → String

/-- The class `FMaliPlatform`. The reference `Driver` is the address of the driver. -/
structure FMaliPlatform where
  PlatformName : String
  Driver : Nat
  Platform : EShaderPlatform
  deriving DecidableEq, Repr

/-- The class `FMaliDriver`. `address` is where the object lives: a C++ reference to the
object is this number. The reference `Revision` is the address of the revision. -/
structure FMaliDriver where
  address : Nat
  DriverName : String
  Revision : Nat
  Compiler : malicm_compiler
  Platforms : List FMaliPlatform
  MaxAPI : Nat
  Extensions : String
  deriving DecidableEq, Repr

/-- The class `FMaliCoreRevision`. The reference `Core` is the address of the core. -/
structure FMaliCoreRevision where
  address : Nat
  RevisionName : String
  Core : Nat
  Drivers : List FMaliDriver
  deriving DecidableEq, Repr

/-- The class `FMaliCore`. -/
structure FMaliCore where
  address : Nat
  CoreName : String
  Revisions : List FMaliCoreRevision
  deriving DecidableEq, Repr

/-- The function `IsCoreBlacklisted`. -/
def IsCoreBlacklisted (_CoreName : String) : Bool := false

/-- The function `IsDriverBlacklisted`. -/
def IsDriverBlacklisted (_DriverName : String) : Bool := false

/-- The search the constructor, `AddRevision` and `AddDriver` share: the first node the
test accepts is the one the method is called on; when there is none, a new node is
emplaced at the end and the method is called on that. -/
def findOrEmplace {α : Type} (isIt : α → Bool) (call : α → α) (emplaced : α) : List α → List α
  | [] => [call emplaced]
  | node :: rest =>
    if isIt node then call node :: rest
    else node :: findOrEmplace isIt call emplaced rest

/-- The method `FMaliDriver::AddShaderPlatform`. -/
def FMaliDriver.AddShaderPlatform (d : FMaliDriver) (PlatformName : String)
    (Platform : EShaderPlatform) : FMaliDriver :=
  { d with Platforms := d.Platforms ++
      [{ PlatformName := PlatformName, Driver := d.address, Platform := Platform }] }

/-- The method `FMaliCoreRevision::AddDriver`; a driver it emplaces lives at `fresh`. -/
def FMaliCoreRevision.AddDriver (r : FMaliCoreRevision) (fresh : Nat) (DriverName : String)
    (Compiler : malicm_compiler) (MaxAPI : Nat) (Extensions PlatformName : String)
    (Platform : EShaderPlatform) : FMaliCoreRevision :=
  let Drivers : List FMaliDriver :=
    findOrEmplace (fun Driver => decide (Driver.DriverName = DriverName))
      (fun Dri => Dri.AddShaderPlatform PlatformName Platform)
      { address := fresh, DriverName := DriverName, Revision := r.address,
        Compiler := Compiler, Platforms := [], MaxAPI := MaxAPI, Extensions := Extensions }
      r.Drivers
  { r with Drivers := Drivers }

/-- The method `FMaliCore::AddRevision`; what it emplaces lives at `fresh`. -/
def FMaliCore.AddRevision (c : FMaliCore) (fresh : Nat) (RevisionName DriverName : String)
    (Compiler : malicm_compiler) (MaxAPI : Nat) (Extensions PlatformName : String)
    (Platform : EShaderPlatform) : FMaliCore :=
  let Revisions : List FMaliCoreRevision :=
    findOrEmplace (fun Revision => decide (Revision.RevisionName = RevisionName))
      (fun Rev => Rev.AddDriver fresh DriverName Compiler MaxAPI Extensions PlatformName
        Platform)
      { address := fresh, RevisionName := RevisionName, Core := c.address, Drivers := [] }
      c.Revisions
  { c with Revisions := Revisions }

/-- The body of the constructor's loop for the compiler at index `i`. The objects it
emplaces get the address `i` in the pool of their class. The branch under `if (false)`
adds nothing. -/
def addCompiler (M : FCompilerManager) (MaliCores : List FMaliCore) (i : Nat)
    (compiler : malicm_compiler) : List FMaliCore :=
  let coreName := M.malicm_get_core_name compiler
  let revisionName := M.malicm_get_core_revision compiler
  let driverName := M.malicm_get_driver_name compiler
  let MaxAPI := M.malicm_get_highest_api_version compiler
  if IsCoreBlacklisted coreName then MaliCores
  else if IsDriverBlacklisted driverName then MaliCores
  else
    let Extensions := M.malicm_get_extensions compiler
    findOrEmplace (fun maliCore => decide (maliCore.CoreName = coreName))
      (fun core => core.AddRevision i revisionName driverName compiler MaxAPI Extensions
        "OpenGL ES 2.0" EShaderPlatform.SP_OPENGL_ES2_ANDROID)
      { address := i, CoreName := coreName, Revisions := [] }
      MaliCores

/-- The constructor's loop from index `i` on. -/
def addCompilersFrom (M : FCompilerManager) :
    List malicm_compiler → Nat → List FMaliCore → List FMaliCore
  | [], _, MaliCores => MaliCores
  | compiler :: rest, i, MaliCores =>
    addCompilersFrom M rest (i + 1) (addCompiler M MaliCores i compiler)

/-- The member `MaliCores` as the constructor `FAsyncCompiler::FAsyncCompiler` leaves it,
given the compiler manager `FCompilerManager::Get()`, which the constructor asserts to
exist. -/
def constructMaliCores (M : FCompilerManager) : List FMaliCore :=
  addCompilersFrom M M.malicm_get_compilers 0 []

/-- The addresses of all revisions of a graph. -/
def revisionAddresses (MaliCores : List FMaliCore) : List Nat :=
  MaliCores.flatMap fun core => core.Revisions.map fun Revision => Revision.address

/-- The addresses of all drivers of a graph. -/
def driverAddresses (MaliCores : List FMaliCore) : List Nat :=
  MaliCores.flatMap fun core =>
    core.Revisions.flatMap fun Revision => Revision.Drivers.map fun Driver => Driver.address

/-- A list that is `old` with at most one `x` put in somewhere. -/
def AtMostOneAdded {β : Type} (x : β) (old new : List β) : Prop :=
  ∃ pre post, old = pre ++ post ∧ (new = pre ++ post ∨ new = pre ++ x :: post)

/-- Every core has a revision, every revision a driver, every driver a platform. -/
def NoEmptyNode (MaliCores : List FMaliCore) : Prop :=
  ∀ core, core ∈ MaliCores → core.Revisions ≠ [] ∧
    ∀ Revision, Revision ∈ core.Revisions → Revision.Drivers ≠ [] ∧
      ∀ Driver, Driver ∈ Revision.Drivers → Driver.Platforms ≠ []

/-- Every reference to a parent is the address of the node that lists the child. -/
def BackReferencesHold (MaliCores : List FMaliCore) : Prop :=
  ∀ core, core ∈ MaliCores →
    ∀ Revision, Revision ∈ core.Revisions → Revision.Core = core.address ∧
      ∀ Driver, Driver ∈ Revision.Drivers → Driver.Revision = Revision.address ∧
        ∀ Platform, Platform ∈ Driver.Platforms → Platform.Driver = Driver.address

/-- Names are pairwise distinct among the cores, among the revisions of one core and
among the drivers of one revision. -/
def NamesDistinct (MaliCores : List FMaliCore) : Prop :=
  (MaliCores.map fun core => core.CoreName).Nodup ∧
  ∀ core, core ∈ MaliCores →
    (core.Revisions.map fun Revision => Revision.RevisionName).Nodup ∧
    ∀ Revision, Revision ∈ core.Revisions →
      (Revision.Drivers.map fun Driver => Driver.DriverName).Nodup

/-! ## Sample backend answers and compiler lists -/

/-- A backend answer with one compiler error and one warning. -/
def demoErrorOutputs : malioc_outputs :=
  { flexible_outputs := [{ list := ["architecture", "midgard"] }],
    errors := ["undeclared identifier"], warnings := ["unused variable"] }

/-- A backend answer whose only flexible-output block has no entries. -/
def demoEmptyBlock : malioc_outputs :=
  { flexible_outputs := [{ list := [] }], errors := [], warnings := [] }

/-- A backend answer of two blocks: the first names Midgard, the second has no entries. -/
def demoEmptySecondBlock : malioc_outputs :=
  { flexible_outputs := [{ list := ["architecture", "midgard"] }, { list := [] }],
    errors := [], warnings := [] }

/-- A backend answer for Midgard with one block of statistics. -/
def demoMidgardOutputs : malioc_outputs :=
  { flexible_outputs :=
      [{ list := ["architecture", "midgard", "render_target", "0",
                  "work_registers_used", "4", "arithmetic_shortest_path", "10.0",
                  "load_store_shortest_path", "3.0", "texture_shortest_path", "1.0"] }],
    errors := [], warnings := [] }

/-- A backend answer for Utgard with two blocks. -/
def demoUtgardTwoBlocks : malioc_outputs :=
  { flexible_outputs := [{ list := ["architecture", "utgard"] }, { list := ["a", "b"] }],
    errors := [], warnings := [] }

/-- The common output of the sample fragment shader. -/
def demoCommonOutput : FCommonOutput :=
  { ShaderName := "TBasePassPS", Frequency := EShaderFrequency.SF_Pixel,
    VertexFactoryName := "Default Usage", SourceCode := "void main() {}" }

/-- A sample compute shader. -/
def demoComputeShader : FShader :=
  { TypeName := "TComputeCS", Frequency := EShaderFrequency.SF_Compute,
    VertexFactoryType := none, GlslCode := "void main() {}" }

/-- A raw output with two error entries, the later title first. -/
def demoRawErrors : FMaliOCRawCompilerOutput Int :=
  { ErrorOutput :=
      [{ CommonOutput := { ShaderName := "TDepthOnlyVS" }, Errors := ["syntax error"] },
       { CommonOutput := { ShaderName := "TBasePassPS" },
         Errors := ["undeclared identifier"] }] }

/-- The sample session once its job has run and the generator has seen it finished. -/
def demoComplete : Session Int :=
  { gen := { Platform := demoTarget,
             Resource := { bCompilationFinished := true,
                           GameThreadShaderMap := some [demoShader],
                           CompileErrors := [],
                           ShaderTypeNamesAndDescriptions :=
                             [("TBasePassPS", "Base pass shader")] },
             Progress := EProgress.COMPILATION_COMPLETE, JobHandle := some 0,
             NumCacheShadersCalls := 1 },
    compiler := { handles := [demoFinishedJob], CurrentJob := some 0, Jobs := [] } }

/-- A compiler manager whose backend lists two compilers with the same core, revision and
driver names, and a third for another core. -/
def demoManager : FCompilerManager :=
  { malicm_get_compilers := [7, 8, 9]
    malicm_get_core_name := fun compiler => if compiler = 9 then "Mali-T760" else "Mali-T600"
    malicm_get_core_revision := fun _ => "r0p0"
    malicm_get_driver_name := fun _ => "Mali-T600_r4p0-00rel0"
    malicm_get_highest_api_version := fun compiler => if compiler = 8 then 310 else 300
    malicm_get_extensions := fun _ => "GL_OES_texture_3D" }

/-- A compiler manager whose backend lists exactly two compilers, with identical core,
revision and driver names. -/
def demoTwinManager : FCompilerManager :=
  { demoManager with malicm_get_compilers := [7, 8] }

/-- The platform entry of the sample driver for `Mali-T600`. -/
def demoPlatform : FMaliPlatform :=
  { PlatformName := "OpenGL ES 2.0", Driver := 0,
    Platform := EShaderPlatform.SP_OPENGL_ES2_ANDROID }

/-- The driver built from the sample compilers `7` and `8`. -/
def demoDriver : FMaliDriver :=
  { address := 0, DriverName := "Mali-T600_r4p0-00rel0", Revision := 0, Compiler := 7,
    Platforms := [demoPlatform, demoPlatform], MaxAPI := 300,
    Extensions := "GL_OES_texture_3D" }

/-- The revision built from the sample compilers `7` and `8`. -/
def demoRevision : FMaliCoreRevision :=
  { address := 0, RevisionName := "r0p0", Core := 0, Drivers := [demoDriver] }

/-- The core built from the sample compilers `7` and `8`. -/
def demoCore : FMaliCore :=
  { address := 0, CoreName := "Mali-T600", Revisions := [demoRevision] }

/-- The platform entry of the sample driver for `Mali-T760`. -/
def demoT760Platform : FMaliPlatform :=
  { PlatformName := "OpenGL ES 2.0", Driver := 2,
    Platform := EShaderPlatform.SP_OPENGL_ES2_ANDROID }

/-- The driver built from the sample compiler `9`. -/
def demoT760Driver : FMaliDriver :=
  { address := 2, DriverName := "Mali-T600_r4p0-00rel0", Revision := 2, Compiler := 9,
    Platforms := [demoT760Platform], MaxAPI := 300, Extensions := "GL_OES_texture_3D" }

/-- The revision built from the sample compiler `9`. -/
def demoT760Revision : FMaliCoreRevision :=
  { address := 2, RevisionName := "r0p0", Core := 2, Drivers := [demoT760Driver] }

/-- The core built from the sample compiler `9`. -/
def demoT760Core : FMaliCore :=
  { address := 2, CoreName := "Mali-T760", Revisions := [demoT760Revision] }

/-- Whether two names are equal up to letter case. -/
def equalUpToCase (a b : String) : Bool :=
  a.toList.map Char.toLower == b.toList.map Char.toLower

/-- A driver whose stored compiler token is one of the listed compilers and whose stored
name, highest API version and extensions are the backend's answers for that token. -/
def FMaliDriver.builtFrom (M : FCompilerManager) (compilers : List malicm_compiler)
    (Driver : FMaliDriver) : Prop :=
  Driver.Compiler ∈ compilers ∧
  Driver.DriverName = M.malicm_get_driver_name Driver.Compiler ∧
  Driver.MaxAPI = M.malicm_get_highest_api_version Driver.Compiler ∧
  Driver.Extensions = M.malicm_get_extensions Driver.Compiler

/-! ## Loading the backend library -/

/-- The struct `malicm_version`. -/
structure malicm_version where
  major : Nat
  minor : Nat
  patch : Nat
  deriving DecidableEq, Repr

/-- The function `FCompilerManager::GetExpectedCompilerManagerVersion`. -/
def FCompilerManager.GetExpectedCompilerManagerVersion : malicm_version :=
  { major := 4, minor := 0, patch := 1 }

/-- The names the constructor of `FCompilerManager` applies `LOAD_FUNCTION` to, in order. -/
def entryPointNames : List String :=
  ["malicm_initialize_libraries", "malicm_release_libraries", "malicm_get_manager_version",
   "malicm_release_compiler_outputs", "malicm_get_driver_name", "malicm_get_core_name",
   "malicm_get_core_revision", "malicm_is_binary_output_supported",
   "malicm_is_prerotate_supported", "malicm_get_api_name", "malicm_get_highest_api_version",
   "malicm_get_extensions", "malicm_get_compilers", "malicm_release_compilers",
   "malicm_compile"]

/-- What the platform and the native library answer while one `FCompilerManager` is
constructed and initialised: `FPaths::FileExists` on the library path, whether
`FPlatformProcess::GetDllHandle` returns a handle, whether `GetDllExport` finds a name,
the result of `malicm_initialize_libraries`, the version `malicm_get_manager_version`
writes, and the entry points the object binds. -/
structure FNativeLibrary where
  FileExists : Bool
  GetDllHandle : Bool
  GetDllExport : String → Bool
  malicm_initialize_libraries : Bool
  malicm_get_manager_version : malicm_version
  entryPoints : FCompilerManager

/-- The calls that load, initialise, release and unload the native library. A
`GetDllHandle` is a call that returned a handle. -/
inductive NativeCall where
  | GetDllHandle
  | FreeDllHandle
  | malicm_initialize_libraries (success : Bool)
  | malicm_get_manager_version
  | malicm_release_libraries
  deriving DecidableEq, Repr

/-- The members `bIsValid` and `DLLHandle` (whether it is not null) of an
`FCompilerManager` object, beside its entry points. -/
structure FCompilerManagerObject where
  bIsValid : Bool := false
  DLLHandle : Bool := false
  entryPoints : FCompilerManager

/-- The static members `FCompilerManager::CompilerManager` and
`FAsyncCompiler::AsyncCompiler` (`none` for a null pointer; of the async compiler the
member `MaliCores` is kept), and the native calls made so far, in order. -/
structure FSingletons where
  CompilerManager : Option FCompilerManagerObject := none
  AsyncCompiler : Option (List FMaliCore) := none
  calls : List NativeCall := []

/-- The constructor `FCompilerManager::FCompilerManager`: the object, and the native calls
it made. -/
def FCompilerManagerObject.create (L : FNativeLibrary) :
    FCompilerManagerObject × List NativeCall :=
  if L.FileExists = false then ({ entryPoints := L.entryPoints }, [])
  else if L.GetDllHandle = false then ({ entryPoints := L.entryPoints }, [])
  else
    let allLoadedSuccessfully : Bool :=
      entryPointNames.foldl (fun loaded name => loaded && L.GetDllExport name) true
    if allLoadedSuccessfully = false then
      ({ DLLHandle := true, entryPoints := L.entryPoints }, [NativeCall.GetDllHandle])
    else
      ({ bIsValid := true, DLLHandle := true, entryPoints := L.entryPoints },
        [NativeCall.GetDllHandle])

/-- The destructor `FCompilerManager::~FCompilerManager`: the native calls it makes. -/
def FCompilerManagerObject.destroy (m : FCompilerManagerObject) : List NativeCall :=
  if m.DLLHandle then [NativeCall.FreeDllHandle] else []

/-- The call `CompilerManager.Reset()`: the static pointer is the only owner, so the object
is destroyed. -/
def FSingletons.ResetCompilerManager (p : FSingletons) : FSingletons :=
  match p.CompilerManager with
  | none => p
  | some m => { p with CompilerManager := none, calls := p.calls ++ m.destroy }

/-- The function `FCompilerManager::Initialize`; the parameter `Silent` only selects whether
failures are logged. -/
def FCompilerManager.Initialize (L : FNativeLibrary) (p : FSingletons) :
    Except Failure (Bool × FSingletons) :=
  if p.CompilerManager.isSome then .error Failure.checkCompilerManagerNotValid
  else
    let made := FCompilerManagerObject.create L
    let p1 : FSingletons := { p with CompilerManager := some made.1, calls := p.calls ++ made.2 }
    if made.1.bIsValid = false then .ok (false, p1.ResetCompilerManager)
    else
      let success : Bool := L.malicm_initialize_libraries
      let p2 : FSingletons :=
        { p1 with calls := p1.calls ++ [NativeCall.malicm_initialize_libraries success] }
      if success = false then .ok (false, p2.ResetCompilerManager)
      else
        let version := L.malicm_get_manager_version
        let p3 : FSingletons :=
          { p2 with calls := p2.calls ++ [NativeCall.malicm_get_manager_version] }
        let expectedVersion := FCompilerManager.GetExpectedCompilerManagerVersion
        if version.major ≠ expectedVersion.major ∨ version.minor ≠ expectedVersion.minor ∨
            version.patch ≠ expectedVersion.patch then
          .ok (false, p3.ResetCompilerManager)
        else .ok (true, p3)

/-- The function `FCompilerManager::Deinitialize`. -/
def FCompilerManager.Deinitialize (p : FSingletons) : FSingletons :=
  if p.CompilerManager.isSome then
    FSingletons.ResetCompilerManager
      { p with calls := p.calls ++ [NativeCall.malicm_release_libraries] }
  else p

/-- The function `FCompilerManager::Get`. -/
def FCompilerManager.Get (p : FSingletons) : Option FCompilerManagerObject :=
  p.CompilerManager

/-- The function `FAsyncCompiler::Get`. -/
def FAsyncCompiler.Get (p : FSingletons) : Option (List FMaliCore) :=
  p.AsyncCompiler

/-- The function `FAsyncCompiler::Initialize`; `new FAsyncCompiler` runs the constructor on
`FCompilerManager::Get()`. -/
def FAsyncCompiler.Initialize (L : FNativeLibrary) (p : FSingletons) :
    Except Failure (Bool × FSingletons) :=
  if p.AsyncCompiler.isSome then .error Failure.checkAsyncCompilerNotValid
  else
    match FCompilerManager.Initialize L p with
    | .error e => .error e
    | .ok (success, p1) =>
      if success = false then .ok (false, p1)
      else
        match FCompilerManager.Get p1 with
        | none => .error Failure.checkCompilerManagerNotNull
        | some compilerManager =>
          let MaliCores := constructMaliCores compilerManager.entryPoints
          if MaliCores.length = 0 then .ok (false, { p1 with AsyncCompiler := none })
          else .ok (true, { p1 with AsyncCompiler := some MaliCores })

/-- The function `FAsyncCompiler::Deinitialize`. -/
def FAsyncCompiler.Deinitialize (p : FSingletons) : FSingletons :=
  FCompilerManager.Deinitialize { p with AsyncCompiler := none }

/-- The retry in `FMaterialEditorTabGeneratorImplWrapper::Tick`, made each time the
initialisation period has passed while the tab has no wrapped generator:
`if (FAsyncCompiler::Get() == nullptr) FAsyncCompiler::Initialize(true);`. -/
def FMaterialEditorTabGeneratorImplWrapper.Tick (L : FNativeLibrary) (p : FSingletons) :
    Except Failure FSingletons :=
  if (FAsyncCompiler.Get p).isNone then
    match FAsyncCompiler.Initialize L p with
    | .error e => .error e
    | .ok (_, p1) => .ok p1
  else .ok p

/-- A call of one of the two static functions of `FCompilerManager`. -/
inductive ManagerEvent where
  | Initialize (L : FNativeLibrary)
  | Deinitialize

/-- The singletons after one call; an `Initialize` that trips its assertion ends the run. -/
def FSingletons.step (p : FSingletons) : ManagerEvent → Except Failure FSingletons
  | ManagerEvent.Initialize L =>
    match FCompilerManager.Initialize L p with
    | .error e => .error e
    | .ok (_, p1) => .ok p1
  | ManagerEvent.Deinitialize => .ok (FCompilerManager.Deinitialize p)

/-- The singletons after a list of calls, one after the other. -/
def FSingletons.run : FSingletons → List ManagerEvent → Except Failure FSingletons
  | p, [] => .ok p
  | p, e :: rest =>
    match p.step e with
    | .error e => .error e
    | .ok p1 => FSingletons.run p1 rest

/-- Whether the backend libraries are initialised after a list of native calls, given
whether they are before it. -/
def initialisedAfter : Bool → List NativeCall → Bool
  | initialised, [] => initialised
  | initialised, NativeCall.malicm_initialize_libraries success :: rest =>
    initialisedAfter (initialised || success) rest
  | _, NativeCall.malicm_release_libraries :: rest => initialisedAfter false rest
  | _, NativeCall.FreeDllHandle :: rest => initialisedAfter false rest
  | initialised, _ :: rest => initialisedAfter initialised rest

/-- Whether along a list of native calls every free of the library handle finds the
backend libraries released, given whether they are initialised before the list. -/
def releasedBeforeFree : Bool → List NativeCall → Bool
  | _, [] => true
  | initialised, NativeCall.malicm_initialize_libraries success :: rest =>
    releasedBeforeFree (initialised || success) rest
  | _, NativeCall.malicm_release_libraries :: rest => releasedBeforeFree false rest
  | initialised, NativeCall.FreeDllHandle :: rest =>
    !initialised && releasedBeforeFree false rest
  | initialised, _ :: rest => releasedBeforeFree initialised rest

/-! ## Sample libraries and counts -/

/-- A native library that is found, loads, resolves every name, initialises and reports
the expected version; its backend lists the sample compilers. -/
def demoLibrary : FNativeLibrary :=
  { FileExists := true, GetDllHandle := true, GetDllExport := fun _ => true,
    malicm_initialize_libraries := true,
    malicm_get_manager_version := { major := 4, minor := 0, patch := 1 },
    entryPoints := demoManager }

/-- The sample library reporting another version. -/
def demoWrongVersion : FNativeLibrary :=
  { demoLibrary with malicm_get_manager_version := { major := 4, minor := 0, patch := 2 } }

/-- The sample library with a backend that lists no compiler. -/
def demoNoCompilers : FNativeLibrary :=
  { demoLibrary with entryPoints := { demoManager with malicm_get_compilers := [] } }

/-- A library file that is not on disk. -/
def demoMissingFile : FNativeLibrary :=
  { demoLibrary with FileExists := false }

/-- A compiler manager whose four compilers have names that differ in letter case only:
the second in its core name, the third in its revision name, the fourth in its driver
name. -/
def demoCaseManager : FCompilerManager :=
  { malicm_get_compilers := [1, 2, 3, 4]
    malicm_get_core_name := fun compiler => if compiler = 2 then "MALI-T600" else "Mali-T600"
    malicm_get_core_revision := fun compiler => if compiler = 3 then "R0P0" else "r0p0"
    malicm_get_driver_name := fun compiler =>
      if compiler = 4 then "Mali-T600_R4P0-00REL0" else "Mali-T600_r4p0-00rel0"
    malicm_get_highest_api_version := fun _ => 300
    malicm_get_extensions := fun _ => "" }

/-- A compiler manager whose only compiler supports no API version. -/
def demoNoApiManager : FCompilerManager :=
  { demoManager with
    malicm_get_compilers := [7]
    malicm_get_highest_api_version := fun _ => 0 }

/-- Sample externals whose `float` values are counted in tenths of a cycle: the conversion
to `uint32` drops the tenths. -/
def tenthsExternals : Externals Int :=
  { demoExternals with
    Atof := fun s =>
      if s = "10.0" then 100 else if s = "10.2" then 102 else if s = "10.9" then 109
      else if s = "3.0" then 30 else if s = "1.0" then 10 else 0
    toUInt32 := fun x => (x / 10).toNat % 2 ^ 32 }

/-- Sample externals whose `float` values are whole non-negative counts: the conversion to
`uint32` changes nothing. -/
def wholeExternals : Externals Nat :=
  { Atoi := fun s => s.length
    Atof := fun s => s.length
    zero := 0
    toUInt32 := fun x => x
    PrintfG4 := fun x => toString x
    FStringLess := fun a b => decide (a < b)
    GLSLToDeviceCompatibleGLSL := fun _ _ glsl => glsl
    malicm_compile := fun _ _ _ => (false, { flexible_outputs := [], errors := [], warnings := [] })
    CacheShaders := fun r => (true, { r with bCompilationFinished := false }) }

/-- A render target whose shortest path takes 10.2 arithmetic, 10.9 load/store and 1.0
texture cycles, and whose longest path takes 10.0, 3.0 and 1.0. -/
def demoCloseCounts : FRenderTarget Int :=
  { FRenderTarget.init tenthsExternals with
    arithmetic_shortest_path := 102, load_store_shortest_path := 109,
    texture_shortest_path := 10, arithmetic_longest_path := 100,
    load_store_longest_path := 30, texture_longest_path := 10 }

/-! ## A sample session whose three raw lists are out of order -/

/-- Sample externals whose backend answers a vertex shader with one Utgard block and any
other shader with one Midgard block; everything else is as in `demoExternals`. -/
def demoMixedExternals : Externals Int :=
  { demoExternals with
    malicm_compile := fun _ type _ =>
      if type = "vertex" then
        (true, { flexible_outputs :=
                   [{ list := ["architecture", "utgard", "n_instruction_words", "12"] }],
                 errors := [], warnings := [] })
      else
        (true, { flexible_outputs :=
                   [{ list := ["architecture", "midgard", "render_target", "0",
                               "work_registers_used", "4"] }],
                 errors := [], warnings := [] }) }

/-- A shader map of two vertex, two fragment and two compute shaders; within each kind the
later name comes first. -/
def demoMixedShaders : List FShader :=
  [{ TypeName := "TDepthOnlyVS", Frequency := EShaderFrequency.SF_Vertex,
     VertexFactoryType := some "FLocalVertexFactory", GlslCode := "void main() {}" },
   { TypeName := "TTranslucencyPS", Frequency := EShaderFrequency.SF_Pixel,
     VertexFactoryType := some "FLocalVertexFactory", GlslCode := "void main() {}" },
   { TypeName := "TShadowCS", Frequency := EShaderFrequency.SF_Compute,
     VertexFactoryType := none, GlslCode := "void main() {}" },
   { TypeName := "TBasePassVS", Frequency := EShaderFrequency.SF_Vertex,
     VertexFactoryType := some "FLocalVertexFactory", GlslCode := "void main() {}" },
   { TypeName := "TBasePassPS", Frequency := EShaderFrequency.SF_Pixel,
     VertexFactoryType := some "FLocalVertexFactory", GlslCode := "void main() {}" },
   { TypeName := "TClearCS", Frequency := EShaderFrequency.SF_Compute,
     VertexFactoryType := none, GlslCode := "void main() {}" }]

/-- The render target the sample Midgard block is parsed to. -/
def demoMixedRenderTarget : FRenderTarget Int :=
  { render_target := 1, work_registers_used := 1, uniform_registers_used := 0,
    arithmetic_cycles := 0, arithmetic_shortest_path := 0, arithmetic_longest_path := 0,
    load_store_cycles := 0, load_store_shortest_path := 0, load_store_longest_path := 0,
    texture_cycles := 0, texture_shortest_path := 0, texture_longest_path := 0,
    spilling_used := false }

/-- The raw output the job of `demoMixedShaders` leaves behind: two entries in each list, in
the order the shaders were compiled. -/
def demoMixedRaw : FMaliOCRawCompilerOutput Int :=
  { ErrorOutput :=
      [{ CommonOutput := { ShaderName := "TShadowCS", Frequency := EShaderFrequency.SF_Compute },
         Errors := ["Cross compiler produced invalid output",
                    "The shader type is neither fragment nor vertex"] },
       { CommonOutput := { ShaderName := "TClearCS", Frequency := EShaderFrequency.SF_Compute },
         Errors := ["Cross compiler produced invalid output",
                    "The shader type is neither fragment nor vertex"] }],
    MidgardOutput :=
      [{ CommonOutput :=
           { ShaderName := "TTranslucencyPS", Frequency := EShaderFrequency.SF_Pixel,
             VertexFactoryName := "Default Usage", SourceCode := "void main() {}" },
         RenderTargets := [demoMixedRenderTarget] },
       { CommonOutput :=
           { ShaderName := "TBasePassPS", Frequency := EShaderFrequency.SF_Pixel,
             VertexFactoryName := "Default Usage", SourceCode := "void main() {}" },
         RenderTargets := [demoMixedRenderTarget] }],
    UtgardOutput :=
      [{ CommonOutput :=
           { ShaderName := "TDepthOnlyVS", Frequency := EShaderFrequency.SF_Vertex,
             VertexFactoryName := "Default Usage", SourceCode := "void main() {}" },
         min_number_of_cycles := 0, max_number_of_cycles := 0, n_instruction_words := 2 },
       { CommonOutput :=
           { ShaderName := "TBasePassVS", Frequency := EShaderFrequency.SF_Vertex,
             VertexFactoryName := "Default Usage", SourceCode := "void main() {}" },
         min_number_of_cycles := 0, max_number_of_cycles := 0, n_instruction_words := 2 }] }

/-- The session of `demoMixedShaders` once its job has run and the generator has seen it
finished. -/
def demoMixedComplete : Session Int :=
  { gen := { Platform := demoTarget,
             Resource := { bCompilationFinished := true,
                           GameThreadShaderMap := some demoMixedShaders,
                           CompileErrors := [],
                           ShaderTypeNamesAndDescriptions :=
                             [("TBasePassPS", "Base pass shader")] },
             Progress := EProgress.COMPILATION_COMPLETE, JobHandle := some 0,
             NumCacheShadersCalls := 1 },
    compiler :=
      { handles :=
          [{ OutShaders := demoMixedShaders, Platform := demoTarget,
             RawCompilerOutput := demoMixedRaw, Thread := true, TotalNumShaders := 6,
             NumCompiledShaders := 6, bIsCompilationComplete := true }],
        CurrentJob := some 0, Jobs := [] } }

/-- The report `GetReport` builds for `demoMixedComplete`. -/
def demoMixedReport : FMaliOCReport :=
  compilationReport demoMixedExternals [("TBasePassPS", "Base pass shader")] demoMixedRaw

end MaliOC

namespace MaliOC

/-! ## The scheduler's invariant -/

section Scheduler

variable {F : Type}

theorem started_congr (c c' : FAsyncCompiler F) (h : c'.handles = c.handles) (j : Nat) :
    c'.started j = c.started j := by
  simp [FAsyncCompiler.started, h]

theorem finished_congr (c c' : FAsyncCompiler F) (h : c'.handles = c.handles) (j : Nat) :
    c'.finished j = c.finished j := by
  simp [FAsyncCompiler.finished, h]

theorem started_lt (c : FAsyncCompiler F) (j : Nat) (h : c.started j = true) :
    j < c.handles.length := by
  unfold FAsyncCompiler.started at h
  by_contra hj
  rw [List.getElem?_eq_none (by omega)] at h
  simp at h

theorem InvAt_init : FAsyncCompiler.InvAt ({} : FAsyncCompiler F) 0 := by
  refine ⟨by simp, by simp, ?_, ?_, ?_, ?_⟩
  · intro j; simp [FAsyncCompiler.started]
  · intro j; simp [FAsyncCompiler.finished]
  · intro j hj; omega
  · intro j hj; simp at hj

theorem started_addJob (c : FAsyncCompiler F) (m : List FShader) (p : FJobTarget) (j : Nat) :
    (c.AddJob m p).2.started j = c.started j := by
  simp only [FAsyncCompiler.AddJob, FAsyncCompiler.started]
  by_cases h : j < c.handles.length
  · rw [List.getElem?_append_left h]
  · rw [List.getElem?_append_right (by omega), List.getElem?_eq_none (l := c.handles) (by omega)]
    by_cases hj : j - c.handles.length = 0
    · simp [hj, FCompileJobHandle.create]
    · rw [List.getElem?_eq_none (by simp; omega)]

theorem finished_addJob (c : FAsyncCompiler F) (m : List FShader) (p : FJobTarget) (j : Nat) :
    (c.AddJob m p).2.finished j = c.finished j := by
  simp only [FAsyncCompiler.AddJob, FAsyncCompiler.finished]
  by_cases h : j < c.handles.length
  · rw [List.getElem?_append_left h]
  · rw [List.getElem?_append_right (by omega), List.getElem?_eq_none (l := c.handles) (by omega)]
    by_cases hj : j - c.handles.length = 0
    · simp [hj, FCompileJobHandle.create]
    · rw [List.getElem?_eq_none (by simp; omega)]

theorem InvAt_addJob (c : FAsyncCompiler F) (k : Nat) (m : List FShader) (p : FJobTarget)
    (h : c.InvAt k) : (c.AddJob m p).2.InvAt k := by
  obtain ⟨hk, hq, hs, hf, hc, hcur⟩ := h
  refine ⟨?_, ?_, ?_, ?_, ?_, ?_⟩
  · simp [FAsyncCompiler.AddJob]; omega
  · simp only [FAsyncCompiler.AddJob, List.length_append, List.length_singleton]
    rw [hq, show c.handles.length + 1 - k = (c.handles.length - k) + 1 by omega,
      List.range'_1_concat]
    congr 2
    omega
  · intro j; rw [started_addJob]; exact hs j
  · intro j; rw [finished_addJob]; exact hf j
  · intro j hj; rw [finished_addJob]; exact hc j hj
  · intro j hj; exact hcur j hj

theorem InvAt_releaseFinished (c : FAsyncCompiler F) (k : Nat) (h : c.InvAt k) :
    c.releaseFinished.InvAt k := by
  unfold FAsyncCompiler.releaseFinished
  by_cases hfin : c.currentJobFinished = true
  · rw [if_pos hfin]
    obtain ⟨hk, hq, hs, hf, hc, hcur⟩ := h
    refine ⟨hk, hq, hs, hf, ?_, ?_⟩
    · intro j hj
      rcases hc j hj with h1 | h1
      · exact Or.inl h1
      · left
        unfold FAsyncCompiler.currentJobFinished at hfin
        rw [h1] at hfin
        simpa [FAsyncCompiler.finished] using hfin
    · intro j hj
      simp at hj
  · rw [if_neg hfin]
    exact h

theorem releaseFinished_current_none (c : FAsyncCompiler F) (k : Nat) (h : c.InvAt k)
    (hnone : c.CurrentJob = none) : ∀ j, j < k → c.finished j = true := by
  intro j hj
  rcases h.2.2.2.2.1 j hj with h1 | h1
  · exact h1
  · rw [hnone] at h1
    cases h1

theorem started_set (c c' : FAsyncCompiler F) (j i : Nat) (job job' : FCompileJobHandle F)
    (hh : c'.handles = c.handles.set j job') (hj : c.handles[j]? = some job) :
    c'.started i = if i = j then job'.Thread else c.started i := by
  have hlt : j < c.handles.length := by
    by_contra hcon
    rw [List.getElem?_eq_none (by omega)] at hj
    cases hj
  simp only [FAsyncCompiler.started, hh, List.getElem?_set]
  by_cases hij : i = j
  · subst hij
    simp [hlt]
  · have : ¬ j = i := fun e => hij e.symm
    simp [hij, this]

theorem finished_set (c c' : FAsyncCompiler F) (j i : Nat) (job job' : FCompileJobHandle F)
    (hh : c'.handles = c.handles.set j job') (hj : c.handles[j]? = some job) :
    c'.finished i = if i = j then job'.bIsCompilationComplete else c.finished i := by
  have hlt : j < c.handles.length := by
    by_contra hcon
    rw [List.getElem?_eq_none (by omega)] at hj
    cases hj
  simp only [FAsyncCompiler.finished, hh, List.getElem?_set]
  by_cases hij : i = j
  · subst hij
    simp [hlt]
  · have : ¬ j = i := fun e => hij e.symm
    simp [hij, this]

theorem InvAt_startNext (c : FAsyncCompiler F) (k : Nat) (h : c.InvAt k) :
    c.startNext.InvAt k ∨ (c.CurrentJob = none ∧ c.startNext.InvAt (k + 1) ∧
      c.startNext.CurrentJob = some k ∧ c.started k = false) := by
  unfold FAsyncCompiler.startNext
  cases hcj : c.CurrentJob with
  | some j => left; simpa [hcj] using h
  | none =>
    cases hjobs : c.Jobs with
    | nil => left; simpa [hcj, hjobs] using h
    | cons j rest =>
      right
      have hfinall := releaseFinished_current_none c k h hcj
      obtain ⟨hk, hq, hs, hf, hc, hcur⟩ := h
      rw [hjobs] at hq
      have hq' := (List.range'_eq_cons_iff.mp hq.symm)
      obtain ⟨hkj, hpos, hrest⟩ := hq'
      subst hkj
      have hlt : k < c.handles.length := by omega
      have hget : c.handles[k]? = some (c.handles[k]) := List.getElem?_eq_getElem hlt
      have hnot : c.started k = false := by
        cases hst : c.started k with
        | false => rfl
        | true => have := (hs k).mp hst; omega
      refine ⟨rfl, ?_, ?_, hnot⟩
      · simp only [FAsyncCompiler.updateJob, hget]
        refine ⟨?_, ?_, ?_, ?_, ?_, ?_⟩
        · simp; omega
        · simp only [List.length_set]
          rw [hrest]
          congr 1
        · intro i
          rw [started_set c _ k i _ _ rfl hget]
          by_cases hik : i = k
          · simp [hik, FCompileJobHandle.BeginCompilationAsync]
          · simp only [hik, if_false]
            rw [hs i]
            omega
        · intro i
          rw [finished_set c _ k i _ _ rfl hget]
          by_cases hik : i = k
          · simp only [hik, if_true, FCompileJobHandle.BeginCompilationAsync]
            intro hfin
            have := hf k (by simpa [FAsyncCompiler.finished, hget] using hfin)
            omega
          · simp only [hik, if_false]
            intro hfin
            have := hf i hfin
            omega
        · intro i hi
          rw [finished_set c _ k i _ _ rfl hget]
          by_cases hik : i = k
          · right; simp [hik]
          · left
            simp only [hik, if_false]
            exact hfinall i (by omega)
        · intro i hi
          simp at hi
          omega
      · simp only [FAsyncCompiler.updateJob, hget]

theorem InvAt_Tick (c : FAsyncCompiler F) (k : Nat) (h : c.InvAt k) :
    c.Tick.InvAt k ∨ c.Tick.InvAt (k + 1) := by
  unfold FAsyncCompiler.Tick
  rcases InvAt_startNext c.releaseFinished k (InvAt_releaseFinished c k h) with h1 | h1
  · exact Or.inl h1
  · exact Or.inr h1.2.1

/-! ## What a job's thread does to its handle -/

theorem Add_size (Raw : FMaliOCRawCompilerOutput F) (entry : FRawEntry F) :
    (Raw.Add entry).size = Raw.size + 1 := by
  cases entry <;>
    simp only [FMaliOCRawCompilerOutput.Add, FMaliOCRawCompilerOutput.size,
      List.length_append, List.length_singleton] <;> omega

theorem AppendNewRawCompilerOutput_size (X : Externals F) (ran : Bool) (outputs : malioc_outputs)
    (GLSL : String) (Shader : FShader) (Raw Raw' : FMaliOCRawCompilerOutput F)
    (h : AppendNewRawCompilerOutput X ran outputs GLSL Shader Raw = .ok Raw') :
    Raw'.size = Raw.size + 1 := by
  unfold AppendNewRawCompilerOutput at h
  split at h
  · cases h
  · split at h
    · cases h
    · injection h with h
      subst h
      exact Add_size Raw _

theorem RunShader_size (X : Externals F) (P : FJobTarget) (shader : FShader)
    (Raw Raw' : FMaliOCRawCompilerOutput F) (h : RunShader X P shader Raw = .ok Raw') :
    Raw'.size = Raw.size + 1 := by
  unfold RunShader at h
  dsimp only at h
  split at h
  · injection h with h
    subst h
    exact Add_size Raw _
  · exact AppendNewRawCompilerOutput_size X _ _ _ _ _ _ h

theorem RunLoop_size (X : Externals F) (P : FJobTarget) (shaders : List FShader) :
    ∀ (Raw Raw' : FMaliOCRawCompilerOutput F) (n n' : Nat),
      RunLoop X P shaders (Raw, n) = .ok (Raw', n') →
      Raw'.size = Raw.size + shaders.length ∧ n' = n + shaders.length := by
  induction shaders with
  | nil =>
    intro Raw Raw' n n' h
    simp only [RunLoop] at h
    injection h with h
    injection h with h1 h2
    subst h1 h2
    simp
  | cons shader rest ih =>
    intro Raw Raw' n n' h
    simp only [RunLoop] at h
    split at h
    · cases h
    · rename_i Raw1 hs
      have h1 := RunShader_size X P shader Raw Raw1 hs
      have h2 := ih Raw1 Raw' (n + 1) n' h
      simp only [List.length_cons]
      omega

theorem Run_fields (X : Externals F) (job job' : FCompileJobHandle F)
    (h : job.Run X = .ok job') :
    job'.Thread = job.Thread ∧ job'.OutShaders = job.OutShaders ∧
    job'.TotalNumShaders = job.TotalNumShaders ∧ job'.Platform = job.Platform ∧
    job'.bIsCompilationComplete = job.bIsCompilationComplete ∧
    job'.RawCompilerOutput.size = job.RawCompilerOutput.size + job.OutShaders.length ∧
    job'.NumCompiledShaders = job.NumCompiledShaders + job.OutShaders.length := by
  unfold FCompileJobHandle.Run at h
  split at h
  · cases h
  · rename_i Raw n hl
    injection h with h
    subst h
    have := RunLoop_size X _ _ _ _ _ _ hl
    simp [this.1, this.2]

theorem runThread_fields (X : Externals F) (job job' : FCompileJobHandle F)
    (h : job.runThread X = .ok job') :
    job'.Thread = job.Thread ∧ job'.OutShaders = job.OutShaders ∧
    job'.TotalNumShaders = job.TotalNumShaders ∧ job'.Platform = job.Platform ∧
    job'.bIsCompilationComplete = true ∧
    job'.RawCompilerOutput.size = job.RawCompilerOutput.size + job.OutShaders.length ∧
    job'.NumCompiledShaders = job.NumCompiledShaders + job.OutShaders.length := by
  unfold FCompileJobHandle.runThread at h
  split at h
  · cases h
  · rename_i job1 hr
    injection h with h
    subst h
    have := Run_fields X job job1 hr
    simp [FCompileJobHandle.Exit, this]

/-- What `threadEnds` does when it returns: nothing, or the running job `j` is replaced by
the handle its thread leaves behind. -/
theorem threadEnds_cases (X : Externals F) (c c' : FAsyncCompiler F) (j : Nat)
    (h : c.threadEnds X j = .ok c') :
    c' = c ∨ ∃ job job', c.handles[j]? = some job ∧ job.Thread = true ∧
      job.bIsCompilationComplete = false ∧ job.runThread X = .ok job' ∧
      c' = { c with handles := c.handles.set j job' } := by
  unfold FAsyncCompiler.threadEnds at h
  split at h
  · rename_i job hget
    split at h
    · rename_i hrun
      split at h
      · cases h
      · rename_i job' hjob
        injection h with h
        right
        exact ⟨job, job', hget, hrun.1, hrun.2, hjob, h.symm⟩
    · injection h with h
      exact Or.inl h.symm
  · injection h with h
    exact Or.inl h.symm

theorem InvAt_threadEnds (X : Externals F) (c c' : FAsyncCompiler F) (k j : Nat)
    (h : c.InvAt k) (hstep : c.threadEnds X j = .ok c') : c'.InvAt k := by
  rcases threadEnds_cases X c c' j hstep with h1 | ⟨job, job', hget, hthr, hfin, hrun, h1⟩
  · rw [h1]; exact h
  · subst h1
    obtain ⟨hk, hq, hs, hf, hc, hcur⟩ := h
    have hflds := runThread_fields X job job' hrun
    have hsj : c.started j = true := by simp [FAsyncCompiler.started, hget, hthr]
    refine ⟨?_, ?_, ?_, ?_, ?_, ?_⟩
    · simpa using hk
    · simpa using hq
    · intro i
      rw [started_set c _ j i _ _ rfl hget]
      by_cases hij : i = j
      · simp only [hij, if_true, hflds.1, hthr, true_iff]
        exact (hs j).mp hsj
      · simp only [hij, if_false]
        exact hs i
    · intro i
      rw [finished_set c _ j i _ _ rfl hget]
      by_cases hij : i = j
      · simp only [hij, if_true]
        intro _
        exact (hs j).mp hsj
      · simp only [hij, if_false]
        exact hf i
    · intro i hi
      rw [finished_set c _ j i _ _ rfl hget]
      by_cases hij : i = j
      · left; simp [hij, hflds.2.2.2.2.1]
      · simp only [hij, if_false]
        exact hc i hi
    · intro i hi
      exact hcur i hi

theorem Reachable_InvAt (X : Externals F) (c : FAsyncCompiler F)
    (h : FAsyncCompiler.Reachable X c) : ∃ k, c.InvAt k := by
  induction h with
  | init => exact ⟨0, InvAt_init⟩
  | step e _ hstep ih =>
    obtain ⟨k, hk⟩ := ih
    cases e with
    | addJob m p =>
      simp only [FAsyncCompiler.step] at hstep
      injection hstep with hstep
      subst hstep
      exact ⟨k, InvAt_addJob _ k m p hk⟩
    | tick =>
      simp only [FAsyncCompiler.step] at hstep
      injection hstep with hstep
      subst hstep
      rcases InvAt_Tick _ k hk with h1 | h1
      · exact ⟨k, h1⟩
      · exact ⟨k + 1, h1⟩
    | threadEnds j =>
      simp only [FAsyncCompiler.step] at hstep
      exact ⟨k, InvAt_threadEnds X _ _ k j hk hstep⟩

theorem releaseFinished_handles (c : FAsyncCompiler F) :
    c.releaseFinished.handles = c.handles := by
  unfold FAsyncCompiler.releaseFinished
  split <;> rfl

theorem releaseFinished_Jobs (c : FAsyncCompiler F) : c.releaseFinished.Jobs = c.Jobs := by
  unfold FAsyncCompiler.releaseFinished
  split <;> rfl

theorem updateJob_CurrentJob (c : FAsyncCompiler F) (j : Nat)
    (f : FCompileJobHandle F → FCompileJobHandle F) :
    (c.updateJob j f).CurrentJob = c.CurrentJob ∧ (c.updateJob j f).Jobs = c.Jobs ∧
    (c.updateJob j f).handles.length = c.handles.length := by
  unfold FAsyncCompiler.updateJob
  split <;> simp

theorem updateJob_mem (c : FAsyncCompiler F) (j : Nat)
    (f : FCompileJobHandle F → FCompileJobHandle F) (job' : FCompileJobHandle F)
    (h : job' ∈ (c.updateJob j f).handles) :
    job' ∈ c.handles ∨ ∃ job, job ∈ c.handles ∧ job' = f job := by
  unfold FAsyncCompiler.updateJob at h
  split at h
  · rename_i job hget
    rcases List.mem_or_eq_of_mem_set h with h1 | h1
    · exact Or.inl h1
    · exact Or.inr ⟨job, List.getElem?_mem hget, h1⟩
  · exact Or.inl h

theorem startNext_mem (c : FAsyncCompiler F) (job' : FCompileJobHandle F)
    (h : job' ∈ c.startNext.handles) :
    job' ∈ c.handles ∨ ∃ job, job ∈ c.handles ∧ job' = job.BeginCompilationAsync := by
  unfold FAsyncCompiler.startNext at h
  split at h
  · have := updateJob_mem _ _ _ job' h
    exact this
  · exact Or.inl h

theorem Tick_mem (c : FAsyncCompiler F) (job' : FCompileJobHandle F)
    (h : job' ∈ c.Tick.handles) :
    job' ∈ c.handles ∨ ∃ job, job ∈ c.handles ∧ job' = job.BeginCompilationAsync := by
  unfold FAsyncCompiler.Tick at h
  have := startNext_mem c.releaseFinished job' h
  rwa [releaseFinished_handles] at this

theorem Tick_length (c : FAsyncCompiler F) : c.Tick.handles.length = c.handles.length := by
  unfold FAsyncCompiler.Tick FAsyncCompiler.startNext
  split
  · rw [(updateJob_CurrentJob _ _ _).2.2]
    exact congrArg List.length (releaseFinished_handles c)
  · exact congrArg List.length (releaseFinished_handles c)

/-- After any `Tick`, no current job means an empty queue. -/
theorem Tick_idle (c : FAsyncCompiler F) (h : c.Tick.CurrentJob = none) : c.Tick.Jobs = [] := by
  unfold FAsyncCompiler.Tick FAsyncCompiler.startNext at h ⊢
  split at h
  · rw [(updateJob_CurrentJob _ _ _).1] at h
    cases h
  · rename_i hne
    cases hjobs : c.releaseFinished.Jobs with
    | nil => rfl
    | cons j rest => exact absurd hjobs (hne j rest h)

theorem Inv_create (m : List FShader) (p : FJobTarget) :
    (FCompileJobHandle.create m p : FCompileJobHandle F).Inv := by
  refine ⟨rfl, ?_, ?_⟩
  · intro _; exact ⟨rfl, rfl⟩
  · intro h; simp [FCompileJobHandle.create] at h

theorem Inv_runThread (X : Externals F) (job job' : FCompileJobHandle F) (h : job.Inv)
    (hfin : job.bIsCompilationComplete = false) (hrun : job.runThread X = .ok job') :
    job'.Inv := by
  have hf := runThread_fields X job job' hrun
  obtain ⟨h1, h2, _⟩ := h
  obtain ⟨hs, hn⟩ := h2 hfin
  refine ⟨by rw [hf.2.2.1, hf.2.1, h1], ?_, ?_⟩
  · intro hcon; rw [hf.2.2.2.2.1] at hcon; cases hcon
  · intro _
    rw [hf.2.2.2.2.2.1, hf.2.2.2.2.2.2, hf.2.2.1, hs, hn, h1]
    simp

theorem Reachable_jobInv (X : Externals F) (c : FAsyncCompiler F)
    (h : FAsyncCompiler.Reachable X c) : ∀ job, job ∈ c.handles → job.Inv := by
  induction h with
  | init => intro job hjob; simp at hjob
  | step e _ hstep ih =>
    intro job' hjob'
    cases e with
    | addJob m p =>
      simp only [FAsyncCompiler.step] at hstep
      injection hstep with hstep
      subst hstep
      simp only [FAsyncCompiler.AddJob, List.mem_append, List.mem_singleton] at hjob'
      rcases hjob' with h1 | h1
      · exact ih job' h1
      · rw [h1]; exact Inv_create m p
    | tick =>
      simp only [FAsyncCompiler.step] at hstep
      injection hstep with hstep
      subst hstep
      rcases Tick_mem _ job' hjob' with h1 | ⟨job, hmem, h1⟩
      · exact ih job' h1
      · subst h1
        exact ih job hmem
    | threadEnds j =>
      simp only [FAsyncCompiler.step] at hstep
      rcases threadEnds_cases X _ _ j hstep with h1 | ⟨job, job1, hget, _, hfin, hrun, h1⟩
      · rw [h1] at hjob'; exact ih job' hjob'
      · subst h1
        rcases List.mem_or_eq_of_mem_set hjob' with h2 | h2
        · exact ih job' h2
        · rw [h2]
          exact Inv_runThread X job job1 (ih job (List.getElem?_mem hget)) hfin hrun

theorem threadEnds_length (X : Externals F) (c c' : FAsyncCompiler F) (j : Nat)
    (h : c.threadEnds X j = .ok c') : c'.handles.length = c.handles.length := by
  rcases threadEnds_cases X c c' j h with h1 | ⟨_, _, _, _, _, _, h1⟩
  · rw [h1]
  · rw [h1]; simp

theorem finished_Tick (c : FAsyncCompiler F) (j : Nat) : c.Tick.finished j = c.finished j := by
  unfold FAsyncCompiler.Tick
  rw [← finished_congr c c.releaseFinished (releaseFinished_handles c) j]
  generalize c.releaseFinished = d
  unfold FAsyncCompiler.startNext
  split
  · rename_i k rest _ _
    unfold FAsyncCompiler.updateJob
    cases hget : d.handles[k]? with
    | none => exact finished_congr _ _ rfl j
    | some job =>
      dsimp only
      rw [finished_set d _ k j job _ rfl hget]
      by_cases hjk : j = k
      · subst hjk
        simp [FAsyncCompiler.finished, hget, FCompileJobHandle.BeginCompilationAsync]
      · simp [hjk]
  · rfl

theorem step_mono (X : Externals F) (c c' : FAsyncCompiler F) (e : SchedulerEvent)
    (h : c.step X e = .ok c') :
    c.handles.length ≤ c'.handles.length ∧
    ∀ j, c.finished j = true → c'.finished j = true := by
  cases e with
  | addJob m p =>
    simp only [FAsyncCompiler.step] at h
    injection h with h
    subst h
    refine ⟨by simp [FAsyncCompiler.AddJob], ?_⟩
    intro j hj
    rw [finished_addJob]
    exact hj
  | tick =>
    simp only [FAsyncCompiler.step] at h
    injection h with h
    subst h
    refine ⟨by rw [Tick_length], ?_⟩
    intro j hj
    rw [finished_Tick]
    exact hj
  | threadEnds k =>
    simp only [FAsyncCompiler.step] at h
    refine ⟨by rw [threadEnds_length X c c' k h], ?_⟩
    intro j hj
    rcases threadEnds_cases X c c' k h with h1 | ⟨job, job', hget, _, _, hrun, h1⟩
    · rw [h1]; exact hj
    · rw [finished_set c c' k j job job' (by rw [h1]) hget]
      by_cases hjk : j = k
      · simp [hjk, (runThread_fields X job job' hrun).2.2.2.2.1]
      · simp [hjk, hj]

end Scheduler

end MaliOC

namespace MaliOC

section SchedulerClaims

variable {F : Type}

theorem demoRunning_reachable : FAsyncCompiler.Reachable demoExternals demoRunning :=
  FAsyncCompiler.Reachable.step SchedulerEvent.tick
    (FAsyncCompiler.Reachable.step (SchedulerEvent.addJob [demoShader] demoTarget)
      (FAsyncCompiler.Reachable.step (SchedulerEvent.addJob [demoShader] demoTarget)
        FAsyncCompiler.Reachable.init rfl) rfl) rfl

/-- C7. In every reachable scheduler state a job that has been started and has not
finished is the current job, so at most one such job exists; a `Tick` that starts a job
finds no started-and-unfinished job (a current job, if any, has finished); `AddJob` starts
no job. -/
theorem scheduler_runs_at_most_one_job (X : Externals F) (c : FAsyncCompiler F)
    (h : FAsyncCompiler.Reachable X c) :
    (∀ j, c.running j = true → c.CurrentJob = some j) ∧
    (∀ i j, c.running i = true → c.running j = true → i = j) ∧
    (∀ j, c.started j = false → c.Tick.started j = true →
      (∀ i, c.running i = false) ∧ (∀ i, c.CurrentJob = some i → c.finished i = true)) ∧
    (∀ m p j, (c.AddJob m p).2.started j = c.started j) := by
  obtain ⟨k, hk⟩ := Reachable_InvAt X c h
  have hcur : ∀ j, c.running j = true → c.CurrentJob = some j := by
    intro j hj
    simp only [FAsyncCompiler.running, Bool.and_eq_true, Bool.not_eq_true'] at hj
    rcases hk.2.2.2.2.1 j ((hk.2.2.1 j).mp hj.1) with h1 | h1
    · rw [h1] at hj; cases hj.2
    · exact h1
  refine ⟨hcur, ?_, ?_, ?_⟩
  · intro i j hi hj
    have := (hcur i hi).symm.trans (hcur j hj)
    injection this
  · intro j hnot hnow
    have hrel := InvAt_releaseFinished c k hk
    rcases InvAt_startNext c.releaseFinished k hrel with h1 | ⟨hnone, _, _, _⟩
    · have hlt : j < k := (h1.2.2.1 j).mp hnow
      rw [(hk.2.2.1 j).mpr hlt] at hnot
      cases hnot
    · have hall : ∀ i, i < k → c.finished i = true := by
        intro i hi
        rw [← finished_congr c c.releaseFinished (releaseFinished_handles c) i]
        exact releaseFinished_current_none c.releaseFinished k hrel hnone i hi
      constructor
      · intro i
        cases hst : c.started i with
        | false => simp [FAsyncCompiler.running, hst]
        | true =>
          simp [FAsyncCompiler.running, hst, hall i ((hk.2.2.1 i).mp hst)]
      · intro i hi
        exact hall i (by have := hk.2.2.2.2.2 i hi; omega)
  · intro m p j
    exact started_addJob c m p j

theorem scheduler_runs_at_most_one_job_witness :
    FAsyncCompiler.Reachable demoExternals demoRunning ∧ demoRunning.running 0 = true ∧
    (∀ j, demoRunning.running j = true → demoRunning.CurrentJob = some j) :=
  ⟨demoRunning_reachable, by decide,
    (scheduler_runs_at_most_one_job demoExternals demoRunning demoRunning_reachable).1⟩

/-- C8. Handles are numbered in the order of the `AddJob` calls, and in every reachable
scheduler state, for jobs `J1` enqueued before `J2`: if `J2` has been started then `J1` has
been started and has finished; if `J2` has finished so has `J1`; the two never run at the
same time. -/
theorem scheduler_fifo (X : Externals F) (c : FAsyncCompiler F)
    (h : FAsyncCompiler.Reachable X c) :
    (∀ m p, (c.AddJob m p).1 = c.handles.length ∧
      (c.AddJob m p).2.handles.length = c.handles.length + 1) ∧
    (∀ J1 J2, J1 < J2 → c.started J2 = true → c.started J1 = true ∧ c.finished J1 = true) ∧
    (∀ J1 J2, J1 < J2 → c.finished J2 = true → c.finished J1 = true) ∧
    (∀ J1 J2, J1 < J2 → ¬ (c.running J1 = true ∧ c.running J2 = true)) := by
  obtain ⟨k, hk, hq, hs, hf, hc, hcur⟩ := Reachable_InvAt X c h
  have key : ∀ J1 J2, J1 < J2 → c.started J2 = true →
      c.started J1 = true ∧ c.finished J1 = true := by
    intro J1 J2 hlt h2
    have h2k : J2 < k := (hs J2).mp h2
    refine ⟨(hs J1).mpr (by omega), ?_⟩
    rcases hc J1 (by omega) with h1 | h1
    · exact h1
    · have := hcur J1 h1
      omega
  refine ⟨?_, key, ?_, ?_⟩
  · intro m p
    simp [FAsyncCompiler.AddJob]
  · intro J1 J2 hlt h2
    exact (key J1 J2 hlt ((hs J2).mpr (hf J2 h2))).2
  · intro J1 J2 hlt hboth
    simp only [FAsyncCompiler.running, Bool.and_eq_true, Bool.not_eq_true'] at hboth
    have := (key J1 J2 hlt hboth.2.1).2
    rw [this] at hboth
    cases hboth.1.2

theorem scheduler_fifo_witness :
    FAsyncCompiler.Reachable demoExternals demoRunning ∧ demoRunning.started 0 = true ∧
    demoRunning.started 1 = false ∧
    (∀ J1 J2, J1 < J2 → demoRunning.started J2 = true →
      demoRunning.started J1 = true ∧ demoRunning.finished J1 = true) :=
  ⟨demoRunning_reachable, by decide, by decide,
    (scheduler_fifo demoExternals demoRunning demoRunning_reachable).2.1⟩

theorem threadsEnd_InvAt (X : Externals F) (js : List Nat) :
    ∀ (c c' : FAsyncCompiler F) (k : Nat), c.InvAt k → c.threadsEnd X js = .ok c' →
      c'.InvAt k ∧ c'.handles.length = c.handles.length := by
  induction js with
  | nil =>
    intro c c' k hk h
    simp only [FAsyncCompiler.threadsEnd] at h
    injection h with h
    subst h
    exact ⟨hk, rfl⟩
  | cons j rest ih =>
    intro c c' k hk h
    simp only [FAsyncCompiler.threadsEnd] at h
    split at h
    · cases h
    · rename_i c1 h1
      have := ih c1 c' k (InvAt_threadEnds X c c1 k j hk h1) h
      exact ⟨this.1, this.2.trans (threadEnds_length X c c1 j h1)⟩

theorem finishLoop_result (X : Externals F) (sleeps : List (List Nat)) :
    ∀ (c c' : FAsyncCompiler F), (∃ k, c.InvAt k) → (c.CurrentJob = none → c.Jobs = []) →
      FAsyncCompiler.finishLoop X sleeps c = .ok (some c') →
      (∃ k, c'.InvAt k) ∧ c'.CurrentJob = none ∧ c'.Jobs = [] ∧
        c'.handles.length = c.handles.length := by
  induction sleeps with
  | nil =>
    intro c c' hk hidle h
    simp only [FAsyncCompiler.finishLoop] at h
    split at h
    · cases h
    · rename_i hcur
      injection h with h
      injection h with h
      subst h
      have hnone : c.CurrentJob = none := by
        cases hc : c.CurrentJob with
        | none => rfl
        | some j => simp [hc] at hcur
      exact ⟨hk, hnone, hidle hnone, rfl⟩
  | cons ended rest ih =>
    intro c c' hk hidle h
    simp only [FAsyncCompiler.finishLoop] at h
    split at h
    · split at h
      · cases h
      · rename_i c1 h1
        obtain ⟨k, hk⟩ := hk
        have hc1 := threadsEnd_InvAt X ended c c1 k hk h1
        have hk1 : ∃ k, c1.Tick.InvAt k := by
          rcases InvAt_Tick c1 k hc1.1 with h2 | h2
          · exact ⟨k, h2⟩
          · exact ⟨k + 1, h2⟩
        have := ih c1.Tick c' hk1 (Tick_idle c1) h
        refine ⟨this.1, this.2.1, this.2.2.1, ?_⟩
        rw [this.2.2.2, Tick_length, hc1.2]
    · rename_i hcur
      injection h with h
      injection h with h
      subst h
      have hnone : c.CurrentJob = none := by
        cases hc : c.CurrentJob with
        | none => rfl
        | some j => simp [hc] at hcur
      exact ⟨hk, hnone, hidle hnone, rfl⟩

/-- What holds when `FinishCompilation` returns, given the scheduler invariant. -/
theorem FinishCompilation_result (X : Externals F) (c c' : FAsyncCompiler F)
    (sleeps : List (List Nat)) (hinv : ∃ k, c.InvAt k)
    (hret : c.FinishCompilation X sleeps = .ok (some c')) :
    c'.CurrentJob = none ∧ c'.Jobs = [] ∧ c'.handles.length = c.handles.length ∧
    (∀ j, j < c.handles.length → c'.started j = true ∧ c'.finished j = true) := by
  obtain ⟨k, hk⟩ := hinv
  have hk1 : ∃ k, c.Tick.InvAt k := by
    rcases InvAt_Tick c k hk with h2 | h2
    · exact ⟨k, h2⟩
    · exact ⟨k + 1, h2⟩
  unfold FAsyncCompiler.FinishCompilation at hret
  obtain ⟨⟨k', hle, hq, hs, hf, hc, hcur⟩, hnone, hjobs, hlen⟩ :=
    finishLoop_result X sleeps c.Tick c' hk1 (Tick_idle c) hret
  rw [Tick_length] at hlen
  refine ⟨hnone, hjobs, hlen, ?_⟩
  intro j hj
  have hkn : k' = c'.handles.length := by
    rw [hjobs] at hq
    have := congrArg List.length hq
    simp only [List.length_nil, List.length_range'] at this
    omega
  have hjk : j < k' := by omega
  refine ⟨(hs j).mpr hjk, ?_⟩
  rcases hc j hjk with h1 | h1
  · exact h1
  · rw [hnone] at h1; cases h1

/-- C9. When `FinishCompilation`, called in a reachable scheduler state, returns, there is
no current job, the queue is empty, no handle was added or lost, and every job created
before the call has been started and has finished. -/
theorem FinishCompilation_drains (X : Externals F) (c c' : FAsyncCompiler F)
    (sleeps : List (List Nat)) (h : FAsyncCompiler.Reachable X c)
    (hret : c.FinishCompilation X sleeps = .ok (some c')) :
    c'.CurrentJob = none ∧ c'.Jobs = [] ∧ c'.handles.length = c.handles.length ∧
    (∀ j, j < c.handles.length → c'.started j = true ∧ c'.finished j = true) :=
  FinishCompilation_result X c c' sleeps (Reachable_InvAt X c h) hret

theorem FinishCompilation_drains_witness :
    FAsyncCompiler.Reachable demoExternals demoRunning ∧
    demoRunning.FinishCompilation demoExternals [[0], [1]] = .ok (some demoDrained) ∧
    demoDrained.CurrentJob = none ∧ demoDrained.Jobs = [] ∧
    demoDrained.handles.length = demoRunning.handles.length ∧
    (∀ j, j < demoRunning.handles.length →
      demoDrained.started j = true ∧ demoDrained.finished j = true) :=
  ⟨demoRunning_reachable, rfl,
    FinishCompilation_drains demoExternals demoRunning demoDrained [[0], [1]]
      demoRunning_reachable rfl⟩

theorem run_reachable (X : Externals F) (events : List SchedulerEvent) :
    ∀ (c c' : FAsyncCompiler F), FAsyncCompiler.Reachable X c →
      c.run X events = .ok c' → FAsyncCompiler.Reachable X c' := by
  induction events with
  | nil =>
    intro c c' hc h
    simp only [FAsyncCompiler.run] at h
    injection h with h
    subst h
    exact hc
  | cons e rest ih =>
    intro c c' hc h
    simp only [FAsyncCompiler.run] at h
    split at h
    · cases h
    · rename_i c1 h1
      exact ih c1 c' (FAsyncCompiler.Reachable.step e hc h1) h

theorem demoDrained_reachable : FAsyncCompiler.Reachable demoExternals demoDrained :=
  run_reachable demoExternals
    [SchedulerEvent.threadEnds 0, SchedulerEvent.tick, SchedulerEvent.threadEnds 1,
      SchedulerEvent.tick] demoRunning demoDrained demoRunning_reachable rfl

/-- C10. In every reachable scheduler state, a job that has finished has a total equal to
the number of its shaders, and its raw output holds exactly that many entries over the
error, Midgard and Utgard lists together; so a report built from it whose error list is
empty has as many Midgard plus Utgard reports as the job has shaders. -/
theorem finished_job_one_entry_per_shader (X : Externals F) (c : FAsyncCompiler F)
    (h : FAsyncCompiler.Reachable X c) (j : Nat) (job : FCompileJobHandle F)
    (hget : c.handles[j]? = some job) (hfin : job.bIsCompilationComplete = true) :
    job.TotalNumShaders = job.OutShaders.length ∧
    job.RawCompilerOutput.ErrorOutput.length + job.RawCompilerOutput.MidgardOutput.length +
      job.RawCompilerOutput.UtgardOutput.length = job.TotalNumShaders ∧
    (∀ descriptions,
      (compilationReport X descriptions job.RawCompilerOutput).ErrorList.length = 0 →
      (compilationReport X descriptions job.RawCompilerOutput).MidgardReports.length +
        (compilationReport X descriptions job.RawCompilerOutput).UtgardReports.length =
        job.TotalNumShaders) := by
  obtain ⟨h1, _, h3⟩ := Reachable_jobInv X c h job (List.getElem?_mem hget)
  have hsize := (h3 hfin).1
  unfold FMaliOCRawCompilerOutput.size at hsize
  refine ⟨h1, hsize, ?_⟩
  intro descriptions herr
  simp only [compilationReport, List.length_insertionSort, List.length_map] at herr ⊢
  omega

theorem finished_job_one_entry_per_shader_witness :
    FAsyncCompiler.Reachable demoExternals demoDrained ∧
    demoDrained.handles[0]? = some demoFinishedJob ∧
    demoFinishedJob.bIsCompilationComplete = true ∧
    demoFinishedJob.RawCompilerOutput.ErrorOutput.length +
      demoFinishedJob.RawCompilerOutput.MidgardOutput.length +
      demoFinishedJob.RawCompilerOutput.UtgardOutput.length = demoFinishedJob.TotalNumShaders :=
  ⟨demoDrained_reachable, rfl, rfl,
    (finished_job_one_entry_per_shader demoExternals demoDrained demoDrained_reachable 0
      demoFinishedJob rfl rfl).2.1⟩

/-! ### `FinishCompilation` returns when the threads end -/

theorem runThread_ok (X : Externals F) (c : FAsyncCompiler F) (hok : c.threadsNeverFail X)
    (job : FCompileJobHandle F) (hjob : job ∈ c.handles) : ∃ job', job.runThread X = .ok job' := by
  obtain ⟨r, hr⟩ := hok job hjob job.RawCompilerOutput job.NumCompiledShaders
  unfold FCompileJobHandle.runThread FCompileJobHandle.Run
  rw [hr]
  exact ⟨_, rfl⟩

theorem threadsNeverFail_set (X : Externals F) (c : FAsyncCompiler F) (j : Nat)
    (job job' : FCompileJobHandle F) (hok : c.threadsNeverFail X)
    (hget : c.handles[j]? = some job) (hP : job'.Platform = job.Platform)
    (hS : job'.OutShaders = job.OutShaders) :
    FAsyncCompiler.threadsNeverFail X { c with handles := c.handles.set j job' } := by
  intro job1 hjob1 Raw n
  rcases List.mem_or_eq_of_mem_set hjob1 with h1 | h1
  · exact hok job1 h1 Raw n
  · rw [h1, hP, hS]
    exact hok job (List.getElem?_mem hget) Raw n

/-- With threads that never fail, `threadEnds` returns, leaves the pointers of the
scheduler alone, and leaves job `j` finished if it had been started. -/
theorem threadEnds_prompt (X : Externals F) (c : FAsyncCompiler F) (k j : Nat)
    (hinv : c.InvAt k) (hok : c.threadsNeverFail X) :
    ∃ c', c.threadEnds X j = .ok c' ∧ c'.InvAt k ∧ c'.threadsNeverFail X ∧
      c'.CurrentJob = c.CurrentJob ∧ c'.Jobs = c.Jobs ∧
      (∀ i, c.started i = true → c'.started i = true) ∧
      (∀ i, c.finished i = true → c'.finished i = true) ∧
      (c.started j = true → c'.finished j = true) := by
  have key : ∀ c', c.threadEnds X j = .ok c' →
      c'.InvAt k ∧ c'.threadsNeverFail X ∧ c'.CurrentJob = c.CurrentJob ∧ c'.Jobs = c.Jobs ∧
      (∀ i, c.started i = true → c'.started i = true) ∧
      (∀ i, c.finished i = true → c'.finished i = true) ∧
      (c.started j = true → c'.finished j = true) := by
    intro c' h
    have hinv' := InvAt_threadEnds X c c' k j hinv h
    have hstarted : ∀ i, c.started i = true → c'.started i = true := by
      intro i hi
      exact (hinv'.2.2.1 i).mpr ((hinv.2.2.1 i).mp hi)
    have hfinished := (step_mono X c c' (SchedulerEvent.threadEnds j) h).2
    rcases threadEnds_cases X c c' j h with h1 | ⟨job, job', hget, _, _, hrun, h1⟩
    · subst h1
      refine ⟨hinv', hok, rfl, rfl, hstarted, hfinished, ?_⟩
      intro hst
      unfold FAsyncCompiler.threadEnds at h
      unfold FAsyncCompiler.started at hst
      unfold FAsyncCompiler.finished
      cases hget : c'.handles[j]? with
      | none => rw [hget] at hst; cases hst
      | some job =>
        rw [hget] at hst h
        dsimp only at hst h ⊢
        cases hfin : job.bIsCompilationComplete with
        | true => rfl
        | false =>
          exfalso
          rw [if_pos ⟨hst, hfin⟩] at h
          obtain ⟨job', hjob'⟩ := runThread_ok X c' hok job (List.getElem?_mem hget)
          rw [hjob'] at h
          dsimp only at h
          injection h with h
          have hcomp := (runThread_fields X job job' hjob').2.2.2.2.1
          have hget' : ({ c' with handles := c'.handles.set j job' } :
              FAsyncCompiler F).handles[j]? = some job' := by
            simp only [List.getElem?_set]
            have hlt : j < c'.handles.length := by
              by_contra hcon
              rw [List.getElem?_eq_none (by omega)] at hget
              cases hget
            simp [hlt]
          rw [h, hget] at hget'
          injection hget' with hget'
          rw [← hget', hfin] at hcomp
          cases hcomp
    · have hflds := runThread_fields X job job' hrun
      refine ⟨hinv', ?_, by rw [h1], by rw [h1], hstarted, hfinished, ?_⟩
      · rw [h1]
        exact threadsNeverFail_set X c j job job' hok hget hflds.2.2.2.1 hflds.2.1
      · intro _
        rw [finished_set c c' j j job job' (by rw [h1]) hget]
        simp [hflds.2.2.2.2.1]
  unfold FAsyncCompiler.threadEnds
  cases hget : c.handles[j]? with
  | none => exact ⟨c, rfl, key c (by unfold FAsyncCompiler.threadEnds; rw [hget])⟩
  | some job =>
    dsimp only
    by_cases hrun : job.Thread = true ∧ job.bIsCompilationComplete = false
    · obtain ⟨job', hjob'⟩ := runThread_ok X c hok job (List.getElem?_mem hget)
      rw [if_pos hrun, hjob']
      refine ⟨_, rfl, key _ ?_⟩
      unfold FAsyncCompiler.threadEnds
      rw [hget]
      dsimp only
      rw [if_pos hrun, hjob']
    · rw [if_neg hrun]
      refine ⟨c, rfl, key c ?_⟩
      unfold FAsyncCompiler.threadEnds
      rw [hget]
      dsimp only
      rw [if_neg hrun]

theorem threadsEnd_prompt (X : Externals F) (js : List Nat) :
    ∀ (c : FAsyncCompiler F) (k : Nat), c.InvAt k → c.threadsNeverFail X →
      ∃ c', c.threadsEnd X js = .ok c' ∧ c'.InvAt k ∧ c'.threadsNeverFail X ∧
        c'.CurrentJob = c.CurrentJob ∧ c'.Jobs = c.Jobs ∧
        (∀ i, c.started i = true → c'.started i = true) ∧
        (∀ i, c.finished i = true → c'.finished i = true) ∧
        (∀ j, j ∈ js → c.started j = true → c'.finished j = true) := by
  induction js with
  | nil =>
    intro c k hinv hok
    exact ⟨c, rfl, hinv, hok, rfl, rfl, fun _ h => h, fun _ h => h,
      fun j hj => by simp at hj⟩
  | cons j rest ih =>
    intro c k hinv hok
    obtain ⟨c1, h1, hinv1, hok1, hcur1, hjobs1, hst1, hfin1, hj1⟩ :=
      threadEnds_prompt X c k j hinv hok
    obtain ⟨c2, h2, hinv2, hok2, hcur2, hjobs2, hst2, hfin2, hj2⟩ := ih c1 k hinv1 hok1
    refine ⟨c2, ?_, hinv2, hok2, hcur2.trans hcur1, hjobs2.trans hjobs1,
      fun i hi => hst2 i (hst1 i hi), fun i hi => hfin2 i (hfin1 i hi), ?_⟩
    · simp only [FAsyncCompiler.threadsEnd, h1]
      exact h2
    · intro i hi hsi
      rcases List.mem_cons.mp hi with h | h
      · subst h
        exact hfin2 i (hj1 hsi)
      · exact hj2 i h (hst1 i hsi)

theorem threadsNeverFail_Tick (X : Externals F) (c : FAsyncCompiler F)
    (hok : c.threadsNeverFail X) : c.Tick.threadsNeverFail X := by
  intro job hjob Raw n
  rcases Tick_mem c job hjob with h1 | ⟨job0, hmem, h1⟩
  · exact hok job h1 Raw n
  · rw [h1]
    exact hok job0 hmem Raw n

/-- A `Tick` never leaves more pending jobs than the queue held plus one; and a `Tick` that
finds the current job finished leaves fewer pending jobs than before. -/
theorem Tick_pending (c : FAsyncCompiler F) :
    c.Tick.pending ≤ c.Jobs.length + 1 ∧
    (c.currentJobFinished = true → c.Tick.pending + 1 ≤ c.pending) := by
  unfold FAsyncCompiler.Tick FAsyncCompiler.pending
  have hj := releaseFinished_Jobs c
  cases hcur : c.releaseFinished.CurrentJob with
  | some j =>
    have hs : c.releaseFinished.startNext = c.releaseFinished := by
      unfold FAsyncCompiler.startNext
      rw [hcur]
    rw [hs, hcur, hj]
    refine ⟨by simp, ?_⟩
    intro hfin
    unfold FAsyncCompiler.releaseFinished at hcur
    rw [if_pos hfin] at hcur
    cases hcur
  | none =>
    cases hjobs : c.releaseFinished.Jobs with
    | nil =>
      have hs : c.releaseFinished.startNext = c.releaseFinished := by
        unfold FAsyncCompiler.startNext
        rw [hcur, hjobs]
      rw [hs, hcur, hjobs]
      refine ⟨by simp, ?_⟩
      intro hfin
      unfold FAsyncCompiler.currentJobFinished at hfin
      cases hc : c.CurrentJob with
      | none => rw [hc] at hfin; cases hfin
      | some j => simp
    | cons j rest =>
      have hs : c.releaseFinished.startNext.CurrentJob = some j ∧
          c.releaseFinished.startNext.Jobs = rest := by
        unfold FAsyncCompiler.startNext
        rw [hcur, hjobs]
        dsimp only
        exact ⟨(updateJob_CurrentJob _ _ _).1, (updateJob_CurrentJob _ _ _).2.1⟩
      rw [hs.1, hs.2]
      rw [hj] at hjobs
      rw [hjobs]
      refine ⟨by simp, ?_⟩
      intro hfin
      unfold FAsyncCompiler.currentJobFinished at hfin
      cases hc : c.CurrentJob with
      | none => rw [hc] at hfin; cases hfin
      | some j => simp

theorem finishLoop_returns (X : Externals F) (n fuel : Nat) :
    ∀ (c : FAsyncCompiler F) (k : Nat), c.InvAt k → c.threadsNeverFail X →
      c.handles.length = n → c.pending ≤ fuel →
      ∃ c', FAsyncCompiler.finishLoop X (List.replicate fuel (List.range n)) c = .ok (some c') := by
  induction fuel with
  | zero =>
    intro c k _ _ _ hp
    have hnone : c.CurrentJob.isSome = false := by
      unfold FAsyncCompiler.pending at hp
      cases hc : c.CurrentJob with
      | none => rfl
      | some j => rw [hc] at hp; simp at hp
    simp only [List.replicate, FAsyncCompiler.finishLoop, hnone]
    exact ⟨c, rfl⟩
  | succ fuel ih =>
    intro c k hinv hok hlen hp
    simp only [List.replicate, FAsyncCompiler.finishLoop]
    cases hc : c.CurrentJob with
    | none => exact ⟨c, by simp⟩
    | some j =>
      simp only [Option.isSome_some, if_true]
      obtain ⟨c1, h1, hinv1, hok1, hcur1, hjobs1, _, _, hj1⟩ :=
        threadsEnd_prompt X (List.range n) c k hinv hok
      rw [h1]
      dsimp only
      have hjk : j < k := by have := hinv.2.2.2.2.2 j hc; omega
      have hjn : j < n := by have := hinv.1; omega
      have hfin : c1.finished j = true :=
        hj1 j (List.mem_range.mpr hjn) ((hinv.2.2.1 j).mpr hjk)
      have hcf : c1.currentJobFinished = true := by
        unfold FAsyncCompiler.currentJobFinished
        rw [hcur1, hc]
        exact hfin
      have hlen1 : c1.Tick.handles.length = n := by
        rw [Tick_length, ← hlen]
        exact (threadsEnd_InvAt X (List.range n) c c1 k hinv h1).2
      have hp1 : c1.Tick.pending ≤ fuel := by
        have := (Tick_pending c1).2 hcf
        have hpc : c1.pending = c.pending := by
          unfold FAsyncCompiler.pending
          rw [hcur1, hjobs1]
        omega
      rcases InvAt_Tick c1 k hinv1 with h2 | h2
      · exact ih c1.Tick k h2 (threadsNeverFail_Tick X c1 hok1) hlen1 hp1
      · exact ih c1.Tick (k + 1) h2 (threadsNeverFail_Tick X c1 hok1) hlen1 hp1

/-- `FinishCompilation` returns: in a reachable scheduler state whose jobs never make `Run`
die, if during every `Sleep` the running thread ends, the call has returned after at most
one `Sleep` per queued job and one more. -/
theorem FinishCompilation_returns (X : Externals F) (c : FAsyncCompiler F)
    (h : FAsyncCompiler.Reachable X c) (hok : c.threadsNeverFail X) :
    ∃ c', c.FinishCompilation X
      (List.replicate (c.Jobs.length + 1) (List.range c.handles.length)) = .ok (some c') := by
  obtain ⟨k, hk⟩ := Reachable_InvAt X c h
  unfold FAsyncCompiler.FinishCompilation
  rcases InvAt_Tick c k hk with h2 | h2
  · exact finishLoop_returns X c.handles.length _ c.Tick k h2 (threadsNeverFail_Tick X c hok)
      (Tick_length c) (Tick_pending c).1
  · exact finishLoop_returns X c.handles.length _ c.Tick (k + 1) h2
      (threadsNeverFail_Tick X c hok) (Tick_length c) (Tick_pending c).1

end SchedulerClaims

end MaliOC

namespace MaliOC

/-! ## The report session -/

section SessionLemmas

variable {F : Type}

theorem AddJob_new_handle (c : FAsyncCompiler F) (m : List FShader) (p : FJobTarget) :
    (c.AddJob m p).2.handles[(c.AddJob m p).1]? = some (FCompileJobHandle.create m p) := by
  simp [FAsyncCompiler.AddJob]

theorem tickBackend_cases (g g' : FAsyncReportGenerator) (c c' : FAsyncCompiler F)
    (hP : g.Progress = EProgress.MALIOC_COMPILATION_IN_PROGRESS)
    (h : FAsyncReportGenerator.tickBackend g c = .ok (g', c')) :
    c' = c ∧ ∃ handle job, g.JobHandle = some handle ∧ c.handles[handle]? = some job ∧
      ((job.bIsCompilationComplete = false ∧ g' = g) ∨
       (job.bIsCompilationComplete = true ∧
         g' = { g with Progress := EProgress.COMPILATION_COMPLETE })) := by
  unfold FAsyncReportGenerator.tickBackend at h
  rw [if_pos hP] at h
  unfold FAsyncCompiler.deref at h
  cases hj : g.JobHandle with
  | none => rw [hj] at h; cases h
  | some handle =>
    rw [hj] at h
    dsimp only at h
    cases hget : c.handles[handle]? with
    | none => rw [hget] at h; cases h
    | some job =>
      rw [hget] at h
      dsimp only at h
      cases hfin : job.bIsCompilationComplete with
      | false =>
        rw [if_pos hfin] at h
        injection h with h
        injection h with h1 h2
        exact ⟨h2.symm, handle, job, rfl, hget, Or.inl ⟨hfin, h1.symm⟩⟩
      | true =>
        rw [if_neg (by simp [hfin])] at h
        injection h with h
        injection h with h1 h2
        exact ⟨h2.symm, handle, job, rfl, hget, Or.inr ⟨hfin, h1.symm⟩⟩

/-- The ways `FAsyncReportGenerator::Tick` returns. -/
theorem Tick_cases (X : Externals F) (g g' : FAsyncReportGenerator) (c c' : FAsyncCompiler F)
    (h : FAsyncReportGenerator.Tick X g c = .ok (g', c')) :
    (g.Progress = EProgress.COMPILATION_COMPLETE ∧ g' = g ∧ c' = c) ∨
    (g.Progress = EProgress.CROSS_COMPILATION_IN_PROGRESS ∧
      g.Resource.bCompilationFinished = false ∧ g' = g ∧ c' = c) ∨
    (g.Progress = EProgress.CROSS_COMPILATION_IN_PROGRESS ∧
      g.Resource.bCompilationFinished = true ∧ g.Resource.GameThreadShaderMap = none ∧
      (g.Resource.CompileErrors.length = 0 ∧ g.NumAttempts = 0) ∧
      g' = { g with Resource := (X.CacheShaders g.Resource).2,
                    NumAttempts := g.NumAttempts + 1,
                    NumCacheShadersCalls := g.NumCacheShadersCalls + 1 } ∧ c' = c) ∨
    (g.Progress = EProgress.CROSS_COMPILATION_IN_PROGRESS ∧
      g.Resource.bCompilationFinished = true ∧ g.Resource.GameThreadShaderMap = none ∧
      ¬ (g.Resource.CompileErrors.length = 0 ∧ g.NumAttempts = 0) ∧
      g' = { g with bWasCompilationError := true,
                    Progress := EProgress.COMPILATION_COMPLETE } ∧ c' = c) ∨
    (g.Progress = EProgress.CROSS_COMPILATION_IN_PROGRESS ∧
      g.Resource.bCompilationFinished = true ∧ g.JobHandle = none ∧
      ∃ ShaderMap, g.Resource.GameThreadShaderMap = some ShaderMap ∧
        g' = { g with JobHandle := some c.handles.length,
                      Progress := EProgress.MALIOC_COMPILATION_IN_PROGRESS } ∧
        c' = (c.AddJob ShaderMap g.Platform).2) ∨
    (g.Progress = EProgress.MALIOC_COMPILATION_IN_PROGRESS ∧ c' = c ∧
      ∃ handle job, g.JobHandle = some handle ∧ c.handles[handle]? = some job ∧
        ((job.bIsCompilationComplete = false ∧ g' = g) ∨
         (job.bIsCompilationComplete = true ∧
           g' = { g with Progress := EProgress.COMPILATION_COMPLETE }))) := by
  unfold FAsyncReportGenerator.Tick at h
  cases hP : g.Progress with
  | COMPILATION_COMPLETE =>
    rw [hP, if_pos rfl] at h
    injection h with h
    injection h with h1 h2
    exact Or.inl ⟨rfl, h1.symm, h2.symm⟩
  | MALIOC_COMPILATION_IN_PROGRESS =>
    rw [hP, if_neg (by decide), if_neg (by decide)] at h
    exact Or.inr (Or.inr (Or.inr (Or.inr (Or.inr ⟨rfl, tickBackend_cases g g' c c' hP h⟩))))
  | CROSS_COMPILATION_IN_PROGRESS =>
    rw [hP, if_neg (by decide), if_pos rfl] at h
    cases hfin : g.Resource.bCompilationFinished with
    | false =>
      rw [hfin, if_pos rfl] at h
      injection h with h
      injection h with h1 h2
      exact Or.inr (Or.inl ⟨rfl, rfl, h1.symm, h2.symm⟩)
    | true =>
      rw [hfin, if_neg (by decide)] at h
      cases hmap : g.Resource.GameThreadShaderMap with
      | none =>
        rw [hmap] at h
        dsimp only at h
        by_cases hretry : g.Resource.CompileErrors.length = 0 ∧ g.NumAttempts = 0
        · rw [if_pos hretry] at h
          injection h with h
          injection h with h1 h2
          exact Or.inr (Or.inr (Or.inl ⟨rfl, rfl, rfl, hretry, h1.symm, h2.symm⟩))
        · rw [if_neg hretry] at h
          injection h with h
          injection h with h1 h2
          exact Or.inr (Or.inr (Or.inr (Or.inl ⟨rfl, rfl, rfl, hretry, h1.symm, h2.symm⟩)))
      | some ShaderMap =>
        rw [hmap] at h
        dsimp only at h
        cases hjh : g.JobHandle with
        | some handle =>
          rw [hjh] at h
          simp at h
        | none =>
          rw [hjh] at h
          simp only [Option.isSome_none, Bool.false_eq_true, if_false] at h
          have hb := tickBackend_cases _ g' _ c' rfl h
          obtain ⟨hc', handle, job, hh, hget, hcase⟩ := hb
          have hnew := AddJob_new_handle c ShaderMap g.Platform
          simp only [Option.some.injEq] at hh
          rw [← hh, hnew] at hget
          simp only [Option.some.injEq] at hget
          refine Or.inr (Or.inr (Or.inr (Or.inr (Or.inl
            ⟨rfl, rfl, rfl, ShaderMap, rfl, ?_, hc'⟩))))
          rcases hcase with ⟨_, hg⟩ | ⟨hcomp, _⟩
          · rw [hg]; rfl
          · rw [← hget] at hcomp
            simp [FCompileJobHandle.create] at hcomp

/-- The ways `GetReport` returns: with the cached report, or with a newly built one that
it stores. -/
theorem GetReport_cases (X : Externals F) (g g' : FAsyncReportGenerator) (c : FAsyncCompiler F)
    (report : FMaliOCReport) (h : g.GetReport X c = .ok (report, g')) :
    g.Progress = EProgress.COMPILATION_COMPLETE ∧
    ((g.CachedReport = some report ∧ g' = g) ∨
     (g.CachedReport = none ∧ g' = { g with CachedReport := some report } ∧
       (g.bWasCompilationError = true →
         report = crossCompilationErrorReport g.Resource.CompileErrors))) := by
  unfold FAsyncReportGenerator.GetReport at h
  by_cases hP : g.Progress = EProgress.COMPILATION_COMPLETE
  · rw [if_neg (by simp [hP])] at h
    refine ⟨hP, ?_⟩
    cases hc : g.CachedReport with
    | some r =>
      rw [hc] at h
      injection h with h
      injection h with h1 h2
      left
      exact ⟨by rw [h1], h2.symm⟩
    | none =>
      rw [hc] at h
      dsimp only at h
      right
      cases hflag : g.bWasCompilationError with
      | true =>
        rw [hflag, if_pos rfl] at h
        injection h with h
        injection h with h1 h2
        refine ⟨rfl, ?_, fun _ => h1.symm⟩
        rw [← h2, h1]
      | false =>
        rw [hflag, if_neg (by decide)] at h
        split at h
        · cases h
        · split at h
          · cases h
          · split at h
            · cases h
            · injection h with h
              injection h with h1 h2
              refine ⟨rfl, ?_, fun hcon => by cases hcon⟩
              rw [← h2, h1]
  · rw [if_pos hP] at h
    cases h

theorem create_Inv (X : Externals F) (c : FAsyncCompiler F) (Resource : FMaterialResource)
    (Platform : FJobTarget) :
    Session.Inv { gen := FAsyncReportGenerator.create X Resource Platform, compiler := c } := by
  unfold Session.Inv FAsyncReportGenerator.create
  dsimp only
  cases (X.CacheShaders Resource).1 <;> simp

theorem Tick_Inv (X : Externals F) (s : Session F) (g' : FAsyncReportGenerator)
    (c' : FAsyncCompiler F) (hinv : s.Inv)
    (h : FAsyncReportGenerator.Tick X s.gen s.compiler = .ok (g', c')) :
    Session.Inv { gen := g', compiler := c' } := by
  obtain ⟨h1, h2, h3, h4, h5, h6, h7⟩ := hinv
  rcases Tick_cases X s.gen g' s.compiler c' h with
    ⟨_, hg, hc⟩ | ⟨_, _, hg, hc⟩ | ⟨hP, _, _, hretry, hg, hc⟩ | ⟨hP, _, _, _, hg, hc⟩ |
    ⟨hP, _, hjh, m, _, hg, hc⟩ | ⟨hP, hc, handle, job, hjh, hget, hcase⟩
  · subst hg hc; exact ⟨h1, h2, h3, h4, h5, h6, h7⟩
  · subst hg hc; exact ⟨h1, h2, h3, h4, h5, h6, h7⟩
  · subst hg hc
    refine ⟨?_, ?_, ?_, h4, ?_, ?_, ?_⟩
    · dsimp only; omega
    · intro _; exact h2 hP
    · intro _; exact h3 (by rw [hP]; decide)
    · intro hcon; dsimp only at hcon; rw [hP] at hcon; cases hcon
    · intro hcon; dsimp only at hcon; rw [hP] at hcon; cases hcon
    · intro r hr; dsimp only at hr
      rw [h3 (by rw [hP]; decide)] at hr; cases hr
  · subst hg hc
    refine ⟨h1, ?_, ?_, h4, ?_, ?_, ?_⟩
    · intro hcon; cases hcon
    · intro hcon; exact absurd rfl hcon
    · intro hcon; cases hcon
    · intro _ hcon; cases hcon
    · intro r hr; dsimp only at hr
      rw [h3 (by rw [hP]; decide)] at hr; cases hr
  · subst hg hc
    refine ⟨h1, ?_, ?_, ?_, ?_, ?_, ?_⟩
    · intro hcon; cases hcon
    · intro _; exact h3 (by rw [hP]; decide)
    · intro handle hh
      dsimp only at hh
      injection hh with hh
      subst hh
      simp [FAsyncCompiler.AddJob]
    · intro _; exact ⟨(h2 hP).1, rfl⟩
    · intro hcon; cases hcon
    · intro r hr; dsimp only at hr
      rw [h3 (by rw [hP]; decide)] at hr; cases hr
  · subst hc
    rcases hcase with ⟨_, hg⟩ | ⟨hfin, hg⟩
    · subst hg; exact ⟨h1, h2, h3, h4, h5, h6, h7⟩
    · subst hg
      refine ⟨h1, ?_, ?_, h4, ?_, ?_, ?_⟩
      · intro hcon; cases hcon
      · intro hcon; exact absurd rfl hcon
      · intro hcon; cases hcon
      · intro _ _
        exact ⟨handle, hjh, by simp [FAsyncCompiler.finished, hget, hfin]⟩
      · intro r hr; dsimp only at hr
        rw [h3 (by rw [hP]; decide)] at hr; cases hr

theorem Reachable_Inv (X : Externals F) (s : Session F) (h : Session.Reachable X s) : s.Inv := by
  induction h with
  | init c Resource Platform _ => exact create_Inv X c Resource Platform
  | @step s s' e _ hstep ih =>
    cases e with
    | generatorTick =>
      simp only [Session.step] at hstep
      split at hstep
      · cases hstep
      · rename_i g c htick
        injection hstep with hstep
        subst hstep
        exact Tick_Inv X s g c ih htick
    | scheduler e =>
      simp only [Session.step] at hstep
      split at hstep
      · cases hstep
      · rename_i c hc
        injection hstep with hstep
        subst hstep
        obtain ⟨h1, h2, h3, h4, h5, h6, h7⟩ := ih
        have hm := step_mono X s.compiler c e hc
        refine ⟨h1, h2, h3, ?_, h5, ?_, h7⟩
        · intro handle hh
          exact Nat.lt_of_lt_of_le (h4 handle hh) hm.1
        · intro hP hflag
          obtain ⟨handle, hh, hfin⟩ := h6 hP hflag
          exact ⟨handle, hh, hm.2 handle hfin⟩
    | crossCompiled m errors =>
      simp only [Session.step] at hstep
      injection hstep with hstep
      subst hstep
      exact ih
    | getReport =>
      simp only [Session.step] at hstep
      split at hstep
      · cases hstep
      · rename_i report g hget
        injection hstep with hstep
        subst hstep
        obtain ⟨h1, h2, h3, h4, h5, h6, h7⟩ := ih
        rcases GetReport_cases X s.gen g s.compiler report hget with
          ⟨hP, ⟨_, hg⟩ | ⟨_, hg, hrep⟩⟩
        · subst hg; exact ⟨h1, h2, h3, h4, h5, h6, h7⟩
        · subst hg
          refine ⟨h1, h2, ?_, h4, h5, h6, ?_⟩
          · intro hcon; exact absurd hP hcon
          · intro r hr hflag
            dsimp only at hr
            injection hr with hr
            subst hr
            exact ⟨_, hrep hflag⟩

theorem Reachable_scheduler (X : Externals F) (s : Session F) (h : Session.Reachable X s) :
    FAsyncCompiler.Reachable X s.compiler := by
  induction h with
  | init c Resource Platform hc => exact hc
  | @step s s' e _ hstep ih =>
    cases e with
    | generatorTick =>
      simp only [Session.step] at hstep
      split at hstep
      · cases hstep
      · rename_i g c htick
        injection hstep with hstep
        subst hstep
        rcases Tick_cases X s.gen g s.compiler c htick with
          ⟨_, _, hc⟩ | ⟨_, _, _, hc⟩ | ⟨_, _, _, _, _, hc⟩ | ⟨_, _, _, _, _, hc⟩ |
          ⟨_, _, _, m, _, _, hc⟩ | ⟨_, hc, _⟩
        · rw [hc]; exact ih
        · rw [hc]; exact ih
        · rw [hc]; exact ih
        · rw [hc]; exact ih
        · rw [hc]
          exact FAsyncCompiler.Reachable.step (SchedulerEvent.addJob m s.gen.Platform) ih rfl
        · rw [hc]; exact ih
    | scheduler e =>
      simp only [Session.step] at hstep
      split at hstep
      · cases hstep
      · rename_i c hc
        injection hstep with hstep
        subst hstep
        exact FAsyncCompiler.Reachable.step e ih hc
    | crossCompiled m errors =>
      simp only [Session.step] at hstep
      injection hstep with hstep
      subst hstep
      exact ih
    | getReport =>
      simp only [Session.step] at hstep
      split at hstep
      · cases hstep
      · injection hstep with hstep
        subst hstep
        exact ih

theorem Session_run_reachable (X : Externals F) (events : List SessionEvent) :
    ∀ (s s' : Session F), Session.Reachable X s → s.run X events = .ok s' →
      Session.Reachable X s' := by
  induction events with
  | nil =>
    intro s s' hs h
    simp only [Session.run] at h
    injection h with h
    subst h
    exact hs
  | cons e rest ih =>
    intro s s' hs h
    simp only [Session.run] at h
    split at h
    · cases h
    · rename_i s1 h1
      exact ih s1 s' (Session.Reachable.step e hs h1) h

end SessionLemmas

end MaliOC

namespace MaliOC

section SessionClaims

variable {F : Type}

theorem demoSession_reachable : Session.Reachable demoExternals demoSession :=
  Session.Reachable.init {} demoResource demoTarget FAsyncCompiler.Reachable.init

theorem demoCrossFailed_reachable : Session.Reachable demoExternals demoCrossFailed :=
  Session.Reachable.step (SessionEvent.crossCompiled none []) demoSession_reachable rfl

theorem demoFlagged_reachable : Session.Reachable demoExternals demoFlagged :=
  Session_run_reachable demoExternals
    [SessionEvent.crossCompiled none ["error X3004"], SessionEvent.generatorTick]
    demoSession demoFlagged demoSession_reachable rfl

/-- `FinishReportGeneration` called in state CrossCompiling fails its first assertion
whenever the blocking finish leaves the resource without a shader map: `Tick` then either
retries and stays in CrossCompiling, or sets the error flag and moves to Complete. -/
theorem FinishReportGeneration_without_shader_map (X : Externals F) (g : FAsyncReportGenerator)
    (c : FAsyncCompiler F) (outcome : Option (List FShader) × List String)
    (sleeps : List (List Nat))
    (hP : g.Progress = EProgress.CROSS_COMPILATION_IN_PROGRESS)
    (hmap : (g.Resource.FinishCompilation outcome).GameThreadShaderMap = none) :
    g.FinishReportGeneration X outcome sleeps c =
      .error Failure.checkProgressIsMaliocInProgress := by
  have hfin : (g.Resource.FinishCompilation outcome).bCompilationFinished = true := by
    unfold FMaterialResource.FinishCompilation
    cases hf : g.Resource.bCompilationFinished <;> simp [hf]
  unfold FAsyncReportGenerator.FinishReportGeneration
  rw [if_neg (by rw [hP]; decide)]
  dsimp only
  rw [if_pos hP]
  unfold FAsyncReportGenerator.Tick
  dsimp only
  rw [if_neg (by rw [hP]; decide), if_pos hP, hfin, if_neg (by decide), hmap]
  dsimp only
  by_cases hretry : (g.Resource.FinishCompilation outcome).CompileErrors.length = 0 ∧
      g.NumAttempts = 0
  · rw [if_pos hretry]
    dsimp only
    rw [if_neg (by rw [hP]; decide)]
  · rw [if_neg hretry]
    dsimp only
    rw [if_neg (by decide)]

/-- The outcome of `FinishReportGeneration` once a job is under way: it is the outcome of
the scheduler's `FinishCompilation`, and when that returns the session is in Complete. -/
theorem FinishReportGeneration_backend (X : Externals F) (g : FAsyncReportGenerator)
    (c : FAsyncCompiler F) (outcome : Option (List FShader) × List String)
    (sleeps : List (List Nat)) (hinv : ∃ k, c.InvAt k)
    (hP : g.Progress = EProgress.MALIOC_COMPILATION_IN_PROGRESS) (handle : Nat)
    (hh : g.JobHandle = some handle) (hlt : handle < c.handles.length) :
    g.FinishReportGeneration X outcome sleeps c =
      match c.FinishCompilation X sleeps with
      | .error e => .error e
      | .ok none => .ok none
      | .ok (some c2) =>
        .ok (some ({ g with Progress := EProgress.COMPILATION_COMPLETE }, c2)) := by
  unfold FAsyncReportGenerator.FinishReportGeneration
  rw [if_neg (by rw [hP]; decide)]
  dsimp only
  rw [if_neg (by rw [hP]; decide)]
  dsimp only
  rw [if_pos hP]
  cases hfc : c.FinishCompilation X sleeps with
  | error e => rfl
  | ok r =>
    cases r with
    | none => rfl
    | some c2 =>
      dsimp only
      obtain ⟨_, _, hlen, hall⟩ := FinishCompilation_result X c c2 sleeps hinv hfc
      have hfin := (hall handle hlt).2
      have hget : c2.handles[handle]? = some (c2.handles.get ⟨handle, by omega⟩) :=
        List.getElem?_eq_getElem (by omega)
      have hcomp : (c2.handles.get ⟨handle, by omega⟩).bIsCompilationComplete = true := by
        simpa [FAsyncCompiler.finished, hget] using hfin
      have htick : FAsyncReportGenerator.Tick X g c2 =
          .ok ({ g with Progress := EProgress.COMPILATION_COMPLETE }, c2) := by
        unfold FAsyncReportGenerator.Tick
        rw [if_neg (by rw [hP]; decide), if_neg (by rw [hP]; decide)]
        unfold FAsyncReportGenerator.tickBackend FAsyncCompiler.deref
        rw [if_pos hP, hh]
        dsimp only
        rw [hget]
        dsimp only
        rw [if_neg (by rw [hcomp]; decide)]
      rw [htick]
      rfl

/-- The outcome of `FinishReportGeneration` in state CrossCompiling when the blocking
finish leaves a shader map: the job is added, and the rest is the outcome of the
scheduler's `FinishCompilation`. -/
theorem FinishReportGeneration_cross (X : Externals F) (g : FAsyncReportGenerator)
    (c : FAsyncCompiler F) (outcome : Option (List FShader) × List String)
    (sleeps : List (List Nat)) (hinv : ∃ k, c.InvAt k)
    (hP : g.Progress = EProgress.CROSS_COMPILATION_IN_PROGRESS) (hjh : g.JobHandle = none)
    (ShaderMap : List FShader)
    (hmap : (g.Resource.FinishCompilation outcome).GameThreadShaderMap = some ShaderMap) :
    g.FinishReportGeneration X outcome sleeps c =
      match (c.AddJob ShaderMap g.Platform).2.FinishCompilation X sleeps with
      | .error e => .error e
      | .ok none => .ok none
      | .ok (some c2) =>
        .ok (some ({ g with Resource := g.Resource.FinishCompilation outcome,
                            JobHandle := some c.handles.length,
                            Progress := EProgress.COMPILATION_COMPLETE }, c2)) := by
  have hfin : (g.Resource.FinishCompilation outcome).bCompilationFinished = true := by
    unfold FMaterialResource.FinishCompilation
    cases hf : g.Resource.bCompilationFinished <;> simp [hf]
  have htick : FAsyncReportGenerator.Tick X
      { g with Resource := g.Resource.FinishCompilation outcome } c =
      .ok ({ g with Resource := g.Resource.FinishCompilation outcome,
                    JobHandle := some c.handles.length,
                    Progress := EProgress.MALIOC_COMPILATION_IN_PROGRESS },
           (c.AddJob ShaderMap g.Platform).2) := by
    unfold FAsyncReportGenerator.Tick
    dsimp only
    rw [if_neg (by rw [hP]; decide), if_pos hP, hfin, if_neg (by decide), hmap]
    dsimp only
    rw [hjh]
    simp only [Option.isSome_none, Bool.false_eq_true, if_false]
    unfold FAsyncReportGenerator.tickBackend FAsyncCompiler.deref
    dsimp only
    rw [if_pos rfl, AddJob_new_handle]
    rfl
  have hinv' : ∃ k, (c.AddJob ShaderMap g.Platform).2.InvAt k := by
    obtain ⟨k, hk⟩ := hinv
    exact ⟨k, InvAt_addJob c k ShaderMap g.Platform hk⟩
  have hb := FinishReportGeneration_backend X
    { g with Resource := g.Resource.FinishCompilation outcome,
             JobHandle := some c.handles.length,
             Progress := EProgress.MALIOC_COMPILATION_IN_PROGRESS }
    (c.AddJob ShaderMap g.Platform).2 outcome sleeps hinv' rfl c.handles.length rfl
    (by simp [FAsyncCompiler.AddJob])
  refine Eq.trans ?_ hb
  rw [hP] at htick
  simp [FAsyncReportGenerator.FinishReportGeneration, hP, htick]

/-- Apart from the missing shader map, `FinishReportGeneration` behaves as intended: in a
reachable session, if the blocking finish of a session in CrossCompiling leaves a shader
map, the call fails only where the scheduler's `FinishCompilation` fails, waits only where
that waits, and otherwise returns with `Progress = COMPILATION_COMPLETE`. -/
theorem FinishReportGeneration_completes (X : Externals F) (s : Session F)
    (h : Session.Reachable X s) (outcome : Option (List FShader) × List String)
    (sleeps : List (List Nat))
    (hmap : s.gen.Progress = EProgress.CROSS_COMPILATION_IN_PROGRESS →
      (s.gen.Resource.FinishCompilation outcome).GameThreadShaderMap ≠ none) :
    s.gen.FinishReportGeneration X outcome sleeps s.compiler = .ok (some (s.gen, s.compiler)) ∨
    ∃ c1 g', g'.Progress = EProgress.COMPILATION_COMPLETE ∧
      s.gen.FinishReportGeneration X outcome sleeps s.compiler =
        match FAsyncCompiler.FinishCompilation X sleeps c1 with
        | .error e => .error e
        | .ok none => .ok none
        | .ok (some c2) => .ok (some (g', c2)) := by
  obtain ⟨_, h2, _, h4, h5, _, _⟩ := Reachable_Inv X s h
  have hinv := Reachable_InvAt X s.compiler (Reachable_scheduler X s h)
  cases hP : s.gen.Progress with
  | COMPILATION_COMPLETE =>
    left
    unfold FAsyncReportGenerator.FinishReportGeneration
    rw [if_pos hP]
  | MALIOC_COMPILATION_IN_PROGRESS =>
    right
    cases hjh : s.gen.JobHandle with
    | none =>
      have := (h5 hP).2
      rw [hjh] at this
      cases this
    | some handle =>
      exact ⟨s.compiler, _, rfl,
        FinishReportGeneration_backend X s.gen s.compiler outcome sleeps hinv hP handle hjh
          (h4 handle hjh)⟩
  | CROSS_COMPILATION_IN_PROGRESS =>
    right
    cases hm : (s.gen.Resource.FinishCompilation outcome).GameThreadShaderMap with
    | none => exact absurd hm (hmap hP)
    | some ShaderMap =>
      exact ⟨_, _, rfl,
        FinishReportGeneration_cross X s.gen s.compiler outcome sleeps hinv hP (h2 hP).2
          ShaderMap hm⟩

/-- C1 (the code fails the claim). A newly constructed session is in CrossCompiling; when
its cross-compilation ends without a shader map, with an error or with none,
`FinishReportGeneration` does not return: the assertion
`check(Progress == EProgress::MALIOC_COMPILATION_IN_PROGRESS)` fails. -/
theorem FinishReportGeneration_fails_check :
    Session.Reachable demoExternals demoSession ∧
    demoSession.gen.Progress = EProgress.CROSS_COMPILATION_IN_PROGRESS ∧
    demoSession.gen.FinishReportGeneration demoExternals (none, ["error X3004"]) []
      demoSession.compiler = .error Failure.checkProgressIsMaliocInProgress ∧
    demoSession.gen.FinishReportGeneration demoExternals (none, []) []
      demoSession.compiler = .error Failure.checkProgressIsMaliocInProgress :=
  ⟨demoSession_reachable, rfl, rfl, rfl⟩

/-- C2. In a reachable session in state CrossCompiling whose cross-compiler has finished
without a shader map, `Tick` returns and leaves the scheduler alone; if no compile errors
were reported and no retry was made before, it requests cross-compilation once more, counts
the retry, stays in CrossCompiling and leaves the error flag unset; otherwise it makes no
request, sets the error flag and moves to Complete. In every reachable session at most one
retry has been made, every request but the constructor's is a retry, and the error flag is
unset as long as the session is in CrossCompiling. -/
theorem Tick_retries_once (X : Externals F) (s : Session F) (h : Session.Reachable X s) :
    (s.gen.NumAttempts ≤ 1 ∧ s.gen.NumCacheShadersCalls = s.gen.NumAttempts + 1) ∧
    (s.gen.Progress = EProgress.CROSS_COMPILATION_IN_PROGRESS →
      s.gen.bWasCompilationError = false) ∧
    (s.gen.Progress = EProgress.CROSS_COMPILATION_IN_PROGRESS →
      s.gen.Resource.bCompilationFinished = true →
      s.gen.Resource.GameThreadShaderMap = none →
      ∃ g', s.gen.Tick X s.compiler = .ok (g', s.compiler) ∧
        ((s.gen.Resource.CompileErrors = [] ∧ s.gen.NumAttempts = 0) →
          g'.Progress = EProgress.CROSS_COMPILATION_IN_PROGRESS ∧
          g'.bWasCompilationError = false ∧ g'.NumAttempts = 1 ∧
          g'.NumCacheShadersCalls = s.gen.NumCacheShadersCalls + 1 ∧
          g'.Resource = (X.CacheShaders s.gen.Resource).2) ∧
        (¬ (s.gen.Resource.CompileErrors = [] ∧ s.gen.NumAttempts = 0) →
          g'.Progress = EProgress.COMPILATION_COMPLETE ∧
          g'.bWasCompilationError = true ∧ g'.NumAttempts = s.gen.NumAttempts ∧
          g'.NumCacheShadersCalls = s.gen.NumCacheShadersCalls ∧
          g'.Resource = s.gen.Resource)) := by
  obtain ⟨h1, h2, _⟩ := Reachable_Inv X s h
  refine ⟨h1, fun hP => (h2 hP).1, ?_⟩
  intro hP hfin hmap
  unfold FAsyncReportGenerator.Tick
  rw [if_neg (by rw [hP]; decide), if_pos hP, hfin, if_neg (by decide), hmap]
  dsimp only
  by_cases hretry : s.gen.Resource.CompileErrors.length = 0 ∧ s.gen.NumAttempts = 0
  · rw [if_pos hretry]
    refine ⟨_, rfl, ?_, ?_⟩
    · intro _
      refine ⟨hP, (h2 hP).1, ?_, rfl, rfl⟩
      dsimp only
      omega
    · intro hcon
      exact absurd ⟨List.length_eq_zero.mp hretry.1, hretry.2⟩ hcon
  · rw [if_neg hretry]
    refine ⟨_, rfl, ?_, ?_⟩
    · intro hcon
      exact absurd ⟨List.length_eq_zero.mpr hcon.1, hcon.2⟩ hretry
    · intro _
      exact ⟨rfl, rfl, rfl, rfl, rfl⟩

theorem Tick_retries_once_witness :
    Session.Reachable demoExternals demoCrossFailed ∧
    demoCrossFailed.gen.Progress = EProgress.CROSS_COMPILATION_IN_PROGRESS ∧
    demoCrossFailed.gen.Resource.bCompilationFinished = true ∧
    demoCrossFailed.gen.Resource.GameThreadShaderMap = none ∧
    demoCrossFailed.gen.Resource.CompileErrors = [] ∧ demoCrossFailed.gen.NumAttempts = 0 ∧
    ∃ g', demoCrossFailed.gen.Tick demoExternals demoCrossFailed.compiler =
        .ok (g', demoCrossFailed.compiler) ∧
      g'.Progress = EProgress.CROSS_COMPILATION_IN_PROGRESS ∧
      g'.bWasCompilationError = false ∧ g'.NumAttempts = 1 := by
  obtain ⟨g', hg, hretry, _⟩ :=
    (Tick_retries_once demoExternals demoCrossFailed demoCrossFailed_reachable).2.2 rfl rfl rfl
  obtain ⟨h1, h2, h3, _⟩ := hretry ⟨rfl, rfl⟩
  exact ⟨demoCrossFailed_reachable, rfl, rfl, rfl, rfl, rfl, g', hg, h1, h2, h3⟩

/-- C3. A `Tick` that returns never moves `Progress` to an earlier state of the order
CrossCompiling, BackendCompiling, Complete; and in state Complete both `Tick` and
`FinishReportGeneration` return and leave the whole session (so `Progress`, the error
flag, the retry count and the job handle) and the scheduler unchanged. -/
theorem Progress_only_moves_forward (X : Externals F) (g : FAsyncReportGenerator)
    (c : FAsyncCompiler F) :
    (∀ g' c', g.Tick X c = .ok (g', c') → g.Progress.rank ≤ g'.Progress.rank) ∧
    (g.Progress = EProgress.COMPILATION_COMPLETE →
      g.Tick X c = .ok (g, c) ∧
      ∀ outcome sleeps, g.FinishReportGeneration X outcome sleeps c = .ok (some (g, c))) := by
  constructor
  · intro g' c' h
    rcases Tick_cases X g g' c c' h with
      ⟨_, hg, _⟩ | ⟨_, _, hg, _⟩ | ⟨hP, _, _, _, hg, _⟩ | ⟨hP, _, _, _, hg, _⟩ |
      ⟨hP, _, _, m, _, hg, _⟩ | ⟨hP, _, handle, job, _, _, hcase⟩
    · rw [hg]
    · rw [hg]
    · rw [hg]
    · rw [hg, hP]; simp [EProgress.rank]
    · rw [hg, hP]; simp [EProgress.rank]
    · rcases hcase with ⟨_, hg⟩ | ⟨_, hg⟩
      · rw [hg]
      · rw [hg, hP]; simp [EProgress.rank]
  · intro hP
    constructor
    · unfold FAsyncReportGenerator.Tick
      rw [if_pos hP]
    · intro outcome sleeps
      unfold FAsyncReportGenerator.FinishReportGeneration
      rw [if_pos hP]

theorem Progress_only_moves_forward_witness :
    demoFlagged.gen.Progress = EProgress.COMPILATION_COMPLETE ∧
    demoFlagged.gen.Tick demoExternals demoFlagged.compiler =
      .ok (demoFlagged.gen, demoFlagged.compiler) ∧
    demoFlagged.gen.FinishReportGeneration demoExternals (none, []) [] demoFlagged.compiler =
      .ok (some (demoFlagged.gen, demoFlagged.compiler)) :=
  ⟨rfl,
    ((Progress_only_moves_forward demoExternals demoFlagged.gen demoFlagged.compiler).2 rfl).1,
    ((Progress_only_moves_forward demoExternals demoFlagged.gen demoFlagged.compiler).2 rfl).2
      (none, []) []⟩

theorem deref_error (c : FAsyncCompiler F) (JobHandle : Option Nat) (e : Failure)
    (h : c.deref JobHandle = .error e) : e = Failure.nullDereference := by
  unfold FAsyncCompiler.deref at h
  split at h
  · injection h with h; exact h.symm
  · split at h
    · cases h
    · injection h with h; exact h.symm

theorem GetRawCompilerOutput_error (job : FCompileJobHandle F) (e : Failure)
    (h : job.GetRawCompilerOutput = .error e) : e = Failure.checkIsCompilationFinished := by
  unfold FCompileJobHandle.GetRawCompilerOutput at h
  split at h
  · cases h
  · injection h with h; exact h.symm

/-- C4. The entry assertion of `GetReport` fails exactly when `Progress` is not
`COMPILATION_COMPLETE`, and in that case the call returns no report. -/
theorem GetReport_entry_assertion (X : Externals F) (g : FAsyncReportGenerator)
    (c : FAsyncCompiler F) :
    (g.GetReport X c = .error Failure.checkProgressIsCompleteAtGetReport ↔
      g.Progress ≠ EProgress.COMPILATION_COMPLETE) ∧
    (g.Progress ≠ EProgress.COMPILATION_COMPLETE → ∀ r, g.GetReport X c ≠ .ok r) := by
  have hfail : g.Progress ≠ EProgress.COMPILATION_COMPLETE →
      g.GetReport X c = .error Failure.checkProgressIsCompleteAtGetReport := by
    intro hP
    unfold FAsyncReportGenerator.GetReport
    rw [if_pos hP]
  refine ⟨⟨?_, hfail⟩, ?_⟩
  · intro h hP
    unfold FAsyncReportGenerator.GetReport at h
    rw [if_neg (by simp [hP])] at h
    split at h
    · cases h
    · split at h
      · cases h
      · split at h
        · cases h
        · split at h
          · rename_i e hderef
            have := deref_error c g.JobHandle e hderef
            injection h with h
            rw [this] at h
            cases h
          · rename_i job hjob
            split at h
            · rename_i e hraw
              have := GetRawCompilerOutput_error job e hraw
              injection h with h
              rw [this] at h
              cases h
            · cases h
  · intro hP r hr
    rw [hfail hP] at hr
    cases hr

theorem GetReport_entry_assertion_witness :
    demoSession.gen.Progress ≠ EProgress.COMPILATION_COMPLETE ∧
    demoSession.gen.GetReport demoExternals demoSession.compiler =
      .error Failure.checkProgressIsCompleteAtGetReport :=
  ⟨by decide,
    (GetReport_entry_assertion demoExternals demoSession.gen demoSession.compiler).1.mpr
      (by decide)⟩

/-- C5 (the claim fails). In a newly constructed session, which is in CrossCompiling,
`GetMaliOCCompilationProgress` returns the value `{0, 0}`; no assertion fails. -/
theorem GetMaliOCCompilationProgress_returns_in_CrossCompiling :
    demoSession.gen.Progress = EProgress.CROSS_COMPILATION_IN_PROGRESS ∧
    demoSession.gen.Progress ≠ EProgress.MALIOC_COMPILATION_IN_PROGRESS ∧
    demoSession.gen.GetMaliOCCompilationProgress demoSession.compiler =
      .ok { NumCompiledShaders := 0, NumTotalShaders := 0 } :=
  ⟨rfl, by decide, rfl⟩

/-- C5 (amended). In every reachable session `GetMaliOCCompilationProgress` returns a
value and no assertion fails: the value is `{0, 0}` when the session has no job handle, as
in CrossCompiling, and otherwise holds the compiled and total counts of the session's
job. -/
theorem GetMaliOCCompilationProgress_total (X : Externals F) (s : Session F)
    (h : Session.Reachable X s) :
    ∃ v, s.gen.GetMaliOCCompilationProgress s.compiler = .ok v ∧
      (s.gen.JobHandle = none → v = { NumCompiledShaders := 0, NumTotalShaders := 0 }) ∧
      (s.gen.Progress = EProgress.CROSS_COMPILATION_IN_PROGRESS →
        v = { NumCompiledShaders := 0, NumTotalShaders := 0 }) ∧
      (∀ handle, s.gen.JobHandle = some handle →
        ∃ job, s.compiler.handles[handle]? = some job ∧
          v = { NumCompiledShaders := job.NumCompiledShaders,
                NumTotalShaders := job.TotalNumShaders }) := by
  obtain ⟨_, h2, _, h4, _⟩ := Reachable_Inv X s h
  unfold FAsyncReportGenerator.GetMaliOCCompilationProgress
  cases hj : s.gen.JobHandle with
  | none =>
    refine ⟨{}, by simp, fun _ => rfl, fun _ => rfl, ?_⟩
    intro handle hcon
    cases hcon
  | some handle =>
    have hlt := h4 handle hj
    have hget : s.compiler.handles[handle]? = some (s.compiler.handles[handle]) :=
      List.getElem?_eq_getElem hlt
    refine ⟨{ NumCompiledShaders := (s.compiler.handles[handle]).NumCompiledShaders,
              NumTotalShaders := (s.compiler.handles[handle]).TotalNumShaders }, ?_, ?_, ?_, ?_⟩
    · simp [FAsyncCompiler.deref, hget]
    · intro hcon; cases hcon
    · intro hP
      have := (h2 hP).2
      rw [hj] at this
      cases this
    · intro handle' hh
      injection hh with hh
      subst hh
      exact ⟨_, hget, rfl⟩

theorem GetMaliOCCompilationProgress_total_witness :
    Session.Reachable demoExternals demoSession ∧
    ∃ v, demoSession.gen.GetMaliOCCompilationProgress demoSession.compiler = .ok v ∧
      (demoSession.gen.JobHandle = none →
        v = { NumCompiledShaders := 0, NumTotalShaders := 0 }) := by
  obtain ⟨v, hv, h0, _⟩ :=
    GetMaliOCCompilationProgress_total demoExternals demoSession demoSession_reachable
  exact ⟨demoSession_reachable, v, hv, h0⟩

/-- C6. In every reachable session whose error flag is set, `GetReport` returns a report
with exactly one error group and no Midgard or Utgard group (and no summary). The group's
error list is the list of compile errors captured when the report was built, unchanged and
in order, or the one message "An unknown error occurred. Try again." when that list is
empty; when no report is cached yet, the captured errors are those the resource holds. -/
theorem GetReport_error_report (X : Externals F) (s : Session F) (h : Session.Reachable X s)
    (hflag : s.gen.bWasCompilationError = true) :
    ∃ report g' errors, s.gen.GetReport X s.compiler = .ok (report, g') ∧
      (s.gen.CachedReport = none → errors = s.gen.Resource.CompileErrors) ∧
      report.ErrorList =
        [{ TitleName := "Cross Compilation Errors",
           Errors := if errors = [] then ["An unknown error occurred. Try again."]
                     else errors }] ∧
      report.MidgardReports = [] ∧ report.UtgardReports = [] ∧
      report.MidgardSummaryReports = [] ∧ report.UtgardSummaryReports = [] := by
  obtain ⟨_, h2, _, _, h5, _, h7⟩ := Reachable_Inv X s h
  have hP : s.gen.Progress = EProgress.COMPILATION_COMPLETE := by
    cases hp : s.gen.Progress with
    | COMPILATION_COMPLETE => rfl
    | CROSS_COMPILATION_IN_PROGRESS =>
      have := (h2 hp).1
      rw [hflag] at this
      cases this
    | MALIOC_COMPILATION_IN_PROGRESS =>
      have := (h5 hp).1
      rw [hflag] at this
      cases this
  have hshape : ∀ errors : List String,
      (crossCompilationErrorReport errors).ErrorList =
        [{ TitleName := "Cross Compilation Errors",
           Errors := if errors = [] then ["An unknown error occurred. Try again."]
                     else errors }] := by
    intro errors
    cases errors <;> simp [crossCompilationErrorReport]
  unfold FAsyncReportGenerator.GetReport
  rw [if_neg (by simp [hP])]
  cases hc : s.gen.CachedReport with
  | some r =>
    obtain ⟨errors, hr⟩ := h7 r hc hflag
    refine ⟨r, s.gen, errors, rfl, ?_, ?_, ?_, ?_, ?_, ?_⟩
    · intro hcon; cases hcon
    · rw [hr]; exact hshape errors
    all_goals rw [hr]; rfl
  | none =>
    dsimp only
    rw [hflag, if_pos rfl]
    exact ⟨_, _, s.gen.Resource.CompileErrors, rfl, fun _ => rfl,
      hshape _, rfl, rfl, rfl, rfl⟩

theorem GetReport_error_report_witness :
    Session.Reachable demoExternals demoFlagged ∧
    demoFlagged.gen.bWasCompilationError = true ∧
    ∃ report g', demoFlagged.gen.GetReport demoExternals demoFlagged.compiler =
        .ok (report, g') ∧
      report.ErrorList =
        [{ TitleName := "Cross Compilation Errors", Errors := ["error X3004"] }] ∧
      report.MidgardReports = [] ∧ report.UtgardReports = [] := by
  obtain ⟨report, g', errors, hget, herr, hlist, hm, hu, _⟩ :=
    GetReport_error_report demoExternals demoFlagged demoFlagged_reachable rfl
  have he : errors = ["error X3004"] := herr rfl
  subst he
  exact ⟨demoFlagged_reachable, rfl, report, g', hget, by simpa using hlist, hm, hu⟩

end SessionClaims

end MaliOC

namespace MaliOC

/-! ## Per-shader results: backend errors and invalid stages -/

section OutputLemmas

variable {F : Type}

theorem RunLoop_append (X : Externals F) (Platform : FJobTarget) (before rest : List FShader) :
    ∀ (state : FMaliOCRawCompilerOutput F × Nat),
      RunLoop X Platform (before ++ rest) state =
        match RunLoop X Platform before state with
        | .error e => .error e
        | .ok state' => RunLoop X Platform rest state' := by
  induction before with
  | nil => intro state; rfl
  | cons shader before ih =>
    intro state
    obtain ⟨Raw, n⟩ := state
    simp only [List.cons_append, RunLoop]
    cases RunShader X Platform shader Raw with
    | error e => rfl
    | ok Raw' => exact ih _

theorem mem_insertionSort_map {α β : Type} (r : β → β → Prop) [DecidableRel r] (f : α → β)
    (l : List α) (a : α) (h : a ∈ l) : f a ∈ (l.map f).insertionSort r :=
  (List.perm_insertionSort r (l.map f)).mem_iff.mpr (List.mem_map_of_mem f h)

end OutputLemmas

section OutputClaims

variable {F : Type}

/-- C11. When the backend ran and reports at least one compiler error, then for every
shader that passes the head of `AppendNewRawCompilerOutput` and whatever the flexible
outputs are, the call returns the raw output with exactly one entry added to the error
list and the Midgard and Utgard lists unchanged; the entry holds the backend's error
messages and warnings as they are, in order, and the error report `GetReport` builds from
it holds the same messages and is part of the report's error list. -/
theorem AppendNewRawCompilerOutput_backend_errors (X : Externals F) (outputs : malioc_outputs)
    (GLSL : String) (Shader : FShader) (Raw : FMaliOCRawCompilerOutput F)
    (commonOutput : FCommonOutput)
    (hhead : commonOutputOf GLSL Shader = .ok commonOutput)
    (herrors : 1 ≤ outputs.errors.length) :
    ∃ (entry : FErrorOutput) (Raw' : FMaliOCRawCompilerOutput F),
      AppendNewRawCompilerOutput X true outputs GLSL Shader Raw = .ok Raw' ∧
      Raw'.ErrorOutput = Raw.ErrorOutput ++ [entry] ∧
      Raw'.MidgardOutput = Raw.MidgardOutput ∧
      Raw'.UtgardOutput = Raw.UtgardOutput ∧
      entry.Errors = outputs.errors ∧
      entry.CommonOutput.Warnings = outputs.warnings ∧
      entry.CommonOutput.ShaderName = Shader.TypeName ∧
      (errorReportOf entry).Errors = outputs.errors ∧
      (errorReportOf entry).Warnings = outputs.warnings ∧
      ∀ (descriptions : List (String × String)) (rawReport : FMaliOCRawCompilerOutput F),
        entry ∈ rawReport.ErrorOutput →
          errorReportOf entry ∈ (compilationReport X descriptions rawReport).ErrorList := by
  have hne : outputs.errors.length ≠ 0 := by omega
  have hname : commonOutput.ShaderName = Shader.TypeName := by
    unfold commonOutputOf at hhead
    dsimp only at hhead
    split at hhead
    · cases hhead
    · injection hhead with hhead
      rw [← hhead]
  refine ⟨{ CommonOutput := { commonOutput with Warnings := outputs.warnings },
            Errors := outputs.errors },
          { Raw with ErrorOutput := Raw.ErrorOutput ++
              [{ CommonOutput := { commonOutput with Warnings := outputs.warnings },
                 Errors := outputs.errors }] }, ?_, rfl, rfl, rfl, rfl, rfl, hname, rfl, rfl, ?_⟩
  · unfold AppendNewRawCompilerOutput
    rw [hhead]
    have hentry : entryOfOutputs X true outputs commonOutput =
        .ok (errorEntry { commonOutput with Warnings := outputs.warnings } outputs.errors) := by
      unfold entryOfOutputs
      rw [if_neg (by decide)]
      dsimp only
      rw [if_pos hne]
    dsimp only
    rw [hentry]
    rfl
  · intro descriptions rawReport hmem
    exact mem_insertionSort_map _ errorReportOf _ _ hmem

theorem AppendNewRawCompilerOutput_backend_errors_witness :
    ∃ (entry : FErrorOutput) (Raw' : FMaliOCRawCompilerOutput Int),
      AppendNewRawCompilerOutput demoExternals true demoErrorOutputs "void main() {}" demoShader
        {} = .ok Raw' ∧
      Raw'.ErrorOutput = [] ++ [entry] ∧
      Raw'.MidgardOutput = [] ∧
      Raw'.UtgardOutput = [] ∧
      entry.Errors = ["undeclared identifier"] ∧
      entry.CommonOutput.Warnings = ["unused variable"] ∧
      entry.CommonOutput.ShaderName = "TBasePassPS" ∧
      (errorReportOf entry).Errors = ["undeclared identifier"] ∧
      (errorReportOf entry).Warnings = ["unused variable"] ∧
      ∀ (descriptions : List (String × String)) (rawReport : FMaliOCRawCompilerOutput Int),
        entry ∈ rawReport.ErrorOutput →
          errorReportOf entry ∈
            (compilationReport demoExternals descriptions rawReport).ErrorList :=
  AppendNewRawCompilerOutput_backend_errors demoExternals demoErrorOutputs "void main() {}"
    demoShader {} demoCommonOutput rfl (by decide)

/-- C14. For a shader whose stage is neither pixel nor vertex, one pass of the loop of
`Run` adds exactly one error entry with the shader's name and stage and the two messages of
the invalid stage, whatever the externals are (so the backend's compile entry point has no
part in it); in a job's shader list the loop reaches the shader with the output and count
the shaders before it left, adds that entry, counts the shader and goes on with the
shaders after it. -/
theorem Run_invalid_stage (X : Externals F) (Platform : FJobTarget) (shader : FShader)
    (before rest : List FShader) (Raw Raw' : FMaliOCRawCompilerOutput F) (n n' : Nat)
    (hP : shader.Frequency ≠ EShaderFrequency.SF_Pixel)
    (hV : shader.Frequency ≠ EShaderFrequency.SF_Vertex)
    (hbefore : RunLoop X Platform before (Raw, n) = .ok (Raw', n')) :
    let entry : FErrorOutput :=
      { CommonOutput := { ShaderName := shader.TypeName, Frequency := shader.Frequency },
        Errors := ["Cross compiler produced invalid output",
                   "The shader type is neither fragment nor vertex"] }
    (∀ (X' : Externals F) (Platform' : FJobTarget),
      RunShader X' Platform' shader Raw' =
        .ok { Raw' with ErrorOutput := Raw'.ErrorOutput ++ [entry] }) ∧
    RunLoop X Platform (before ++ shader :: rest) (Raw, n) =
      RunLoop X Platform rest ({ Raw' with ErrorOutput := Raw'.ErrorOutput ++ [entry] }, n' + 1) := by
  intro entry
  have hshader : ∀ (X' : Externals F) (Platform' : FJobTarget),
      RunShader X' Platform' shader Raw' =
        .ok { Raw' with ErrorOutput := Raw'.ErrorOutput ++ [entry] } := by
    intro X' Platform'
    unfold RunShader
    dsimp only
    rw [if_pos ⟨hP, hV⟩]
    rfl
  refine ⟨hshader, ?_⟩
  rw [RunLoop_append, hbefore]
  simp only [RunLoop]
  rw [hshader]

theorem Run_invalid_stage_witness :
    (∀ (X' : Externals Int) (Platform' : FJobTarget),
      RunShader X' Platform' demoComputeShader demoFinishedJob.RawCompilerOutput =
        .ok { demoFinishedJob.RawCompilerOutput with
              ErrorOutput := [] ++
                [{ CommonOutput := { ShaderName := "TComputeCS",
                                     Frequency := EShaderFrequency.SF_Compute },
                   Errors := ["Cross compiler produced invalid output",
                              "The shader type is neither fragment nor vertex"] }] }) ∧
    RunLoop demoExternals demoTarget ([demoShader] ++ demoComputeShader :: [demoShader]) ({}, 0) =
      RunLoop demoExternals demoTarget [demoShader]
        ({ demoFinishedJob.RawCompilerOutput with
           ErrorOutput := [] ++
             [{ CommonOutput := { ShaderName := "TComputeCS",
                                  Frequency := EShaderFrequency.SF_Compute },
                Errors := ["Cross compiler produced invalid output",
                           "The shader type is neither fragment nor vertex"] }] }, 0 + 1 + 1) :=
  Run_invalid_stage demoExternals demoTarget demoComputeShader [demoShader] [demoShader] {}
    demoFinishedJob.RawCompilerOutput 0 (0 + 1) (by decide) (by decide) rfl

end OutputClaims

/-! ## The report: sorted lists and the cache -/

section ReportLemmas

variable {F : Type}

theorem insertionSort_title_sorted {α : Type} (X : Externals F) (title : α → String)
    (htotal : ∀ a b, titleOrder X a b ∨ titleOrder X b a)
    (htrans : ∀ a b c, titleOrder X a b → titleOrder X b c → titleOrder X a c)
    (l : List α) :
    List.Sorted (fun a b => titleOrder X (title a) (title b))
      (l.insertionSort (fun a b => titleOrder X (title a) (title b))) := by
  haveI : IsTotal α (fun a b => titleOrder X (title a) (title b)) :=
    ⟨fun a b => htotal (title a) (title b)⟩
  haveI : IsTrans α (fun a b => titleOrder X (title a) (title b)) :=
    ⟨fun a b c hab hbc => htrans (title a) (title b) (title c) hab hbc⟩
  exact List.sorted_insertionSort _ l

theorem GetReport_builds (X : Externals F) (g g' : FAsyncReportGenerator) (c : FAsyncCompiler F)
    (report : FMaliOCReport) (hcache : g.CachedReport = none)
    (hflag : g.bWasCompilationError = false) (h : g.GetReport X c = .ok (report, g')) :
    ∃ job rawReport, c.deref g.JobHandle = .ok job ∧
      job.GetRawCompilerOutput = .ok rawReport ∧
      report = compilationReport X g.Resource.ShaderTypeNamesAndDescriptions rawReport := by
  unfold FAsyncReportGenerator.GetReport at h
  by_cases hP : g.Progress = EProgress.COMPILATION_COMPLETE
  · rw [if_neg (by simp [hP]), hcache] at h
    dsimp only at h
    rw [hflag, if_neg (by decide)] at h
    by_cases hj : g.JobHandle.isSome = false
    · rw [if_pos hj] at h
      cases h
    · rw [if_neg hj] at h
      cases hd : c.deref g.JobHandle with
      | error e =>
        rw [hd] at h
        cases h
      | ok job =>
        rw [hd] at h
        dsimp only at h
        cases hr : job.GetRawCompilerOutput with
        | error e =>
          rw [hr] at h
          cases h
        | ok rawReport =>
          rw [hr] at h
          dsimp only at h
          injection h with h
          injection h with h1 h2
          exact ⟨job, rawReport, rfl, hr, h1.symm⟩
  · rw [if_pos hP] at h
    cases h

theorem GetReport_of_cached (X : Externals F) (g : FAsyncReportGenerator) (c : FAsyncCompiler F)
    (report : FMaliOCReport) (hP : g.Progress = EProgress.COMPILATION_COMPLETE)
    (hcache : g.CachedReport = some report) : g.GetReport X c = .ok (report, g) := by
  unfold FAsyncReportGenerator.GetReport
  rw [if_neg (by simp [hP]), hcache]

theorem GetReport_returns (X : Externals F) (s : Session F) (hs : Session.Reachable X s)
    (hP : s.gen.Progress = EProgress.COMPILATION_COMPLETE) :
    ∃ report, s.gen.GetReport X s.compiler =
      .ok (report, { s.gen with CachedReport := some report }) := by
  obtain ⟨_, _, _, _, _, hjob, _⟩ := Reachable_Inv X s hs
  cases hcache : s.gen.CachedReport with
  | some report =>
    refine ⟨report, ?_⟩
    rw [GetReport_of_cached X s.gen s.compiler report hP hcache]
    congr 2
    rw [← hcache]
  | none =>
    unfold FAsyncReportGenerator.GetReport
    rw [if_neg (by simp [hP]), hcache]
    dsimp only
    cases hflag : s.gen.bWasCompilationError with
    | true =>
      rw [if_pos rfl]
      exact ⟨_, rfl⟩
    | false =>
      rw [if_neg (by decide)]
      obtain ⟨j, hj, hfin⟩ := hjob hP hflag
      rw [hj]
      rw [if_neg (by simp)]
      unfold FAsyncCompiler.finished at hfin
      cases hget : s.compiler.handles[j]? with
      | none =>
        rw [hget] at hfin
        cases hfin
      | some job =>
        rw [hget] at hfin
        dsimp only at hfin
        have hd : s.compiler.deref (some j) = .ok job := by
          unfold FAsyncCompiler.deref
          dsimp only
          rw [hget]
        rw [hd]
        dsimp only
        have hr : job.GetRawCompilerOutput = .ok job.RawCompilerOutput := by
          unfold FCompileJobHandle.GetRawCompilerOutput
          rw [if_pos hfin]
        rw [hr]
        exact ⟨_, rfl⟩

theorem demoComplete_reachable : Session.Reachable demoExternals demoComplete :=
  Session_run_reachable demoExternals
    [SessionEvent.crossCompiled (some [demoShader]) [], SessionEvent.generatorTick,
      SessionEvent.scheduler SchedulerEvent.tick,
      SessionEvent.scheduler (SchedulerEvent.threadEnds 0), SessionEvent.generatorTick]
    demoSession demoComplete demoSession_reachable rfl

theorem demoExternals_total (a b : String) :
    titleOrder demoExternals a b ∨ titleOrder demoExternals b a := by
  simp only [titleOrder, demoExternals, decide_eq_false_iff_not, not_lt]
  exact le_total a b

theorem demoExternals_trans (a b c : String) (hab : titleOrder demoExternals a b)
    (hbc : titleOrder demoExternals b c) : titleOrder demoExternals a c := by
  simp only [titleOrder, demoExternals, decide_eq_false_iff_not, not_lt] at *
  exact le_trans hab hbc

theorem compilationReport_sorts_sample :
    (compilationReport demoExternals [] demoRawErrors).ErrorList.map
        (fun report => report.TitleName) = ["TBasePassPS", "TDepthOnlyVS"] ∧
    demoRawErrors.ErrorOutput.map (fun entry => entry.CommonOutput.ShaderName) =
      ["TDepthOnlyVS", "TBasePassPS"] := by
  constructor
  · simp only [compilationReport, demoRawErrors, errorReportOf, titleOrder, demoExternals,
      List.map_cons, List.map_nil, List.insertionSort, List.orderedInsert,
      decide_eq_false_iff_not, not_lt, String.le_iff_toList_le]
    rw [if_neg (by decide)]
    rfl
  · rfl

theorem demoMixedComplete_reachable : Session.Reachable demoMixedExternals demoMixedComplete :=
  Session_run_reachable demoMixedExternals
    [SessionEvent.crossCompiled (some demoMixedShaders) [], SessionEvent.generatorTick,
      SessionEvent.scheduler SchedulerEvent.tick,
      SessionEvent.scheduler (SchedulerEvent.threadEnds 0), SessionEvent.generatorTick]
    { gen := FAsyncReportGenerator.create demoMixedExternals demoResource demoTarget,
      compiler := {} }
    demoMixedComplete
    (Session.Reachable.init {} demoResource demoTarget FAsyncCompiler.Reachable.init) rfl

theorem demoMixedExternals_total (a b : String) :
    titleOrder demoMixedExternals a b ∨ titleOrder demoMixedExternals b a := by
  simp only [titleOrder, demoMixedExternals, demoExternals, decide_eq_false_iff_not, not_lt]
  exact le_total a b

theorem demoMixedExternals_trans (a b c : String) (hab : titleOrder demoMixedExternals a b)
    (hbc : titleOrder demoMixedExternals b c) : titleOrder demoMixedExternals a c := by
  simp only [titleOrder, demoMixedExternals, demoExternals, decide_eq_false_iff_not, not_lt] at *
  exact le_trans hab hbc

theorem demoMixed_titles :
    (demoMixedReport.ErrorList.map (fun report => report.TitleName) = ["TClearCS", "TShadowCS"] ∧
      demoMixedRaw.ErrorOutput.map (fun entry => entry.CommonOutput.ShaderName) =
        ["TShadowCS", "TClearCS"]) ∧
    (demoMixedReport.MidgardReports.map (fun report => report.TitleName) =
        ["TBasePassPS", "TTranslucencyPS"] ∧
      demoMixedRaw.MidgardOutput.map (fun entry => entry.CommonOutput.ShaderName) =
        ["TTranslucencyPS", "TBasePassPS"]) ∧
    (demoMixedReport.UtgardReports.map (fun report => report.TitleName) =
        ["TBasePassVS", "TDepthOnlyVS"] ∧
      demoMixedRaw.UtgardOutput.map (fun entry => entry.CommonOutput.ShaderName) =
        ["TDepthOnlyVS", "TBasePassVS"]) := by
  refine ⟨⟨?_, rfl⟩, ⟨?_, rfl⟩, ⟨?_, rfl⟩⟩
  · simp only [demoMixedReport, compilationReport, demoMixedRaw, errorReportOf, titleOrder,
      demoMixedExternals, demoExternals, List.map_cons, List.map_nil, List.insertionSort,
      List.orderedInsert,
      decide_eq_false_iff_not, not_lt, String.le_iff_toList_le]
    rw [if_neg (by decide)]
    rfl
  · simp only [demoMixedReport, compilationReport, demoMixedRaw, midgardReportOf, titleOrder,
      demoMixedExternals, demoExternals, List.map_cons, List.map_nil, List.insertionSort,
      List.orderedInsert,
      decide_eq_false_iff_not, not_lt, String.le_iff_toList_le]
    rw [if_neg (by decide)]
    rfl
  · simp only [demoMixedReport, compilationReport, demoMixedRaw, utgardReportOf, titleOrder,
      demoMixedExternals, demoExternals, List.map_cons, List.map_nil, List.insertionSort,
      List.orderedInsert,
      decide_eq_false_iff_not, not_lt, String.le_iff_toList_le]
    rw [if_neg (by decide)]
    rfl

theorem orderedInsert_map {α β : Type} (r : β → β → Prop) [DecidableRel r] (f : α → β)
    (a : α) (l : List α) :
    (l.map f).orderedInsert r (f a) =
      (l.orderedInsert (fun x y => r (f x) (f y)) a).map f := by
  induction l with
  | nil => rfl
  | cons b rest ih =>
    simp only [List.map_cons, List.orderedInsert]
    by_cases hab : r (f a) (f b)
    · rw [if_pos hab, if_pos hab]
      rfl
    · rw [if_neg hab, if_neg hab, ih]
      rfl

theorem insertionSort_map {α β : Type} (r : β → β → Prop) [DecidableRel r] (f : α → β)
    (l : List α) :
    (l.map f).insertionSort r = (l.insertionSort (fun x y => r (f x) (f y))).map f := by
  induction l with
  | nil => rfl
  | cons a rest ih =>
    simp only [List.map_cons, List.insertionSort]
    rw [ih, orderedInsert_map]

theorem sorted_conversion {α β : Type} (X : Externals F) (name : α → String)
    (title : β → String) (f : α → β) (hname : ∀ a, title (f a) = name a)
    (htotal : ∀ a b, titleOrder X a b ∨ titleOrder X b a)
    (htrans : ∀ a b c, titleOrder X a b → titleOrder X b c → titleOrder X a c)
    (l : List α) :
    ∃ ordered : List α, List.Perm ordered l ∧
      List.Sorted (fun a b => titleOrder X (name a) (name b)) ordered ∧
      (l.map f).insertionSort (fun a b => titleOrder X (title a) (title b)) = ordered.map f := by
  refine ⟨l.insertionSort (fun a b => titleOrder X (name a) (name b)),
    List.perm_insertionSort _ _, insertionSort_title_sorted X name htotal htrans l, ?_⟩
  rw [insertionSort_map]
  have hrel : (fun x y => titleOrder X (title (f x)) (title (f y))) =
      (fun a b => titleOrder X (name a) (name b)) := by
    funext x y
    rw [hname x, hname y]
  congr 1
  congr 1

end ReportLemmas

section ReportClaims

variable {F : Type}

/-- C15. When `FString` comparison orders titles (any two titles are comparable and the
order is transitive), a report that `GetReport` builds without the error flag comes from
the raw output of the session's finished job. Each of its lists `ErrorList`,
`MidgardReports` and `UtgardReports` is a permutation of the reports converted one for one
from the corresponding raw list; more precisely it is the conversion, entry by entry and
in order, of a permutation of the raw list that is ordered by non-decreasing `ShaderName`.
The conversion of a raw entry takes the entry's `ShaderName` as `TitleName` and copies or
formats the other fields as `GetReport` does, so the titles of each list are a permutation
of the shader names of the raw list. Each list is sorted by title, that is by shader name:
no report stands before one with a smaller `TitleName`. -/
theorem GetReport_lists_sorted (X : Externals F) (g g' : FAsyncReportGenerator)
    (c : FAsyncCompiler F) (report : FMaliOCReport)
    (htotal : ∀ a b, titleOrder X a b ∨ titleOrder X b a)
    (htrans : ∀ a b c, titleOrder X a b → titleOrder X b c → titleOrder X a c)
    (hcache : g.CachedReport = none) (hflag : g.bWasCompilationError = false)
    (h : g.GetReport X c = .ok (report, g')) :
    ∃ job rawReport, c.deref g.JobHandle = .ok job ∧
      job.GetRawCompilerOutput = .ok rawReport ∧
      (List.Perm report.ErrorList (rawReport.ErrorOutput.map errorReportOf) ∧
        List.Perm report.MidgardReports (rawReport.MidgardOutput.map (midgardReportOf X)) ∧
        List.Perm report.UtgardReports (rawReport.UtgardOutput.map utgardReportOf)) ∧
      (∃ (errors : List FErrorOutput) (midgard : List (FMidgardOutput F))
          (utgard : List FUtgardOutput),
        (List.Perm errors rawReport.ErrorOutput ∧
          List.Sorted (fun a b =>
            titleOrder X a.CommonOutput.ShaderName b.CommonOutput.ShaderName) errors ∧
          report.ErrorList = errors.map errorReportOf) ∧
        (List.Perm midgard rawReport.MidgardOutput ∧
          List.Sorted (fun a b =>
            titleOrder X a.CommonOutput.ShaderName b.CommonOutput.ShaderName) midgard ∧
          report.MidgardReports = midgard.map (midgardReportOf X)) ∧
        (List.Perm utgard rawReport.UtgardOutput ∧
          List.Sorted (fun a b =>
            titleOrder X a.CommonOutput.ShaderName b.CommonOutput.ShaderName) utgard ∧
          report.UtgardReports = utgard.map utgardReportOf)) ∧
      ((∀ rawError : FErrorOutput,
          (errorReportOf rawError).TitleName = rawError.CommonOutput.ShaderName ∧
          (errorReportOf rawError).Details = GetDetailsFromCommonOutput rawError.CommonOutput ∧
          (errorReportOf rawError).SourceCode = rawError.CommonOutput.SourceCode ∧
          (errorReportOf rawError).Warnings = rawError.CommonOutput.Warnings ∧
          (errorReportOf rawError).Errors = rawError.Errors) ∧
        (∀ output : FMidgardOutput F,
          (midgardReportOf X output).TitleName = output.CommonOutput.ShaderName ∧
          (midgardReportOf X output).VertexFactoryName = output.CommonOutput.VertexFactoryName ∧
          (midgardReportOf X output).Details = GetDetailsFromCommonOutput output.CommonOutput ∧
          (midgardReportOf X output).SourceCode = output.CommonOutput.SourceCode ∧
          (midgardReportOf X output).Warnings = output.CommonOutput.Warnings ∧
          (midgardReportOf X output).RenderTargets.map (fun rtReport => rtReport.Index) =
            output.RenderTargets.map (fun rt => (rt.render_target % 2 ^ 32).toNat)) ∧
        (∀ output : FUtgardOutput,
          (utgardReportOf output).TitleName = output.CommonOutput.ShaderName ∧
          (utgardReportOf output).VertexFactoryName = output.CommonOutput.VertexFactoryName ∧
          (utgardReportOf output).Details = GetDetailsFromCommonOutput output.CommonOutput ∧
          (utgardReportOf output).SourceCode = output.CommonOutput.SourceCode ∧
          (utgardReportOf output).Warnings = output.CommonOutput.Warnings ∧
          (utgardReportOf output).ExtraDetails =
            ["Number of instruction words emitted: " ++ PrintfU output.n_instruction_words,
             "Number of cycles for shortest code path: " ++ PrintfU output.min_number_of_cycles,
             "Number of cycles for longest code path: " ++
               PrintfU output.max_number_of_cycles])) ∧
      (List.Perm (report.ErrorList.map (fun r => r.TitleName))
          (rawReport.ErrorOutput.map (fun rawError => rawError.CommonOutput.ShaderName)) ∧
        List.Perm (report.MidgardReports.map (fun r => r.TitleName))
          (rawReport.MidgardOutput.map (fun output => output.CommonOutput.ShaderName)) ∧
        List.Perm (report.UtgardReports.map (fun r => r.TitleName))
          (rawReport.UtgardOutput.map (fun output => output.CommonOutput.ShaderName))) ∧
      (List.Sorted (fun a b => titleOrder X a.TitleName b.TitleName) report.ErrorList ∧
        List.Sorted (fun a b => titleOrder X a.TitleName b.TitleName) report.MidgardReports ∧
        List.Sorted (fun a b => titleOrder X a.TitleName b.TitleName) report.UtgardReports) ∧
      (List.Sorted (titleOrder X) (report.ErrorList.map (fun r => r.TitleName)) ∧
        List.Sorted (titleOrder X) (report.MidgardReports.map (fun r => r.TitleName)) ∧
        List.Sorted (titleOrder X) (report.UtgardReports.map (fun r => r.TitleName))) := by
  obtain ⟨job, rawReport, hd, hr, hrep⟩ := GetReport_builds X g g' c report hcache hflag h
  refine ⟨job, rawReport, hd, hr, ?_⟩
  rw [hrep]
  have he := insertionSort_title_sorted X (fun a : FErrorReport => a.TitleName) htotal htrans
    (rawReport.ErrorOutput.map errorReportOf)
  have hm := insertionSort_title_sorted X (fun a : FMidgardReport => a.TitleName) htotal htrans
    (rawReport.MidgardOutput.map (midgardReportOf X))
  have hu := insertionSort_title_sorted X (fun a : FUtgardReport => a.TitleName) htotal htrans
    (rawReport.UtgardOutput.map utgardReportOf)
  obtain ⟨errors, hep, hes, hee⟩ := sorted_conversion X
    (fun a : FErrorOutput => a.CommonOutput.ShaderName) (fun r : FErrorReport => r.TitleName)
    errorReportOf (fun _ => rfl) htotal htrans rawReport.ErrorOutput
  obtain ⟨midgard, hmp, hms, hme⟩ := sorted_conversion X
    (fun a : FMidgardOutput F => a.CommonOutput.ShaderName)
    (fun r : FMidgardReport => r.TitleName) (midgardReportOf X) (fun _ => rfl) htotal htrans
    rawReport.MidgardOutput
  obtain ⟨utgard, hup, hus, hue⟩ := sorted_conversion X
    (fun a : FUtgardOutput => a.CommonOutput.ShaderName) (fun r : FUtgardReport => r.TitleName)
    utgardReportOf (fun _ => rfl) htotal htrans rawReport.UtgardOutput
  refine ⟨⟨List.perm_insertionSort _ _, List.perm_insertionSort _ _,
      List.perm_insertionSort _ _⟩,
    ⟨errors, midgard, utgard, ⟨hep, hes, hee⟩, ⟨hmp, hms, hme⟩, ⟨hup, hus, hue⟩⟩,
    ⟨fun _ => ⟨rfl, rfl, rfl, rfl, rfl⟩, fun output => ⟨rfl, rfl, rfl, rfl, rfl, ?_⟩,
      fun _ => ⟨rfl, rfl, rfl, rfl, rfl, rfl⟩⟩,
    ⟨?_, ?_, ?_⟩, ⟨he, hm, hu⟩, ⟨?_, ?_, ?_⟩⟩
  · simp only [midgardReportOf, List.map_map]
    rfl
  · refine ((List.perm_insertionSort _ _).map _).trans ?_
    rw [List.map_map]
    rfl
  · refine ((List.perm_insertionSort _ _).map _).trans ?_
    rw [List.map_map]
    rfl
  · refine ((List.perm_insertionSort _ _).map _).trans ?_
    rw [List.map_map]
    rfl
  · exact List.pairwise_map.mpr he
  · exact List.pairwise_map.mpr hm
  · exact List.pairwise_map.mpr hu

theorem GetReport_lists_sorted_witness :
    (demoMixedComplete.gen.CachedReport = none ∧
      demoMixedComplete.gen.bWasCompilationError = false ∧
      demoMixedComplete.gen.GetReport demoMixedExternals demoMixedComplete.compiler =
        .ok (demoMixedReport,
          { demoMixedComplete.gen with CachedReport := some demoMixedReport })) ∧
    (∃ job rawReport,
      demoMixedComplete.compiler.deref demoMixedComplete.gen.JobHandle = .ok job ∧
      job.GetRawCompilerOutput = .ok rawReport ∧
      (List.Perm demoMixedReport.ErrorList (rawReport.ErrorOutput.map errorReportOf) ∧
        List.Perm demoMixedReport.MidgardReports
          (rawReport.MidgardOutput.map (midgardReportOf demoMixedExternals)) ∧
        List.Perm demoMixedReport.UtgardReports (rawReport.UtgardOutput.map utgardReportOf)) ∧
      (∃ (errors : List FErrorOutput) (midgard : List (FMidgardOutput Int))
          (utgard : List FUtgardOutput),
        (List.Perm errors rawReport.ErrorOutput ∧
          List.Sorted (fun a b =>
            titleOrder demoMixedExternals a.CommonOutput.ShaderName
              b.CommonOutput.ShaderName) errors ∧
          demoMixedReport.ErrorList = errors.map errorReportOf) ∧
        (List.Perm midgard rawReport.MidgardOutput ∧
          List.Sorted (fun a b =>
            titleOrder demoMixedExternals a.CommonOutput.ShaderName
              b.CommonOutput.ShaderName) midgard ∧
          demoMixedReport.MidgardReports = midgard.map (midgardReportOf demoMixedExternals)) ∧
        (List.Perm utgard rawReport.UtgardOutput ∧
          List.Sorted (fun a b =>
            titleOrder demoMixedExternals a.CommonOutput.ShaderName
              b.CommonOutput.ShaderName) utgard ∧
          demoMixedReport.UtgardReports = utgard.map utgardReportOf)) ∧
      ((∀ rawError : FErrorOutput,
          (errorReportOf rawError).TitleName = rawError.CommonOutput.ShaderName ∧
          (errorReportOf rawError).Details = GetDetailsFromCommonOutput rawError.CommonOutput ∧
          (errorReportOf rawError).SourceCode = rawError.CommonOutput.SourceCode ∧
          (errorReportOf rawError).Warnings = rawError.CommonOutput.Warnings ∧
          (errorReportOf rawError).Errors = rawError.Errors) ∧
        (∀ output : FMidgardOutput Int,
          (midgardReportOf demoMixedExternals output).TitleName =
            output.CommonOutput.ShaderName ∧
          (midgardReportOf demoMixedExternals output).VertexFactoryName =
            output.CommonOutput.VertexFactoryName ∧
          (midgardReportOf demoMixedExternals output).Details =
            GetDetailsFromCommonOutput output.CommonOutput ∧
          (midgardReportOf demoMixedExternals output).SourceCode =
            output.CommonOutput.SourceCode ∧
          (midgardReportOf demoMixedExternals output).Warnings = output.CommonOutput.Warnings ∧
          (midgardReportOf demoMixedExternals output).RenderTargets.map
              (fun rtReport => rtReport.Index) =
            output.RenderTargets.map (fun rt => (rt.render_target % 2 ^ 32).toNat)) ∧
        (∀ output : FUtgardOutput,
          (utgardReportOf output).TitleName = output.CommonOutput.ShaderName ∧
          (utgardReportOf output).VertexFactoryName = output.CommonOutput.VertexFactoryName ∧
          (utgardReportOf output).Details = GetDetailsFromCommonOutput output.CommonOutput ∧
          (utgardReportOf output).SourceCode = output.CommonOutput.SourceCode ∧
          (utgardReportOf output).Warnings = output.CommonOutput.Warnings ∧
          (utgardReportOf output).ExtraDetails =
            ["Number of instruction words emitted: " ++ PrintfU output.n_instruction_words,
             "Number of cycles for shortest code path: " ++ PrintfU output.min_number_of_cycles,
             "Number of cycles for longest code path: " ++
               PrintfU output.max_number_of_cycles])) ∧
      (List.Perm (demoMixedReport.ErrorList.map (fun r => r.TitleName))
          (rawReport.ErrorOutput.map (fun rawError => rawError.CommonOutput.ShaderName)) ∧
        List.Perm (demoMixedReport.MidgardReports.map (fun r => r.TitleName))
          (rawReport.MidgardOutput.map (fun output => output.CommonOutput.ShaderName)) ∧
        List.Perm (demoMixedReport.UtgardReports.map (fun r => r.TitleName))
          (rawReport.UtgardOutput.map (fun output => output.CommonOutput.ShaderName))) ∧
      (List.Sorted (fun a b => titleOrder demoMixedExternals a.TitleName b.TitleName)
          demoMixedReport.ErrorList ∧
        List.Sorted (fun a b => titleOrder demoMixedExternals a.TitleName b.TitleName)
          demoMixedReport.MidgardReports ∧
        List.Sorted (fun a b => titleOrder demoMixedExternals a.TitleName b.TitleName)
          demoMixedReport.UtgardReports) ∧
      (List.Sorted (titleOrder demoMixedExternals)
          (demoMixedReport.ErrorList.map (fun r => r.TitleName)) ∧
        List.Sorted (titleOrder demoMixedExternals)
          (demoMixedReport.MidgardReports.map (fun r => r.TitleName)) ∧
        List.Sorted (titleOrder demoMixedExternals)
          (demoMixedReport.UtgardReports.map (fun r => r.TitleName)))) ∧
    ((demoMixedReport.ErrorList.map (fun report => report.TitleName) = ["TClearCS", "TShadowCS"] ∧
      demoMixedRaw.ErrorOutput.map (fun entry => entry.CommonOutput.ShaderName) =
        ["TShadowCS", "TClearCS"]) ∧
    (demoMixedReport.MidgardReports.map (fun report => report.TitleName) =
        ["TBasePassPS", "TTranslucencyPS"] ∧
      demoMixedRaw.MidgardOutput.map (fun entry => entry.CommonOutput.ShaderName) =
        ["TTranslucencyPS", "TBasePassPS"]) ∧
    (demoMixedReport.UtgardReports.map (fun report => report.TitleName) =
        ["TBasePassVS", "TDepthOnlyVS"] ∧
      demoMixedRaw.UtgardOutput.map (fun entry => entry.CommonOutput.ShaderName) =
        ["TDepthOnlyVS", "TBasePassVS"])) :=
  ⟨⟨rfl, rfl, rfl⟩,
    GetReport_lists_sorted demoMixedExternals demoMixedComplete.gen
      { demoMixedComplete.gen with CachedReport := some demoMixedReport }
      demoMixedComplete.compiler demoMixedReport
      demoMixedExternals_total demoMixedExternals_trans rfl rfl rfl,
    demoMixed_titles⟩

/-- C16. In every reachable session whose progress is Complete, `GetReport` returns a
report and leaves the session as it was except that `CachedReport` now holds that report;
every later call on the session so left, whatever the scheduler and the externals are by
then, returns the stored report and the session unchanged, so nothing is built again and
two calls return the same report. -/
theorem GetReport_cached (X : Externals F) (s : Session F) (hs : Session.Reachable X s)
    (hP : s.gen.Progress = EProgress.COMPILATION_COMPLETE) :
    ∃ (report : FMaliOCReport) (g' : FAsyncReportGenerator),
      s.gen.GetReport X s.compiler = .ok (report, g') ∧
      g' = { s.gen with CachedReport := some report } ∧
      (∀ stored, s.gen.CachedReport = some stored → report = stored ∧ g' = s.gen) ∧
      ∀ (X' : Externals F) (c' : FAsyncCompiler F), g'.GetReport X' c' = .ok (report, g') := by
  obtain ⟨report, h⟩ := GetReport_returns X s hs hP
  refine ⟨report, _, h, rfl, ?_, ?_⟩
  · intro stored hstored
    rw [GetReport_of_cached X s.gen s.compiler stored hP hstored] at h
    injection h with h
    injection h with h1 h2
    exact ⟨h1.symm, h2.symm⟩
  · intro X' c'
    exact GetReport_of_cached X' _ c' report hP rfl

theorem GetReport_cached_witness :
    ∃ (report : FMaliOCReport) (g' : FAsyncReportGenerator),
      demoComplete.gen.GetReport demoExternals demoComplete.compiler = .ok (report, g') ∧
      g' = { demoComplete.gen with CachedReport := some report } ∧
      (∀ stored, demoComplete.gen.CachedReport = some stored →
        report = stored ∧ g' = demoComplete.gen) ∧
      ∀ (X' : Externals Int) (c' : FAsyncCompiler Int),
        g'.GetReport X' c' = .ok (report, g') :=
  GetReport_cached demoExternals demoComplete demoComplete_reachable rfl

end ReportClaims

/-! ## Key scans over blocks that have entries -/

section ParseLemmas

variable {F : Type}

theorem entriesBound_of_hasEntries (kv : malioc_key_value_pairs) (h : kv.hasEntries) :
    entriesBound kv = kv.list.length - 1 := by
  obtain ⟨h0, h1⟩ := h
  unfold entriesBound malioc_key_value_pairs.number_of_entries
  omega

theorem readEntry_of_lt (list : List String) (i : Nat) (h : i < list.length) :
    readEntry list i = .ok (list.get ⟨i, h⟩) := by
  unfold readEntry
  rw [List.getElem?_eq_getElem h]
  rfl

theorem drop_pair (list : List String) (i : Nat) (h : i + 1 < list.length) :
    list.drop i =
      list.get ⟨i, by omega⟩ :: list.get ⟨i + 1, h⟩ :: list.drop (i + 2) := by
  rw [List.drop_eq_getElem_cons (by omega : i < list.length),
    List.drop_eq_getElem_cons h]
  rfl

theorem archOfPairs_short (l : List String) (h : l.length ≤ 1) :
    archOfPairs l = EMaliArch.None := by
  match l, h with
  | [], _ => rfl
  | [_], _ => rfl
  | _ :: _ :: _, h => simp at h

theorem archLoop_pairs (list : List String) :
    ∀ (fuel i : Nat), i ≤ list.length → list.length < i + fuel →
      archLoop list (list.length - 1) fuel i = .ok (archOfPairs (list.drop i)) := by
  intro fuel
  induction fuel with
  | zero =>
    intro i hle h
    omega
  | succ fuel ih =>
    intro i hle h
    unfold archLoop
    by_cases hi : i < list.length - 1
    · have hi1 : i + 1 < list.length := by omega
      rw [if_pos hi, readEntry_of_lt list i (by omega), readEntry_of_lt list (i + 1) hi1,
        drop_pair list i hi1]
      dsimp only
      unfold archOfPairs
      by_cases hk : list.get ⟨i, by omega⟩ = "architecture"
      · rw [if_pos hk, if_pos hk]
        by_cases hm : list.get ⟨i + 1, hi1⟩ = "midgard"
        · rw [if_pos hm, if_pos hm]
        · rw [if_neg hm, if_neg hm]
          by_cases hu : list.get ⟨i + 1, hi1⟩ = "utgard"
          · rw [if_pos hu, if_pos hu]
          · rw [if_neg hu, if_neg hu]
            exact ih (i + 2) (by omega) (by omega)
      · rw [if_neg hk, if_neg hk]
        exact ih (i + 2) (by omega) (by omega)
    · rw [if_neg hi, archOfPairs_short]
      rw [List.length_drop]
      omega

/-- The architecture scan of a block that has entries returns, and finds what the pairs of
the block say. -/
theorem detectArch_pairs (kv : malioc_key_value_pairs) (h : kv.hasEntries) :
    detectArch kv = .ok (archOfPairs kv.list) := by
  unfold detectArch
  rw [entriesBound_of_hasEntries kv h, archLoop_pairs kv.list _ 0 (by omega) (by omega)]
  rfl

theorem midgardAssign_ok (X : Externals F) (key value : String) (rt : FRenderTarget F) :
    midgardAssign X key (.ok value) rt = .ok (midgardAssignPair X key value rt) := by
  unfold midgardAssign midgardAssignPair
  by_cases h0 : key = "render_target"
  · rw [if_pos h0, if_pos h0]
    rfl
  rw [if_neg h0, if_neg h0]
  by_cases h1 : key = "work_registers_used"
  · rw [if_pos h1, if_pos h1]
    rfl
  rw [if_neg h1, if_neg h1]
  by_cases h2 : key = "uniform_registers_used"
  · rw [if_pos h2, if_pos h2]
    rfl
  rw [if_neg h2, if_neg h2]
  by_cases h3 : key = "arithmetic_cycles"
  · rw [if_pos h3, if_pos h3]
    rfl
  rw [if_neg h3, if_neg h3]
  by_cases h4 : key = "arithmetic_shortest_path"
  · rw [if_pos h4, if_pos h4]
    rfl
  rw [if_neg h4, if_neg h4]
  by_cases h5 : key = "arithmetic_longest_path"
  · rw [if_pos h5, if_pos h5]
    rfl
  rw [if_neg h5, if_neg h5]
  by_cases h6 : key = "load_store_cycles"
  · rw [if_pos h6, if_pos h6]
    rfl
  rw [if_neg h6, if_neg h6]
  by_cases h7 : key = "load_store_shortest_path"
  · rw [if_pos h7, if_pos h7]
    rfl
  rw [if_neg h7, if_neg h7]
  by_cases h8 : key = "load_store_longest_path"
  · rw [if_pos h8, if_pos h8]
    rfl
  rw [if_neg h8, if_neg h8]
  by_cases h9 : key = "texture_cycles"
  · rw [if_pos h9, if_pos h9]
    rfl
  rw [if_neg h9, if_neg h9]
  by_cases h10 : key = "texture_shortest_path"
  · rw [if_pos h10, if_pos h10]
    rfl
  rw [if_neg h10, if_neg h10]
  by_cases h11 : key = "texture_longest_path"
  · rw [if_pos h11, if_pos h11]
    rfl
  rw [if_neg h11, if_neg h11]
  by_cases h12 : key = "spilling_used"
  · rw [if_pos h12, if_pos h12]
    rfl
  rw [if_neg h12, if_neg h12]

theorem renderTargetOfPairs_short (X : Externals F) (l : List String) (rt : FRenderTarget F)
    (h : l.length ≤ 1) : renderTargetOfPairs X l rt = rt := by
  match l, h with
  | [], _ => rfl
  | [_], _ => rfl
  | _ :: _ :: _, h => simp at h

theorem midgardLoop_pairs (X : Externals F) (list : List String) :
    ∀ (fuel j : Nat) (rt : FRenderTarget F), j ≤ list.length → list.length < j + fuel →
      midgardLoop X list (list.length - 1) fuel j rt =
        .ok (renderTargetOfPairs X (list.drop j) rt) := by
  intro fuel
  induction fuel with
  | zero =>
    intro j rt hle h
    omega
  | succ fuel ih =>
    intro j rt hle h
    unfold midgardLoop
    by_cases hj : j < list.length - 1
    · have hj1 : j + 1 < list.length := by omega
      rw [if_pos hj, readEntry_of_lt list j (by omega), readEntry_of_lt list (j + 1) hj1,
        drop_pair list j hj1]
      dsimp only
      rw [midgardAssign_ok]
      dsimp only
      rw [ih (j + 2) _ (by omega) (by omega)]
      rfl
    · rw [if_neg hj, renderTargetOfPairs_short]
      rw [List.length_drop]
      omega

end ParseLemmas

section ParseLemmas2

variable {F : Type}

/-- What one pair does, field by field: the field named by the key takes the parsed
value, every other field stays. -/
theorem midgardAssignPair_eq (X : Externals F) (key value : String) (rt : FRenderTarget F) :
    midgardAssignPair X key value rt =
      { render_target := if key = "render_target" then X.Atoi value else rt.render_target
        work_registers_used := if key = "work_registers_used" then X.Atoi value else rt.work_registers_used
        uniform_registers_used := if key = "uniform_registers_used" then X.Atoi value else rt.uniform_registers_used
        arithmetic_cycles := if key = "arithmetic_cycles" then X.Atof value else rt.arithmetic_cycles
        arithmetic_shortest_path := if key = "arithmetic_shortest_path" then X.Atof value else rt.arithmetic_shortest_path
        arithmetic_longest_path := if key = "arithmetic_longest_path" then X.Atof value else rt.arithmetic_longest_path
        load_store_cycles := if key = "load_store_cycles" then X.Atof value else rt.load_store_cycles
        load_store_shortest_path := if key = "load_store_shortest_path" then X.Atof value else rt.load_store_shortest_path
        load_store_longest_path := if key = "load_store_longest_path" then X.Atof value else rt.load_store_longest_path
        texture_cycles := if key = "texture_cycles" then X.Atof value else rt.texture_cycles
        texture_shortest_path := if key = "texture_shortest_path" then X.Atof value else rt.texture_shortest_path
        texture_longest_path := if key = "texture_longest_path" then X.Atof value else rt.texture_longest_path
        spilling_used := if key = "spilling_used" then decide (value = "true") else rt.spilling_used } := by
  unfold midgardAssignPair
  by_cases h0 : key = "render_target"
  · rw [if_pos h0]
    subst h0
    simp
  rw [if_neg h0]
  by_cases h1 : key = "work_registers_used"
  · rw [if_pos h1]
    subst h1
    simp
  rw [if_neg h1]
  by_cases h2 : key = "uniform_registers_used"
  · rw [if_pos h2]
    subst h2
    simp
  rw [if_neg h2]
  by_cases h3 : key = "arithmetic_cycles"
  · rw [if_pos h3]
    subst h3
    simp
  rw [if_neg h3]
  by_cases h4 : key = "arithmetic_shortest_path"
  · rw [if_pos h4]
    subst h4
    simp
  rw [if_neg h4]
  by_cases h5 : key = "arithmetic_longest_path"
  · rw [if_pos h5]
    subst h5
    simp
  rw [if_neg h5]
  by_cases h6 : key = "load_store_cycles"
  · rw [if_pos h6]
    subst h6
    simp
  rw [if_neg h6]
  by_cases h7 : key = "load_store_shortest_path"
  · rw [if_pos h7]
    subst h7
    simp
  rw [if_neg h7]
  by_cases h8 : key = "load_store_longest_path"
  · rw [if_pos h8]
    subst h8
    simp
  rw [if_neg h8]
  by_cases h9 : key = "texture_cycles"
  · rw [if_pos h9]
    subst h9
    simp
  rw [if_neg h9]
  by_cases h10 : key = "texture_shortest_path"
  · rw [if_pos h10]
    subst h10
    simp
  rw [if_neg h10]
  by_cases h11 : key = "texture_longest_path"
  · rw [if_pos h11]
    subst h11
    simp
  rw [if_neg h11]
  by_cases h12 : key = "spilling_used"
  · rw [if_pos h12]
    subst h12
    simp
  rw [if_neg h12]
  simp only [if_neg h0, if_neg h1, if_neg h2, if_neg h3, if_neg h4, if_neg h5, if_neg h6, if_neg h7, if_neg h8, if_neg h9, if_neg h10, if_neg h11, if_neg h12]

theorem lastValue_cons_elim {β : Type} (key k v : String) (rest : List String) (d : β)
    (parse : String → β) :
    (lastValue key (k :: v :: rest)).elim d parse =
      (lastValue key rest).elim (if k = key then parse v else d) parse := by
  rw [lastValue]
  cases lastValue key rest with
  | some found => rfl
  | none =>
    dsimp only [Option.elim]
    by_cases h : k = key
    · rw [if_pos h, if_pos h]
    · rw [if_neg h, if_neg h]

/-- Reading the pairs of a block from the front gives, for every recognised key, the value
of its last pair, and leaves the fields of absent keys as they were. -/
theorem renderTargetOfPairs_byKey (X : Externals F) :
    ∀ (l : List String) (rt : FRenderTarget F),
      renderTargetOfPairs X l rt = renderTargetByKey X l rt
  | [], rt => rfl
  | [_], rt => rfl
  | k :: v :: rest, rt => by
    rw [renderTargetOfPairs, renderTargetOfPairs_byKey X rest, midgardAssignPair_eq]
    simp only [renderTargetByKey, lastValue_cons_elim]

end ParseLemmas2

section ParseLemmas3

variable {F : Type}

/-- The scan of one block that has entries returns the record its pairs describe. -/
theorem parseRenderTarget_byKey (X : Externals F) (kv : malioc_key_value_pairs)
    (h : kv.hasEntries) :
    parseRenderTarget X kv = .ok (renderTargetByKey X kv.list (FRenderTarget.init X)) := by
  unfold parseRenderTarget
  rw [entriesBound_of_hasEntries kv h,
    midgardLoop_pairs X kv.list (kv.list.length + 1) 0 _ (by omega) (by omega),
    renderTargetOfPairs_byKey, List.drop_zero]

/-- On blocks that all have entries `ParseMidgardFlexibleOutputs` returns one record per
block, in block order. -/
theorem ParseMidgardFlexibleOutputs_byKey (X : Externals F) :
    ∀ (blocks : List malioc_key_value_pairs), (∀ kv, kv ∈ blocks → kv.hasEntries) →
      ParseMidgardFlexibleOutputs X blocks =
        .ok { RenderTargets :=
                blocks.map fun kv => renderTargetByKey X kv.list (FRenderTarget.init X) } := by
  intro blocks
  induction blocks with
  | nil => intro _; rfl
  | cons kv rest ih =>
    intro h
    unfold ParseMidgardFlexibleOutputs
    rw [parseRenderTarget_byKey X kv (h kv (List.mem_cons_self _ _))]
    dsimp only
    rw [ih fun kv' hkv' => h kv' (List.mem_cons_of_mem _ hkv')]
    rfl

theorem entryOfOutputs_arch (X : Externals F) (outputs : malioc_outputs)
    (commonOutput : FCommonOutput) (first : malioc_key_value_pairs)
    (rest : List malioc_key_value_pairs) (herrors : outputs.errors.length = 0)
    (hblocks : outputs.flexible_outputs = first :: rest) (hfirst : first.hasEntries) :
    entryOfOutputs X true outputs commonOutput =
      entryOfArch X outputs { commonOutput with Warnings := outputs.warnings }
        (archOfPairs first.list) := by
  unfold entryOfOutputs
  rw [if_neg (by decide)]
  dsimp only
  rw [if_neg (by simp [herrors])]
  split
  · rename_i h
    rw [hblocks] at h
    cases h
  · rename_i first' rest' h
    rw [hblocks] at h
    injection h with h1 h2
    subst h1
    rw [detectArch_pairs first hfirst]

/-- With no backend errors and a first block that has entries, the per-shader result is
the unknown-format error exactly when the pairs of the first block name no architecture,
or name Utgard while the number of blocks is not one. -/
theorem entryOfOutputs_unknown_format_iff (X : Externals F) (outputs : malioc_outputs)
    (commonOutput : FCommonOutput) (first : malioc_key_value_pairs)
    (rest : List malioc_key_value_pairs) (herrors : outputs.errors.length = 0)
    (hblocks : outputs.flexible_outputs = first :: rest) (hfirst : first.hasEntries) :
    entryOfOutputs X true outputs commonOutput =
        .ok (errorEntry { commonOutput with Warnings := outputs.warnings }
          ["Unknown verbose output format from compiler"]) ↔
      (archOfPairs first.list = EMaliArch.None ∨
        (archOfPairs first.list = EMaliArch.Utgard ∧ outputs.flexible_outputs.length ≠ 1)) := by
  rw [entryOfOutputs_arch X outputs commonOutput first rest herrors hblocks hfirst]
  unfold entryOfArch
  cases harch : archOfPairs first.list with
  | None => simp
  | Midgard =>
    simp only [reduceCtorEq, decide_False, Bool.false_and, Bool.or_self, Bool.false_eq_true,
      if_false, false_and, or_self, iff_false]
    cases ParseMidgardFlexibleOutputs X outputs.flexible_outputs with
    | error e => simp
    | ok output => simp [errorEntry]
  | Utgard =>
    by_cases hone : outputs.flexible_outputs.length = 1
    · simp only [reduceCtorEq, decide_False, Bool.false_or, decide_True, Bool.true_and,
        hone, ne_eq, not_true_eq_false, Bool.false_eq_true, if_false, and_false, or_self,
        iff_false]
      cases ParseUtgardFlexibleOutputs X outputs.flexible_outputs with
      | error e => simp
      | ok output => simp [errorEntry]
    · simp [hone]

/-- With no backend errors, blocks that all have entries and a first block whose pairs
name Midgard, the per-shader result is one Midgard entry with one record per block, in
block order, each record as its block's pairs describe it. -/
theorem entryOfOutputs_midgard (X : Externals F) (outputs : malioc_outputs)
    (commonOutput : FCommonOutput) (first : malioc_key_value_pairs)
    (rest : List malioc_key_value_pairs) (herrors : outputs.errors.length = 0)
    (hblocks : outputs.flexible_outputs = first :: rest)
    (hall : ∀ kv, kv ∈ outputs.flexible_outputs → kv.hasEntries)
    (harch : archOfPairs first.list = EMaliArch.Midgard) :
    entryOfOutputs X true outputs commonOutput =
      .ok (FRawEntry.midgard
        { CommonOutput := { commonOutput with Warnings := outputs.warnings },
          RenderTargets := outputs.flexible_outputs.map fun kv =>
            renderTargetByKey X kv.list (FRenderTarget.init X) }) := by
  rw [entryOfOutputs_arch X outputs commonOutput first rest herrors hblocks
    (hall first (by rw [hblocks]; exact List.mem_cons_self _ _)), harch]
  unfold entryOfArch
  simp only [reduceCtorEq, decide_False, Bool.false_and, Bool.or_self, Bool.false_eq_true,
    if_false]
  rw [ParseMidgardFlexibleOutputs_byKey X _ hall]

theorem entriesBound_empty : entriesBound { list := [] } = 4294967295 := by
  unfold entriesBound malioc_key_value_pairs.number_of_entries
  norm_num

theorem detectArch_empty : detectArch { list := [] } = .error Failure.outOfBoundsRead := by
  unfold detectArch
  rw [entriesBound_empty]
  unfold archLoop
  rw [if_pos (by norm_num)]
  rfl

theorem parseRenderTarget_empty (X : Externals F) :
    parseRenderTarget X { list := [] } = .error Failure.outOfBoundsRead := by
  unfold parseRenderTarget
  rw [entriesBound_empty]
  unfold midgardLoop
  rw [if_pos (by norm_num)]
  rfl

/-- A first block without entries: the architecture scan reads `list[0]` of an empty
list. -/
theorem entryOfOutputs_empty_first_block (X : Externals F) (outputs : malioc_outputs)
    (commonOutput : FCommonOutput) (rest : List malioc_key_value_pairs)
    (herrors : outputs.errors.length = 0)
    (hblocks : outputs.flexible_outputs = { list := [] } :: rest) :
    entryOfOutputs X true outputs commonOutput = .error Failure.outOfBoundsRead := by
  unfold entryOfOutputs
  rw [if_neg (by decide)]
  dsimp only
  rw [if_neg (by simp [herrors])]
  split
  · rename_i h
    rw [hblocks] at h
    cases h
  · rename_i first' rest' h
    rw [hblocks] at h
    injection h with h1 h2
    subst h1
    rw [detectArch_empty]

end ParseLemmas3

section ParseClaims

variable {F : Type}

/-- With no backend errors, blocks that all have entries and a first block whose pairs
name Midgard, `AppendNewRawCompilerOutput` adds exactly one Midgard entry, with one record
per block in block order, and leaves the error and Utgard lists as they were. -/
theorem AppendNewRawCompilerOutput_midgard (X : Externals F) (outputs : malioc_outputs)
    (GLSL : String) (Shader : FShader) (Raw : FMaliOCRawCompilerOutput F)
    (commonOutput : FCommonOutput) (first : malioc_key_value_pairs)
    (rest : List malioc_key_value_pairs)
    (hhead : commonOutputOf GLSL Shader = .ok commonOutput)
    (herrors : outputs.errors.length = 0)
    (hblocks : outputs.flexible_outputs = first :: rest)
    (hall : ∀ kv, kv ∈ outputs.flexible_outputs → kv.hasEntries)
    (harch : archOfPairs first.list = EMaliArch.Midgard) :
    AppendNewRawCompilerOutput X true outputs GLSL Shader Raw =
      .ok { Raw with MidgardOutput := Raw.MidgardOutput ++
              [{ CommonOutput := { commonOutput with Warnings := outputs.warnings },
                 RenderTargets := outputs.flexible_outputs.map fun kv =>
                   renderTargetByKey X kv.list (FRenderTarget.init X) }] } := by
  unfold AppendNewRawCompilerOutput
  rw [hhead]
  dsimp only
  rw [entryOfOutputs_midgard X outputs commonOutput first rest herrors hblocks hall harch]
  rfl

theorem AppendNewRawCompilerOutput_midgard_sample :
    AppendNewRawCompilerOutput demoExternals true demoMidgardOutputs "void main() {}" demoShader
        {} =
      .ok { MidgardOutput :=
              [{ CommonOutput := demoCommonOutput,
                 RenderTargets :=
                   [{ render_target := 1, work_registers_used := 1, uniform_registers_used := 0,
                      arithmetic_cycles := 0, arithmetic_shortest_path := 4,
                      arithmetic_longest_path := 0, load_store_cycles := 0,
                      load_store_shortest_path := 3, load_store_longest_path := 0,
                      texture_cycles := 0, texture_shortest_path := 3,
                      texture_longest_path := 0, spilling_used := false }] }] } :=
  AppendNewRawCompilerOutput_midgard demoExternals demoMidgardOutputs "void main() {}" demoShader
    {} demoCommonOutput _ [] rfl rfl rfl (by decide) rfl

theorem entryOfOutputs_unknown_format_sample :
    entryOfOutputs demoExternals true demoUtgardTwoBlocks demoCommonOutput =
      .ok (errorEntry demoCommonOutput ["Unknown verbose output format from compiler"]) :=
  (entryOfOutputs_unknown_format_iff demoExternals demoUtgardTwoBlocks demoCommonOutput
    { list := ["architecture", "utgard"] } [{ list := ["a", "b"] }] rfl rfl
    (by decide)).mpr (Or.inr ⟨rfl, by decide⟩)

/-- C12 (the code fails the claim). On a backend answer whose first flexible-output block
has no entries the block has no architecture key, so the claim asks for the unknown-format
error entry, but the architecture scan `for (i = 0; i < number_of_entries - 1; i += 2)` computes
its bound in `unsigned int`, gets `4294967295` and reads `list[0]` of the empty list; the
call ends in that read outside the array and adds no entry. -/
theorem unknown_format_missed_for_empty_first_block :
    demoEmptyBlock.errors.length = 0 ∧
    demoEmptyBlock.flexible_outputs = [{ list := [] }] ∧
    archOfPairs ([] : List String) = EMaliArch.None ∧
    entriesBound { list := [] } = 4294967295 ∧
    entryOfOutputs demoExternals true demoEmptyBlock demoCommonOutput =
      .error Failure.outOfBoundsRead ∧
    AppendNewRawCompilerOutput demoExternals true demoEmptyBlock "void main() {}" demoShader {} =
      .error Failure.outOfBoundsRead :=
  ⟨rfl, rfl, rfl, rfl, rfl, rfl⟩

/-- C13 (the code fails the claim). On a backend answer for Midgard of two flexible-output
blocks whose second block has no entries the claim asks for one Midgard entry with two records,
the second holding the defaults, but the key scan of `ParseMidgardFlexibleOutputs`,
`for (j = 0; j < number_of_entries - 1; j += 2)`, computes its bound in `unsigned int` and
reads `list[0]` of the empty block; the call ends in that read outside the array and adds no
entry. -/
theorem midgard_entry_missed_for_empty_block :
    demoEmptySecondBlock.errors.length = 0 ∧
    demoEmptySecondBlock.flexible_outputs =
      [{ list := ["architecture", "midgard"] }, { list := [] }] ∧
    detectArch { list := ["architecture", "midgard"] } = .ok EMaliArch.Midgard ∧
    parseRenderTarget demoExternals { list := [] } = .error Failure.outOfBoundsRead ∧
    entryOfOutputs demoExternals true demoEmptySecondBlock demoCommonOutput =
      .error Failure.outOfBoundsRead ∧
    AppendNewRawCompilerOutput demoExternals true demoEmptySecondBlock "void main() {}"
      demoShader {} = .error Failure.outOfBoundsRead :=
  ⟨rfl, rfl, rfl, rfl, rfl, rfl⟩

end ParseClaims

/-! ## The capability graph: find a node by name or emplace it -/

section GraphLemmas

/-- The two ways `findOrEmplace` ends: the first accepted node is replaced by the result of
the call on it, or no node is accepted and the called-on new node comes last. -/
theorem findOrEmplace_cases {α : Type} (isIt : α → Bool) (call : α → α) (emplaced : α)
    (l : List α) :
    (∃ pre x post, l = pre ++ x :: post ∧ isIt x = true ∧ (∀ y, y ∈ pre → isIt y = false) ∧
      findOrEmplace isIt call emplaced l = pre ++ call x :: post) ∨
    ((∀ y, y ∈ l → isIt y = false) ∧
      findOrEmplace isIt call emplaced l = l ++ [call emplaced]) := by
  induction l with
  | nil =>
    right
    exact ⟨fun y hy => absurd hy (List.not_mem_nil y), rfl⟩
  | cons a l ih =>
    unfold findOrEmplace
    by_cases ha : isIt a = true
    · left
      rw [if_pos ha]
      exact ⟨[], a, l, rfl, ha, fun y hy => absurd hy (List.not_mem_nil y), rfl⟩
    · rw [if_neg ha]
      have ha' : isIt a = false := by simpa using ha
      rcases ih with ⟨pre, x, post, hl, hx, hpre, hres⟩ | ⟨hall, hres⟩
      · left
        refine ⟨a :: pre, x, post, by rw [hl]; rfl, hx, ?_, by rw [hres]; rfl⟩
        intro y hy
        rcases List.mem_cons.mp hy with rfl | hy
        · exact ha'
        · exact hpre y hy
      · right
        refine ⟨?_, by rw [hres]; rfl⟩
        intro y hy
        rcases List.mem_cons.mp hy with rfl | hy
        · exact ha'
        · exact hall y hy

theorem findOrEmplace_ne_nil {α : Type} (isIt : α → Bool) (call : α → α) (emplaced : α)
    (l : List α) : findOrEmplace isIt call emplaced l ≠ [] := by
  rcases findOrEmplace_cases isIt call emplaced l with ⟨pre, x, post, _, _, _, hres⟩ | ⟨_, hres⟩
  · rw [hres]
    simp
  · rw [hres]
    simp

/-- A property of all nodes that the call keeps, and gives to the new node, holds for all
nodes afterwards. -/
theorem findOrEmplace_forall {α : Type} (P : α → Prop) (isIt : α → Bool) (call : α → α)
    (emplaced : α) (l : List α) (hold : ∀ x, x ∈ l → P x)
    (hcall : ∀ x, x ∈ l → isIt x = true → P (call x)) (hnew : P (call emplaced)) :
    ∀ y, y ∈ findOrEmplace isIt call emplaced l → P y := by
  intro y hy
  rcases findOrEmplace_cases isIt call emplaced l with
    ⟨pre, x, post, hl, hx, _, hres⟩ | ⟨_, hres⟩
  · rw [hres] at hy
    rcases List.mem_append.mp hy with hy | hy
    · exact hold y (by rw [hl]; exact List.mem_append_left _ hy)
    · rcases List.mem_cons.mp hy with rfl | hy
      · exact hcall x (by rw [hl]; simp) hx
      · exact hold y (by rw [hl]; simp [hy])
  · rw [hres] at hy
    rcases List.mem_append.mp hy with hy | hy
    · exact hold y hy
    · rw [List.mem_singleton.mp hy]
      exact hnew

/-- The loop of the constructor keeps what every pass of its body keeps. -/
theorem addCompilersFrom_invariant (M : FCompilerManager)
    (P : Nat → List malicm_compiler → List FMaliCore → Prop)
    (hstep : ∀ i processed MaliCores compiler, P i processed MaliCores →
      P (i + 1) (processed ++ [compiler]) (addCompiler M MaliCores i compiler)) :
    ∀ (rest : List malicm_compiler) (i : Nat) (processed : List malicm_compiler)
      (MaliCores : List FMaliCore), P i processed MaliCores →
        P (i + rest.length) (processed ++ rest) (addCompilersFrom M rest i MaliCores) := by
  intro rest
  induction rest with
  | nil =>
    intro i processed MaliCores h
    simpa [addCompilersFrom] using h
  | cons compiler rest ih =>
    intro i processed MaliCores h
    have := ih (i + 1) (processed ++ [compiler]) _ (hstep i processed MaliCores compiler h)
    simp only [List.append_assoc, List.singleton_append] at this
    rw [List.length_cons, addCompilersFrom]
    rw [show i + (rest.length + 1) = i + 1 + rest.length by omega]
    exact this

theorem constructMaliCores_invariant (M : FCompilerManager)
    (P : Nat → List malicm_compiler → List FMaliCore → Prop)
    (hinit : P 0 [] [])
    (hstep : ∀ i processed MaliCores compiler, P i processed MaliCores →
      P (i + 1) (processed ++ [compiler]) (addCompiler M MaliCores i compiler)) :
    P M.malicm_get_compilers.length M.malicm_get_compilers (constructMaliCores M) := by
  have := addCompilersFrom_invariant M P hstep M.malicm_get_compilers 0 [] [] hinit
  simpa [constructMaliCores] using this

/-- The body of the constructor's loop as one search: the blacklists reject nothing. -/
theorem addCompiler_eq (M : FCompilerManager) (MaliCores : List FMaliCore) (i : Nat)
    (compiler : malicm_compiler) :
    addCompiler M MaliCores i compiler =
      findOrEmplace (fun maliCore => decide (maliCore.CoreName = M.malicm_get_core_name compiler))
        (fun core => core.AddRevision i (M.malicm_get_core_revision compiler)
          (M.malicm_get_driver_name compiler) compiler
          (M.malicm_get_highest_api_version compiler) (M.malicm_get_extensions compiler)
          "OpenGL ES 2.0" EShaderPlatform.SP_OPENGL_ES2_ANDROID)
        { address := i, CoreName := M.malicm_get_core_name compiler, Revisions := [] }
        MaliCores := rfl

/-! ### No node without a child -/

theorem AddDriver_noEmpty (r : FMaliCoreRevision) (fresh : Nat) (DriverName : String)
    (Compiler : malicm_compiler) (MaxAPI : Nat) (Extensions PlatformName : String)
    (Platform : EShaderPlatform)
    (h : ∀ Driver, Driver ∈ r.Drivers → Driver.Platforms ≠ []) :
    (r.AddDriver fresh DriverName Compiler MaxAPI Extensions PlatformName Platform).Drivers ≠ [] ∧
    ∀ Driver,
      Driver ∈ (r.AddDriver fresh DriverName Compiler MaxAPI Extensions PlatformName
        Platform).Drivers → Driver.Platforms ≠ [] := by
  refine ⟨findOrEmplace_ne_nil _ _ _ _, ?_⟩
  apply findOrEmplace_forall (fun Driver : FMaliDriver => Driver.Platforms ≠ [])
  · exact h
  · intro x _ _
    simp [FMaliDriver.AddShaderPlatform]
  · simp [FMaliDriver.AddShaderPlatform]

theorem AddRevision_noEmpty (c : FMaliCore) (fresh : Nat) (RevisionName DriverName : String)
    (Compiler : malicm_compiler) (MaxAPI : Nat) (Extensions PlatformName : String)
    (Platform : EShaderPlatform)
    (h : ∀ Revision, Revision ∈ c.Revisions → Revision.Drivers ≠ [] ∧
      ∀ Driver, Driver ∈ Revision.Drivers → Driver.Platforms ≠ []) :
    (c.AddRevision fresh RevisionName DriverName Compiler MaxAPI Extensions PlatformName
      Platform).Revisions ≠ [] ∧
    ∀ Revision,
      Revision ∈ (c.AddRevision fresh RevisionName DriverName Compiler MaxAPI Extensions
        PlatformName Platform).Revisions →
      Revision.Drivers ≠ [] ∧ ∀ Driver, Driver ∈ Revision.Drivers → Driver.Platforms ≠ [] := by
  refine ⟨findOrEmplace_ne_nil _ _ _ _, ?_⟩
  apply findOrEmplace_forall (fun Revision : FMaliCoreRevision => Revision.Drivers ≠ [] ∧
      ∀ Driver, Driver ∈ Revision.Drivers → Driver.Platforms ≠ [])
  · exact h
  · intro x hx _
    exact AddDriver_noEmpty x _ _ _ _ _ _ _ (h x hx).2
  · exact AddDriver_noEmpty _ _ _ _ _ _ _ _ (fun d hd => by cases hd)

theorem addCompiler_noEmpty (M : FCompilerManager) (MaliCores : List FMaliCore) (i : Nat)
    (compiler : malicm_compiler) (h : NoEmptyNode MaliCores) :
    NoEmptyNode (addCompiler M MaliCores i compiler) := by
  rw [addCompiler_eq]
  apply findOrEmplace_forall (fun core : FMaliCore => core.Revisions ≠ [] ∧
    ∀ Revision, Revision ∈ core.Revisions → Revision.Drivers ≠ [] ∧
      ∀ Driver, Driver ∈ Revision.Drivers → Driver.Platforms ≠ [])
  · exact h
  · intro x hx _
    exact AddRevision_noEmpty x _ _ _ _ _ _ _ _ (h x hx).2
  · exact AddRevision_noEmpty _ _ _ _ _ _ _ _ _ (fun r hr => by cases hr)

end GraphLemmas

section GraphLemmas2

/-! ### References to parents -/

theorem AddDriver_refs (r : FMaliCoreRevision) (fresh : Nat) (DriverName : String)
    (Compiler : malicm_compiler) (MaxAPI : Nat) (Extensions PlatformName : String)
    (Platform : EShaderPlatform)
    (h : ∀ Driver, Driver ∈ r.Drivers → Driver.Revision = r.address ∧
      ∀ p, p ∈ Driver.Platforms → p.Driver = Driver.address) :
    ∀ Driver,
      Driver ∈ (r.AddDriver fresh DriverName Compiler MaxAPI Extensions PlatformName
        Platform).Drivers →
      Driver.Revision = r.address ∧ ∀ p, p ∈ Driver.Platforms → p.Driver = Driver.address := by
  have hcall : ∀ d : FMaliDriver,
      (d.Revision = r.address ∧ ∀ p, p ∈ d.Platforms → p.Driver = d.address) →
      (d.AddShaderPlatform PlatformName Platform).Revision = r.address ∧
      ∀ p, p ∈ (d.AddShaderPlatform PlatformName Platform).Platforms →
        p.Driver = (d.AddShaderPlatform PlatformName Platform).address := by
    intro d hd
    refine ⟨hd.1, ?_⟩
    intro p hp
    simp only [FMaliDriver.AddShaderPlatform, List.mem_append, List.mem_singleton] at hp
    rcases hp with hp | hp
    · exact hd.2 p hp
    · rw [hp]
      rfl
  apply findOrEmplace_forall (fun Driver : FMaliDriver => Driver.Revision = r.address ∧
      ∀ p, p ∈ Driver.Platforms → p.Driver = Driver.address)
  · exact h
  · intro x hx _
    exact hcall x (h x hx)
  · exact hcall _ ⟨rfl, fun p hp => absurd hp (List.not_mem_nil p)⟩

theorem AddRevision_refs (c : FMaliCore) (fresh : Nat) (RevisionName DriverName : String)
    (Compiler : malicm_compiler) (MaxAPI : Nat) (Extensions PlatformName : String)
    (Platform : EShaderPlatform)
    (h : ∀ Revision, Revision ∈ c.Revisions → Revision.Core = c.address ∧
      ∀ Driver, Driver ∈ Revision.Drivers → Driver.Revision = Revision.address ∧
        ∀ p, p ∈ Driver.Platforms → p.Driver = Driver.address) :
    ∀ Revision,
      Revision ∈ (c.AddRevision fresh RevisionName DriverName Compiler MaxAPI Extensions
        PlatformName Platform).Revisions →
      Revision.Core = c.address ∧
      ∀ Driver, Driver ∈ Revision.Drivers → Driver.Revision = Revision.address ∧
        ∀ p, p ∈ Driver.Platforms → p.Driver = Driver.address := by
  apply findOrEmplace_forall (fun Revision : FMaliCoreRevision => Revision.Core = c.address ∧
      ∀ Driver, Driver ∈ Revision.Drivers → Driver.Revision = Revision.address ∧
        ∀ p, p ∈ Driver.Platforms → p.Driver = Driver.address)
  · exact h
  · intro x hx _
    exact ⟨(h x hx).1, AddDriver_refs x _ _ _ _ _ _ _ (h x hx).2⟩
  · exact ⟨rfl, AddDriver_refs _ _ _ _ _ _ _ _ (fun d hd => absurd hd (List.not_mem_nil d))⟩

theorem addCompiler_refs (M : FCompilerManager) (MaliCores : List FMaliCore) (i : Nat)
    (compiler : malicm_compiler) (h : BackReferencesHold MaliCores) :
    BackReferencesHold (addCompiler M MaliCores i compiler) := by
  rw [addCompiler_eq]
  apply findOrEmplace_forall (fun core : FMaliCore =>
    ∀ Revision, Revision ∈ core.Revisions → Revision.Core = core.address ∧
      ∀ Driver, Driver ∈ Revision.Drivers → Driver.Revision = Revision.address ∧
        ∀ p, p ∈ Driver.Platforms → p.Driver = Driver.address)
  · exact h
  · intro x hx _
    exact AddRevision_refs x _ _ _ _ _ _ _ _ (h x hx)
  · exact AddRevision_refs _ _ _ _ _ _ _ _ _ (fun r hr => absurd hr (List.not_mem_nil r))

/-! ### Addresses -/

theorem AtMostOneAdded_same {β : Type} (x : β) (l : List β) : AtMostOneAdded x l l :=
  ⟨l, [], by simp, Or.inl (by simp)⟩

theorem AtMostOneAdded_between {β : Type} (x : β) (a b old new : List β)
    (h : AtMostOneAdded x old new) : AtMostOneAdded x (a ++ old ++ b) (a ++ new ++ b) := by
  obtain ⟨pre, post, hold, hnew⟩ := h
  refine ⟨a ++ pre, post ++ b, by rw [hold]; simp, ?_⟩
  rcases hnew with hnew | hnew
  · left
    rw [hnew]
    simp
  · right
    rw [hnew]
    simp

theorem AtMostOneAdded_fresh (i : Nat) (old new : List Nat) (h : AtMostOneAdded i old new)
    (hnd : old.Nodup) (hlt : ∀ a, a ∈ old → a < i) :
    new.Nodup ∧ ∀ a, a ∈ new → a < i + 1 := by
  obtain ⟨pre, post, hold, hnew⟩ := h
  rcases hnew with hnew | hnew
  · rw [hnew, ← hold]
    exact ⟨hnd, fun a ha => Nat.lt_succ_of_lt (hlt a ha)⟩
  · rw [hnew]
    constructor
    · rw [List.nodup_middle, List.nodup_cons, ← hold]
      exact ⟨fun hmem => Nat.lt_irrefl i (hlt i hmem), hnd⟩
    · intro a ha
      have : a = i ∨ a ∈ old := by
        rw [hold]
        simp only [List.mem_append, List.mem_cons] at ha ⊢
        tauto
      rcases this with rfl | ha
      · exact Nat.lt_succ_self _
      · exact Nat.lt_succ_of_lt (hlt a ha)

theorem findOrEmplace_map_added {α β : Type} (key : α → β) (isIt : α → Bool) (call : α → α)
    (emplaced : α) (l : List α) (hcall : ∀ a, key (call a) = key a) :
    AtMostOneAdded (key (call emplaced)) (l.map key)
      ((findOrEmplace isIt call emplaced l).map key) := by
  rcases findOrEmplace_cases isIt call emplaced l with
    ⟨pre, x, post, hl, _, _, hres⟩ | ⟨_, hres⟩
  · rw [hres, hl]
    simp only [List.map_append, List.map_cons, hcall]
    exact AtMostOneAdded_same _ _
  · rw [hres]
    exact ⟨l.map key, [], by simp, Or.inr (by simp)⟩

theorem findOrEmplace_flatMap_added {α β : Type} (f : α → List β) (x : β) (isIt : α → Bool)
    (call : α → α) (emplaced : α) (l : List α)
    (hcall : ∀ a, AtMostOneAdded x (f a) (f (call a))) (hempty : f emplaced = []) :
    AtMostOneAdded x (l.flatMap f) ((findOrEmplace isIt call emplaced l).flatMap f) := by
  rcases findOrEmplace_cases isIt call emplaced l with
    ⟨pre, a, post, hl, _, _, hres⟩ | ⟨_, hres⟩
  · rw [hres, hl]
    simp only [List.flatMap_append, List.flatMap_cons, ← List.append_assoc]
    exact AtMostOneAdded_between x _ _ _ _ (hcall a)
  · rw [hres]
    simp only [List.flatMap_append, List.flatMap_cons, List.flatMap_nil, List.append_nil]
    have h := AtMostOneAdded_between x (l.flatMap f) [] _ _ (hcall emplaced)
    rw [hempty] at h
    simpa using h

theorem AddDriver_addresses (r : FMaliCoreRevision) (fresh : Nat) (DriverName : String)
    (Compiler : malicm_compiler) (MaxAPI : Nat) (Extensions PlatformName : String)
    (Platform : EShaderPlatform) :
    AtMostOneAdded fresh (r.Drivers.map fun Driver => Driver.address)
      ((r.AddDriver fresh DriverName Compiler MaxAPI Extensions PlatformName
        Platform).Drivers.map fun Driver => Driver.address) :=
  findOrEmplace_map_added (fun Driver : FMaliDriver => Driver.address) _ _ _ _ (fun _ => rfl)

theorem AddRevision_addresses (c : FMaliCore) (fresh : Nat) (RevisionName DriverName : String)
    (Compiler : malicm_compiler) (MaxAPI : Nat) (Extensions PlatformName : String)
    (Platform : EShaderPlatform) :
    AtMostOneAdded fresh (c.Revisions.map fun Revision => Revision.address)
      ((c.AddRevision fresh RevisionName DriverName Compiler MaxAPI Extensions PlatformName
        Platform).Revisions.map fun Revision => Revision.address) :=
  findOrEmplace_map_added (fun Revision : FMaliCoreRevision => Revision.address) _ _ _ _
    (fun _ => rfl)

theorem AddRevision_driver_addresses (c : FMaliCore) (fresh : Nat)
    (RevisionName DriverName : String) (Compiler : malicm_compiler) (MaxAPI : Nat)
    (Extensions PlatformName : String) (Platform : EShaderPlatform) :
    AtMostOneAdded fresh
      (c.Revisions.flatMap fun Revision => Revision.Drivers.map fun Driver => Driver.address)
      ((c.AddRevision fresh RevisionName DriverName Compiler MaxAPI Extensions PlatformName
        Platform).Revisions.flatMap fun Revision =>
          Revision.Drivers.map fun Driver => Driver.address) :=
  findOrEmplace_flatMap_added
    (fun Revision : FMaliCoreRevision => Revision.Drivers.map fun Driver => Driver.address)
    fresh _ _ _ _ (fun r => AddDriver_addresses r _ _ _ _ _ _ _) (by rfl)

theorem addCompiler_core_addresses (M : FCompilerManager) (MaliCores : List FMaliCore) (i : Nat)
    (compiler : malicm_compiler) :
    AtMostOneAdded i (MaliCores.map fun core => core.address)
      ((addCompiler M MaliCores i compiler).map fun core => core.address) := by
  rw [addCompiler_eq]
  exact findOrEmplace_map_added (fun core : FMaliCore => core.address) _ _ _ _ (fun _ => rfl)

theorem addCompiler_revision_addresses (M : FCompilerManager) (MaliCores : List FMaliCore)
    (i : Nat) (compiler : malicm_compiler) :
    AtMostOneAdded i (revisionAddresses MaliCores)
      (revisionAddresses (addCompiler M MaliCores i compiler)) := by
  rw [addCompiler_eq]
  unfold revisionAddresses
  refine findOrEmplace_flatMap_added
    (fun core : FMaliCore => core.Revisions.map fun Revision => Revision.address)
    i _ _ _ _ (fun c => AddRevision_addresses c _ _ _ _ _ _ _ _) ?_
  rfl

theorem addCompiler_driver_addresses (M : FCompilerManager) (MaliCores : List FMaliCore)
    (i : Nat) (compiler : malicm_compiler) :
    AtMostOneAdded i (driverAddresses MaliCores)
      (driverAddresses (addCompiler M MaliCores i compiler)) := by
  rw [addCompiler_eq]
  unfold driverAddresses
  refine findOrEmplace_flatMap_added
    (fun core : FMaliCore => core.Revisions.flatMap fun Revision =>
      Revision.Drivers.map fun Driver => Driver.address)
    i _ _ _ _ (fun c => AddRevision_driver_addresses c _ _ _ _ _ _ _ _) ?_
  rfl

/-- In the graph the constructor builds no two cores, no two revisions and no two drivers
share an address. -/
theorem constructMaliCores_addresses (M : FCompilerManager) :
    ((constructMaliCores M).map fun core => core.address).Nodup ∧
    (revisionAddresses (constructMaliCores M)).Nodup ∧
    (driverAddresses (constructMaliCores M)).Nodup := by
  have h := constructMaliCores_invariant M
    (fun i _ MaliCores =>
      ((MaliCores.map fun core => core.address).Nodup ∧
        ∀ a, a ∈ (MaliCores.map fun core => core.address) → a < i) ∧
      ((revisionAddresses MaliCores).Nodup ∧ ∀ a, a ∈ revisionAddresses MaliCores → a < i) ∧
      ((driverAddresses MaliCores).Nodup ∧ ∀ a, a ∈ driverAddresses MaliCores → a < i))
    ⟨⟨List.nodup_nil, fun a ha => absurd ha (List.not_mem_nil a)⟩,
      ⟨List.nodup_nil, fun a ha => absurd ha (List.not_mem_nil a)⟩,
      ⟨List.nodup_nil, fun a ha => absurd ha (List.not_mem_nil a)⟩⟩
    (fun i _ MaliCores compiler h =>
      ⟨AtMostOneAdded_fresh i _ _ (addCompiler_core_addresses M MaliCores i compiler) h.1.1 h.1.2,
        AtMostOneAdded_fresh i _ _ (addCompiler_revision_addresses M MaliCores i compiler)
          h.2.1.1 h.2.1.2,
        AtMostOneAdded_fresh i _ _ (addCompiler_driver_addresses M MaliCores i compiler)
          h.2.2.1 h.2.2.2⟩)
  exact ⟨h.1.1, h.2.1.1, h.2.2.1⟩

theorem constructMaliCores_refs (M : FCompilerManager) :
    BackReferencesHold (constructMaliCores M) :=
  constructMaliCores_invariant M (fun _ _ MaliCores => BackReferencesHold MaliCores)
    (fun core hcore => absurd hcore (List.not_mem_nil core))
    (fun i _ MaliCores compiler h => addCompiler_refs M MaliCores i compiler h)

end GraphLemmas2

section GraphLemmas3

/-! ### One node per name -/

/-- A search by name keeps names distinct: it adds the name looked for when no node has
it, and no name otherwise. -/
theorem findOrEmplace_names {α : Type} (name : α → String) (target : String) (call : α → α)
    (emplaced : α) (l : List α) (hcall : ∀ a, name (call a) = name a)
    (hnew : name emplaced = target) (hnd : (l.map name).Nodup) :
    ((findOrEmplace (fun a => decide (name a = target)) call emplaced l).map name).Nodup ∧
    ∀ n, n ∈ (findOrEmplace (fun a => decide (name a = target)) call emplaced l).map name ↔
      (n ∈ l.map name ∨ n = target) := by
  rcases findOrEmplace_cases (fun a => decide (name a = target)) call emplaced l with
    ⟨pre, x, post, hl, hx, _, hres⟩ | ⟨hall, hres⟩
  · have hmap : (findOrEmplace (fun a => decide (name a = target)) call emplaced l).map name =
        l.map name := by
      rw [hres, hl]
      simp only [List.map_append, List.map_cons, hcall]
    rw [hmap]
    refine ⟨hnd, fun n => ⟨Or.inl, ?_⟩⟩
    rintro (h | h)
    · exact h
    · rw [h, hl]
      have hx' : name x = target := by simpa using hx
      simp [hx']
  · have hmap : (findOrEmplace (fun a => decide (name a = target)) call emplaced l).map name =
        l.map name ++ [target] := by
      rw [hres]
      simp only [List.map_append, List.map_cons, List.map_nil, hcall, hnew]
    rw [hmap]
    constructor
    · rw [List.nodup_append]
      refine ⟨hnd, List.nodup_singleton _, ?_⟩
      intro n hn hn'
      rw [List.mem_singleton] at hn'
      obtain ⟨a, ha, hna⟩ := List.mem_map.mp hn
      have := hall a ha
      simp only [decide_eq_false_iff_not] at this
      exact this (by rw [hna, hn'])
    · intro n
      simp

theorem AddDriver_names (r : FMaliCoreRevision) (fresh : Nat) (DriverName : String)
    (Compiler : malicm_compiler) (MaxAPI : Nat) (Extensions PlatformName : String)
    (Platform : EShaderPlatform)
    (h : (r.Drivers.map fun Driver => Driver.DriverName).Nodup) :
    ((r.AddDriver fresh DriverName Compiler MaxAPI Extensions PlatformName
      Platform).Drivers.map fun Driver => Driver.DriverName).Nodup := by
  unfold FMaliCoreRevision.AddDriver
  dsimp only
  refine (findOrEmplace_names (fun Driver : FMaliDriver => Driver.DriverName) DriverName _ _ _
    ?_ ?_ h).1
  · intro a
    rfl
  · rfl

theorem AddRevision_names (c : FMaliCore) (fresh : Nat) (RevisionName DriverName : String)
    (Compiler : malicm_compiler) (MaxAPI : Nat) (Extensions PlatformName : String)
    (Platform : EShaderPlatform)
    (h : (c.Revisions.map fun Revision => Revision.RevisionName).Nodup ∧
      ∀ Revision, Revision ∈ c.Revisions →
        (Revision.Drivers.map fun Driver => Driver.DriverName).Nodup) :
    ((c.AddRevision fresh RevisionName DriverName Compiler MaxAPI Extensions PlatformName
      Platform).Revisions.map fun Revision => Revision.RevisionName).Nodup ∧
    ∀ Revision,
      Revision ∈ (c.AddRevision fresh RevisionName DriverName Compiler MaxAPI Extensions
        PlatformName Platform).Revisions →
      (Revision.Drivers.map fun Driver => Driver.DriverName).Nodup := by
  constructor
  · unfold FMaliCore.AddRevision
    dsimp only
    refine (findOrEmplace_names (fun Revision : FMaliCoreRevision => Revision.RevisionName)
      RevisionName _ _ _ ?_ ?_ h.1).1
    · intro a
      rfl
    · rfl
  · apply findOrEmplace_forall (fun Revision : FMaliCoreRevision =>
      (Revision.Drivers.map fun Driver => Driver.DriverName).Nodup)
    · exact h.2
    · intro x hx _
      exact AddDriver_names x _ _ _ _ _ _ _ (h.2 x hx)
    · exact AddDriver_names _ _ _ _ _ _ _ _ List.nodup_nil

theorem addCompiler_names (M : FCompilerManager) (MaliCores : List FMaliCore) (i : Nat)
    (compiler : malicm_compiler) (h : NamesDistinct MaliCores) :
    NamesDistinct (addCompiler M MaliCores i compiler) := by
  rw [addCompiler_eq]
  constructor
  · refine (findOrEmplace_names (fun core : FMaliCore => core.CoreName)
      (M.malicm_get_core_name compiler) _ _ _ ?_ ?_ h.1).1
    · intro a
      rfl
    · rfl
  · apply findOrEmplace_forall (fun core : FMaliCore =>
      (core.Revisions.map fun Revision => Revision.RevisionName).Nodup ∧
      ∀ Revision, Revision ∈ core.Revisions →
        (Revision.Drivers.map fun Driver => Driver.DriverName).Nodup)
    · exact h.2
    · intro x hx _
      exact AddRevision_names x _ _ _ _ _ _ _ _ (h.2 x hx)
    · exact AddRevision_names _ _ _ _ _ _ _ _ _
        ⟨List.nodup_nil, fun r hr => absurd hr (List.not_mem_nil r)⟩

theorem addCompiler_core_names (M : FCompilerManager) (MaliCores : List FMaliCore) (i : Nat)
    (compiler : malicm_compiler) (h : (MaliCores.map fun core => core.CoreName).Nodup) :
    ∀ n, n ∈ (addCompiler M MaliCores i compiler).map (fun core => core.CoreName) ↔
      (n ∈ MaliCores.map (fun core => core.CoreName) ∨ n = M.malicm_get_core_name compiler) := by
  rw [addCompiler_eq]
  refine (findOrEmplace_names (fun core : FMaliCore => core.CoreName)
    (M.malicm_get_core_name compiler) _ _ _ ?_ ?_ h).2
  · intro a
    rfl
  · rfl

theorem constructMaliCores_names (M : FCompilerManager) :
    NamesDistinct (constructMaliCores M) ∧
    ∀ n, n ∈ (constructMaliCores M).map (fun core => core.CoreName) ↔
      n ∈ M.malicm_get_compilers.map M.malicm_get_core_name := by
  refine constructMaliCores_invariant M
    (fun _ processed MaliCores => NamesDistinct MaliCores ∧
      ∀ n, n ∈ MaliCores.map (fun core => core.CoreName) ↔
        n ∈ processed.map M.malicm_get_core_name) ?_ ?_
  · exact ⟨⟨List.nodup_nil, fun c hc => absurd hc (List.not_mem_nil c)⟩, fun n => by simp⟩
  · intro i processed MaliCores compiler h
    refine ⟨addCompiler_names M MaliCores i compiler h.1, ?_⟩
    intro n
    rw [addCompiler_core_names M MaliCores i compiler h.1.1, h.2]
    simp

theorem constructMaliCores_demoManager :
    constructMaliCores demoManager = [demoCore, demoT760Core] := rfl

theorem constructMaliCores_twins (M : FCompilerManager) (a b : malicm_compiler)
    (hlist : M.malicm_get_compilers = [a, b])
    (hcore : M.malicm_get_core_name b = M.malicm_get_core_name a)
    (hrevision : M.malicm_get_core_revision b = M.malicm_get_core_revision a)
    (hdriver : M.malicm_get_driver_name b = M.malicm_get_driver_name a) :
    constructMaliCores M =
      [{ address := 0, CoreName := M.malicm_get_core_name a,
         Revisions :=
           [{ address := 0, RevisionName := M.malicm_get_core_revision a, Core := 0,
              Drivers :=
                [{ address := 0, DriverName := M.malicm_get_driver_name a, Revision := 0,
                   Compiler := a,
                   Platforms :=
                     [{ PlatformName := "OpenGL ES 2.0", Driver := 0,
                        Platform := EShaderPlatform.SP_OPENGL_ES2_ANDROID },
                      { PlatformName := "OpenGL ES 2.0", Driver := 0,
                        Platform := EShaderPlatform.SP_OPENGL_ES2_ANDROID }],
                   MaxAPI := M.malicm_get_highest_api_version a,
                   Extensions := M.malicm_get_extensions a }] }] }] := by
  unfold constructMaliCores
  rw [hlist]
  simp [addCompilersFrom, addCompiler_eq, findOrEmplace, FMaliCore.AddRevision,
    FMaliCoreRevision.AddDriver, FMaliDriver.AddShaderPlatform, hcore, hrevision, hdriver]

end GraphLemmas3

section GraphClaims

/-- C17. For every compiler manager, that is for every list of compiler entries the
backend returns and whatever names they carry, in the graph the constructor of
`FAsyncCompiler` builds every core has at least one revision, every revision at least one
driver and every driver at least one platform. -/
theorem constructMaliCores_no_empty_node (M : FCompilerManager) :
    ∀ core, core ∈ constructMaliCores M → core.Revisions ≠ [] ∧
      ∀ Revision, Revision ∈ core.Revisions → Revision.Drivers ≠ [] ∧
        ∀ Driver, Driver ∈ Revision.Drivers → Driver.Platforms ≠ [] :=
  constructMaliCores_invariant M (fun _ _ MaliCores => NoEmptyNode MaliCores)
    (fun core hcore => by cases hcore)
    (fun i _ MaliCores compiler h => addCompiler_noEmpty M MaliCores i compiler h)

theorem constructMaliCores_no_empty_node_witness :
    demoCore ∈ constructMaliCores demoManager ∧
    demoRevision ∈ demoCore.Revisions ∧
    demoDriver ∈ demoRevision.Drivers ∧
    demoCore.Revisions ≠ [] ∧
    demoRevision.Drivers ≠ [] ∧
    demoDriver.Platforms ≠ [] :=
  have hcore : demoCore ∈ constructMaliCores demoManager := by
    rw [constructMaliCores_demoManager]
    exact List.mem_cons_self _ _
  have hrevision : demoRevision ∈ demoCore.Revisions := List.mem_cons_self _ _
  have hdriver : demoDriver ∈ demoRevision.Drivers := List.mem_cons_self _ _
  have h := constructMaliCores_no_empty_node demoManager demoCore hcore
  ⟨hcore, hrevision, hdriver, h.1, (h.2 demoRevision hrevision).1,
    (h.2 demoRevision hrevision).2 demoDriver hdriver⟩

/-- C18. In the graph the constructor of `FAsyncCompiler` builds, every revision listed
under a core refers back to that core, every driver listed under a revision refers back to
that revision, and every platform listed under a driver refers back to that driver; the
references are addresses, and no two cores, no two revisions and no two drivers of the
graph share one, so the node a reference names is the parent itself. -/
theorem constructMaliCores_back_references (M : FCompilerManager) :
    (∀ core, core ∈ constructMaliCores M →
      ∀ Revision, Revision ∈ core.Revisions → Revision.Core = core.address ∧
        ∀ Driver, Driver ∈ Revision.Drivers → Driver.Revision = Revision.address ∧
          ∀ Platform, Platform ∈ Driver.Platforms → Platform.Driver = Driver.address) ∧
    ((constructMaliCores M).map fun core => core.address).Nodup ∧
    (revisionAddresses (constructMaliCores M)).Nodup ∧
    (driverAddresses (constructMaliCores M)).Nodup :=
  ⟨constructMaliCores_refs M, constructMaliCores_addresses M⟩

theorem constructMaliCores_back_references_witness :
    demoT760Core ∈ constructMaliCores demoManager ∧
    demoT760Revision ∈ demoT760Core.Revisions ∧
    demoT760Driver ∈ demoT760Revision.Drivers ∧
    demoT760Platform ∈ demoT760Driver.Platforms ∧
    demoT760Revision.Core = demoT760Core.address ∧
    demoT760Driver.Revision = demoT760Revision.address ∧
    demoT760Platform.Driver = demoT760Driver.address ∧
    ((constructMaliCores demoManager).map fun core => core.address).Nodup ∧
    (revisionAddresses (constructMaliCores demoManager)).Nodup ∧
    (driverAddresses (constructMaliCores demoManager)).Nodup :=
  have hcore : demoT760Core ∈ constructMaliCores demoManager := by
    rw [constructMaliCores_demoManager]
    exact List.mem_cons_of_mem _ (List.mem_cons_self _ _)
  have hrevision : demoT760Revision ∈ demoT760Core.Revisions := List.mem_cons_self _ _
  have hdriver : demoT760Driver ∈ demoT760Revision.Drivers := List.mem_cons_self _ _
  have hplatform : demoT760Platform ∈ demoT760Driver.Platforms := List.mem_cons_self _ _
  have h := constructMaliCores_back_references demoManager
  ⟨hcore, hrevision, hdriver, hplatform,
    (h.1 demoT760Core hcore demoT760Revision hrevision).1,
    ((h.1 demoT760Core hcore demoT760Revision hrevision).2 demoT760Driver hdriver).1,
    ((h.1 demoT760Core hcore demoT760Revision hrevision).2 demoT760Driver hdriver).2
      demoT760Platform hplatform,
    h.2⟩

/-- C19. For every list of compiler entries the graph the constructor builds has one node
per name at each level: the names of the cores are pairwise distinct, the names of the
revisions of one core are pairwise distinct, the names of the drivers of one revision are
pairwise distinct, the core names of the graph are exactly the core names of the entries,
and the number of cores is the number of distinct core names among the entries. -/
theorem constructMaliCores_one_node_per_name (M : FCompilerManager) :
    ((constructMaliCores M).map fun core => core.CoreName).Nodup ∧
    (∀ core, core ∈ constructMaliCores M →
      (core.Revisions.map fun Revision => Revision.RevisionName).Nodup ∧
      ∀ Revision, Revision ∈ core.Revisions →
        (Revision.Drivers.map fun Driver => Driver.DriverName).Nodup) ∧
    (∀ n, n ∈ (constructMaliCores M).map (fun core => core.CoreName) ↔
      n ∈ M.malicm_get_compilers.map M.malicm_get_core_name) ∧
    (constructMaliCores M).length =
      (M.malicm_get_compilers.map M.malicm_get_core_name).dedup.length := by
  obtain ⟨⟨hcores, hrest⟩, hmem⟩ := constructMaliCores_names M
  refine ⟨hcores, hrest, hmem, ?_⟩
  have hperm : List.Perm ((constructMaliCores M).map fun core => core.CoreName)
      (M.malicm_get_compilers.map M.malicm_get_core_name).dedup :=
    (List.perm_ext_iff_of_nodup hcores (List.nodup_dedup _)).mpr
      (fun n => by rw [hmem n, List.mem_dedup])
  have := hperm.length_eq
  rw [List.length_map] at this
  exact this

theorem constructMaliCores_one_node_per_name_witness :
    demoCore ∈ constructMaliCores demoManager ∧
    demoRevision ∈ demoCore.Revisions ∧
    ((constructMaliCores demoManager).map fun core => core.CoreName).Nodup ∧
    (demoCore.Revisions.map fun Revision => Revision.RevisionName).Nodup ∧
    (demoRevision.Drivers.map fun Driver => Driver.DriverName).Nodup ∧
    (constructMaliCores demoManager).length =
      (demoManager.malicm_get_compilers.map demoManager.malicm_get_core_name).dedup.length :=
  have hcore : demoCore ∈ constructMaliCores demoManager := by
    rw [constructMaliCores_demoManager]
    exact List.mem_cons_self _ _
  have hrevision : demoRevision ∈ demoCore.Revisions := List.mem_cons_self _ _
  have h := constructMaliCores_one_node_per_name demoManager
  ⟨hcore, hrevision, h.1, (h.2.1 demoCore hcore).1,
    (h.2.1 demoCore hcore).2 demoRevision hrevision, h.2.2.2⟩

/-- C20 (the code fails the claim). On two compiler entries with identical core, revision
and driver names the graph has a single core, a single revision and a single driver, but
`AddShaderPlatform` emplaces a platform on every call without looking for one of the same
name, so the driver lists the platform `OpenGL ES 2.0` twice. -/
theorem twin_entries_duplicate_platform :
    demoTwinManager.malicm_get_compilers = [7, 8] ∧
    demoTwinManager.malicm_get_core_name 8 = demoTwinManager.malicm_get_core_name 7 ∧
    demoTwinManager.malicm_get_core_revision 8 = demoTwinManager.malicm_get_core_revision 7 ∧
    demoTwinManager.malicm_get_driver_name 8 = demoTwinManager.malicm_get_driver_name 7 ∧
    constructMaliCores demoTwinManager = [demoCore] ∧
    demoCore.Revisions = [demoRevision] ∧
    demoRevision.Drivers = [demoDriver] ∧
    (demoDriver.Platforms.map fun Platform => Platform.PlatformName) =
      ["OpenGL ES 2.0", "OpenGL ES 2.0"] ∧
    ¬ (demoDriver.Platforms.map fun Platform => Platform.PlatformName).Nodup :=
  ⟨rfl, rfl, rfl, rfl, rfl, rfl, rfl, rfl, by decide⟩

end GraphClaims

end MaliOC

namespace MaliOC

/-! ## The session's assertions and the final counts -/

section SessionLemmas2

variable {F : Type}

theorem deref_of_get (c : FAsyncCompiler F) (handle : Nat) (job : FCompileJobHandle F)
    (hget : c.handles[handle]? = some job) : c.deref (some handle) = .ok job := by
  unfold FAsyncCompiler.deref
  dsimp only
  rw [hget]

theorem tickBackend_returns (g : FAsyncReportGenerator) (c : FAsyncCompiler F) (handle : Nat)
    (job : FCompileJobHandle F) (hj : g.JobHandle = some handle)
    (hget : c.handles[handle]? = some job) :
    ∃ r, FAsyncReportGenerator.tickBackend g c = .ok r := by
  unfold FAsyncReportGenerator.tickBackend
  by_cases hP : g.Progress = EProgress.MALIOC_COMPILATION_IN_PROGRESS
  · rw [if_pos hP, hj, deref_of_get c handle job hget]
    dsimp only
    by_cases hdone : job.bIsCompilationComplete = false
    · rw [if_pos hdone]
      exact ⟨_, rfl⟩
    · rw [if_neg hdone]
      exact ⟨_, rfl⟩
  · rw [if_neg hP]
    exact ⟨_, rfl⟩

/-- A session that satisfies the invariant can be ticked: no assertion of `Tick` fails and
no null handle is dereferenced. -/
theorem Tick_returns (X : Externals F) (s : Session F) (hinv : s.Inv) :
    ∃ r, FAsyncReportGenerator.Tick X s.gen s.compiler = .ok r := by
  obtain ⟨_, hcross, _, hvalid, hbackend, _, _⟩ := hinv
  unfold FAsyncReportGenerator.Tick
  by_cases hC : s.gen.Progress = EProgress.COMPILATION_COMPLETE
  · rw [if_pos hC]
    exact ⟨_, rfl⟩
  · rw [if_neg hC]
    by_cases hX : s.gen.Progress = EProgress.CROSS_COMPILATION_IN_PROGRESS
    · rw [if_pos hX]
      by_cases hfin : s.gen.Resource.bCompilationFinished = false
      · rw [if_pos hfin]
        exact ⟨_, rfl⟩
      · rw [if_neg hfin]
        cases hmap : s.gen.Resource.GameThreadShaderMap with
        | none =>
          dsimp only
          by_cases hretry : s.gen.Resource.CompileErrors.length = 0 ∧ s.gen.NumAttempts = 0
          · rw [if_pos hretry]
            exact ⟨_, rfl⟩
          · rw [if_neg hretry]
            exact ⟨_, rfl⟩
        | some ShaderMap =>
          dsimp only
          have hnone : s.gen.JobHandle = none := (hcross hX).2
          rw [hnone]
          rw [if_neg (by simp)]
          exact tickBackend_returns _ _ _ _ rfl
            (AddJob_new_handle s.compiler ShaderMap s.gen.Platform)
    · rw [if_neg hX]
      have hM : s.gen.Progress = EProgress.MALIOC_COMPILATION_IN_PROGRESS := by
        cases hp : s.gen.Progress with
        | CROSS_COMPILATION_IN_PROGRESS => exact absurd hp hX
        | MALIOC_COMPILATION_IN_PROGRESS => rfl
        | COMPILATION_COMPLETE => exact absurd hp hC
      have hsome := (hbackend hM).2
      cases hj : s.gen.JobHandle with
      | none =>
        rw [hj] at hsome
        cases hsome
      | some handle =>
        have hlt := hvalid handle hj
        exact tickBackend_returns _ _ handle (s.compiler.handles.get ⟨handle, hlt⟩) hj
          (List.getElem?_eq_getElem hlt)

/-- The job of a session that reached Complete without the error flag: it is in the
scheduler's list and has finished. -/
theorem complete_job (X : Externals F) (s : Session F) (hs : Session.Reachable X s)
    (hP : s.gen.Progress = EProgress.COMPILATION_COMPLETE)
    (hflag : s.gen.bWasCompilationError = false) :
    ∃ handle job, s.gen.JobHandle = some handle ∧ s.compiler.handles[handle]? = some job ∧
      job.bIsCompilationComplete = true := by
  obtain ⟨_, _, _, _, _, hjob, _⟩ := Reachable_Inv X s hs
  obtain ⟨handle, hj, hfin⟩ := hjob hP hflag
  unfold FAsyncCompiler.finished at hfin
  cases hget : s.compiler.handles[handle]? with
  | none =>
    rw [hget] at hfin
    cases hfin
  | some job =>
    rw [hget] at hfin
    exact ⟨handle, job, hj, hget, hfin⟩

end SessionLemmas2

section SessionClaims2

variable {F : Type}

/-- C26. In every reachable session that is in Complete with the error flag not set, the
session's job has finished and `GetMaliOCCompilationProgress` returns a compiled count equal
to the total count; both are the number of shaders of the job, and the job's raw output
holds that many entries over its error, Midgard and Utgard lists, one for every shader
whether it compiled or produced an error entry. -/
theorem progress_at_completion_counts_every_shader (X : Externals F) (s : Session F)
    (hs : Session.Reachable X s)
    (hP : s.gen.Progress = EProgress.COMPILATION_COMPLETE)
    (hflag : s.gen.bWasCompilationError = false) :
    ∃ handle job progress, s.gen.JobHandle = some handle ∧
      s.compiler.handles[handle]? = some job ∧
      s.gen.GetMaliOCCompilationProgress s.compiler = .ok progress ∧
      progress.NumCompiledShaders = progress.NumTotalShaders ∧
      progress.NumTotalShaders = job.OutShaders.length ∧
      job.RawCompilerOutput.ErrorOutput.length + job.RawCompilerOutput.MidgardOutput.length +
        job.RawCompilerOutput.UtgardOutput.length = job.OutShaders.length := by
  obtain ⟨handle, job, hj, hget, hfin⟩ := complete_job X s hs hP hflag
  obtain ⟨htotal, _, hdone⟩ :=
    Reachable_jobInv X s.compiler (Reachable_scheduler X s hs) job (List.getElem?_mem hget)
  obtain ⟨hsize, hcount⟩ := hdone hfin
  refine ⟨handle, job,
    { NumCompiledShaders := job.NumCompiledShaders, NumTotalShaders := job.TotalNumShaders },
    hj, hget, ?_, hcount, htotal, ?_⟩
  · unfold FAsyncReportGenerator.GetMaliOCCompilationProgress
    rw [hj, if_pos (by rfl), deref_of_get s.compiler handle job hget]
  · unfold FMaliOCRawCompilerOutput.size at hsize
    rw [hsize, htotal]

theorem progress_at_completion_counts_every_shader_witness :
    ∃ handle job progress, demoComplete.gen.JobHandle = some handle ∧
      demoComplete.compiler.handles[handle]? = some job ∧
      demoComplete.gen.GetMaliOCCompilationProgress demoComplete.compiler = .ok progress ∧
      progress.NumCompiledShaders = progress.NumTotalShaders ∧
      progress.NumTotalShaders = job.OutShaders.length ∧
      job.RawCompilerOutput.ErrorOutput.length + job.RawCompilerOutput.MidgardOutput.length +
        job.RawCompilerOutput.UtgardOutput.length = job.OutShaders.length :=
  progress_at_completion_counts_every_shader demoExternals demoComplete demoComplete_reachable
    rfl rfl

/-- C29. In every reachable session: in BackendCompiling the job handle is valid; in
Complete without the error flag the job handle is valid, its job has finished and
`GetRawCompilerOutput` returns on it; and when `Tick` is about to add a job, that is in
CrossCompiling with the cross-compilation finished and a shader map there, the job handle
is null. So `Tick` returns without a failed assertion, and `GetReport` never fails
`check(JobHandle.IsValid())` nor the `check(IsCompilationFinished())` of
`GetRawCompilerOutput`. -/
theorem session_assertions_never_fail (X : Externals F) (s : Session F)
    (hs : Session.Reachable X s) :
    (s.gen.Progress = EProgress.MALIOC_COMPILATION_IN_PROGRESS →
      ∃ handle job, s.gen.JobHandle = some handle ∧ s.compiler.handles[handle]? = some job) ∧
    (s.gen.Progress = EProgress.COMPILATION_COMPLETE → s.gen.bWasCompilationError = false →
      ∃ handle job, s.gen.JobHandle = some handle ∧ s.compiler.handles[handle]? = some job ∧
        job.bIsCompilationComplete = true ∧
        job.GetRawCompilerOutput = .ok job.RawCompilerOutput) ∧
    (s.gen.Progress = EProgress.CROSS_COMPILATION_IN_PROGRESS →
      s.gen.Resource.bCompilationFinished = true →
      s.gen.Resource.GameThreadShaderMap ≠ none → s.gen.JobHandle = none) ∧
    (∃ r, FAsyncReportGenerator.Tick X s.gen s.compiler = .ok r) ∧
    s.gen.GetReport X s.compiler ≠ .error Failure.checkJobHandleValid ∧
    s.gen.GetReport X s.compiler ≠ .error Failure.checkIsCompilationFinished := by
  have hinv := Reachable_Inv X s hs
  obtain ⟨_, hcross, _, hvalid, hbackend, _, _⟩ := hinv
  have hreport : ∀ e, e ≠ Failure.checkProgressIsCompleteAtGetReport →
      s.gen.GetReport X s.compiler ≠ .error e := by
    intro e he h
    by_cases hP : s.gen.Progress = EProgress.COMPILATION_COMPLETE
    · obtain ⟨report, hr⟩ := GetReport_returns X s hs hP
      rw [hr] at h
      cases h
    · unfold FAsyncReportGenerator.GetReport at h
      rw [if_pos hP] at h
      injection h with h
      exact he h.symm
  refine ⟨?_, ?_, ?_, Tick_returns X s (Reachable_Inv X s hs), hreport _ (by decide),
    hreport _ (by decide)⟩
  · intro hM
    have hsome := (hbackend hM).2
    cases hj : s.gen.JobHandle with
    | none =>
      rw [hj] at hsome
      cases hsome
    | some handle =>
      exact ⟨handle, s.compiler.handles.get ⟨handle, hvalid handle hj⟩, rfl,
        List.getElem?_eq_getElem (hvalid handle hj)⟩
  · intro hP hflag
    obtain ⟨handle, job, hj, hget, hfin⟩ := complete_job X s hs hP hflag
    refine ⟨handle, job, hj, hget, hfin, ?_⟩
    unfold FCompileJobHandle.GetRawCompilerOutput
    rw [if_pos hfin]
  · intro hX _ _
    exact (hcross hX).2

theorem session_assertions_never_fail_witness :
    (demoComplete.gen.Progress = EProgress.MALIOC_COMPILATION_IN_PROGRESS →
      ∃ handle job, demoComplete.gen.JobHandle = some handle ∧
        demoComplete.compiler.handles[handle]? = some job) ∧
    (demoComplete.gen.Progress = EProgress.COMPILATION_COMPLETE →
      demoComplete.gen.bWasCompilationError = false →
      ∃ handle job, demoComplete.gen.JobHandle = some handle ∧
        demoComplete.compiler.handles[handle]? = some job ∧
        job.bIsCompilationComplete = true ∧
        job.GetRawCompilerOutput = .ok job.RawCompilerOutput) ∧
    (demoComplete.gen.Progress = EProgress.CROSS_COMPILATION_IN_PROGRESS →
      demoComplete.gen.Resource.bCompilationFinished = true →
      demoComplete.gen.Resource.GameThreadShaderMap ≠ none →
      demoComplete.gen.JobHandle = none) ∧
    (∃ r, FAsyncReportGenerator.Tick demoExternals demoComplete.gen demoComplete.compiler =
      .ok r) ∧
    demoComplete.gen.GetReport demoExternals demoComplete.compiler ≠
      .error Failure.checkJobHandleValid ∧
    demoComplete.gen.GetReport demoExternals demoComplete.compiler ≠
      .error Failure.checkIsCompilationFinished :=
  session_assertions_never_fail demoExternals demoComplete demoComplete_reachable

end SessionClaims2

/-! ## Reads of the key scans, and the bound pipe -/

section ScanLemmas

variable {F : Type}

theorem utgardAssign_returns (X : Externals F) (key value : String) (output : FUtgardOutput) :
    ∃ out, utgardAssign X key (.ok value) output = .ok out := by
  unfold utgardAssign
  by_cases h0 : key = "min_number_of_cycles"
  · rw [if_pos h0]
    exact ⟨_, rfl⟩
  rw [if_neg h0]
  by_cases h1 : key = "max_number_of_cycles"
  · rw [if_pos h1]
    exact ⟨_, rfl⟩
  rw [if_neg h1]
  by_cases h2 : key = "n_instruction_words"
  · rw [if_pos h2]
    exact ⟨_, rfl⟩
  rw [if_neg h2]
  exact ⟨_, rfl⟩

theorem utgardLoop_returns (X : Externals F) (list : List String) :
    ∀ (fuel i : Nat) (output : FUtgardOutput), i ≤ list.length → list.length < i + fuel →
      ∃ out, utgardLoop X list (list.length - 1) fuel i output = .ok out := by
  intro fuel
  induction fuel with
  | zero =>
    intro i output hle h
    omega
  | succ fuel ih =>
    intro i output hle h
    unfold utgardLoop
    by_cases hi : i < list.length - 1
    · have hi1 : i + 1 < list.length := by omega
      rw [if_pos hi, readEntry_of_lt list i (by omega), readEntry_of_lt list (i + 1) hi1]
      dsimp only
      obtain ⟨out, hout⟩ := utgardAssign_returns X (list.get ⟨i, by omega⟩)
        (list.get ⟨i + 1, hi1⟩) output
      rw [hout]
      exact ih (i + 2) out (by omega) (by omega)
    · rw [if_neg hi]
      exact ⟨_, rfl⟩

/-- On a block with at least one entry, an entry count of one included, each of the three
key scans returns: none of them reads `list[i]` at or beyond `number_of_entries`. -/
theorem key_scans_stay_inside (X : Externals F) (kv : malioc_key_value_pairs)
    (rest : List malioc_key_value_pairs) (h : kv.hasEntries) :
    (∃ arch, detectArch kv = .ok arch) ∧
    (∃ rt, parseRenderTarget X kv = .ok rt) ∧
    (∃ out, ParseUtgardFlexibleOutputs X (kv :: rest) = .ok out) := by
  refine ⟨⟨_, detectArch_pairs kv h⟩, ⟨_, parseRenderTarget_byKey X kv h⟩, ?_⟩
  unfold ParseUtgardFlexibleOutputs
  dsimp only
  rw [entriesBound_of_hasEntries kv h]
  exact utgardLoop_returns X kv.list (kv.list.length + 1) 0 _ (by omega) (by omega)

theorem key_scans_stay_inside_sample :
    (∃ arch, detectArch { list := ["architecture"] } = .ok arch) ∧
    (∃ rt, parseRenderTarget demoExternals { list := ["architecture"] } = .ok rt) ∧
    (∃ out, ParseUtgardFlexibleOutputs demoExternals [{ list := ["architecture"] }] = .ok out) :=
  key_scans_stay_inside demoExternals { list := ["architecture"] } [] (by decide)

theorem ParseUtgardFlexibleOutputs_empty (X : Externals F)
    (rest : List malioc_key_value_pairs) :
    ParseUtgardFlexibleOutputs X ({ list := [] } :: rest) = .error Failure.outOfBoundsRead := by
  unfold ParseUtgardFlexibleOutputs
  dsimp only
  rw [entriesBound_empty]
  unfold utgardLoop
  rw [if_pos (by norm_num)]
  rfl

/-- The lambda `GetMidgardBoundPipe` names a pipe whose `uint32` count is the greatest of
the three, Arithmetic before Load/Store before Texture. -/
theorem GetMidgardBoundPipe_greatest (a ls t : Nat) :
    (GetMidgardBoundPipe a ls t = "Arithmetic" ↔ ls ≤ a ∧ t ≤ a) ∧
    (GetMidgardBoundPipe a ls t = "Load/Store" ↔ a < ls ∧ t ≤ ls) ∧
    (GetMidgardBoundPipe a ls t = "Texture" ↔ a < t ∧ ls < t) := by
  unfold GetMidgardBoundPipe
  dsimp only
  have hmax : Nat.max (Nat.max a ls) t = max (max a ls) t := rfl
  rw [hmax]
  by_cases h1 : max (max a ls) t = a
  · rw [if_pos h1]
    have h1a : ls ≤ a ∧ t ≤ a := by
      constructor
      · have := le_max_right a ls
        have := le_max_left (max a ls) t
        omega
      · have := le_max_right (max a ls) t
        omega
    refine ⟨⟨fun _ => h1a, fun _ => rfl⟩, ⟨fun h => absurd h (by decide), ?_⟩,
      ⟨fun h => absurd h (by decide), ?_⟩⟩
    · intro h
      omega
    · intro h
      omega
  · rw [if_neg h1]
    by_cases h2 : max (max a ls) t = ls
    · rw [if_pos h2]
      have h2a : a ≤ ls ∧ t ≤ ls := by
        constructor
        · have := le_max_left a ls
          have := le_max_left (max a ls) t
          omega
        · have := le_max_right (max a ls) t
          omega
      have hne : a ≠ ls := by
        intro h
        exact h1 (by rw [h2, h])
      refine ⟨⟨fun h => absurd h (by decide), ?_⟩, ⟨fun _ => ⟨by omega, h2a.2⟩, fun _ => rfl⟩,
        ⟨fun h => absurd h (by decide), ?_⟩⟩
      · intro h
        omega
      · intro h
        omega
    · rw [if_neg h2]
      have h3 : a < t ∧ ls < t := by
        rcases max_choice (max a ls) t with h | h
        · rcases max_choice a ls with h' | h'
          · exact absurd (by rw [h, h']) h1
          · exact absurd (by rw [h, h']) h2
        · have := le_max_left (max a ls) t
          have := le_max_left a ls
          have := le_max_right a ls
          constructor
          · by_contra hc
            exact h1 (by omega)
          · by_contra hc
            exact h2 (by omega)
      refine ⟨⟨fun h => absurd h (by decide), ?_⟩, ⟨fun h => absurd h (by decide), ?_⟩,
        ⟨fun _ => h3, fun _ => rfl⟩⟩
      · intro h
        omega
      · intro h
        omega

/-- When the conversion to `uint32` keeps the order of the cycle counts, as it does on
whole non-negative counts, the bound pipe of the shortest path is a pipe with the greatest
count, Arithmetic before Load/Store before Texture; likewise for the longest path. -/
theorem GetMidgardBoundPipes_order_kept [LinearOrder F] (X : Externals F)
    (rt : FRenderTarget F) (hkeeps : ∀ x y : F, X.toUInt32 x ≤ X.toUInt32 y ↔ x ≤ y) :
    ((GetMidgardBoundPipes X rt).ShortestBound = "Arithmetic" ↔
      rt.load_store_shortest_path ≤ rt.arithmetic_shortest_path ∧
      rt.texture_shortest_path ≤ rt.arithmetic_shortest_path) ∧
    ((GetMidgardBoundPipes X rt).ShortestBound = "Load/Store" ↔
      rt.arithmetic_shortest_path < rt.load_store_shortest_path ∧
      rt.texture_shortest_path ≤ rt.load_store_shortest_path) ∧
    ((GetMidgardBoundPipes X rt).ShortestBound = "Texture" ↔
      rt.arithmetic_shortest_path < rt.texture_shortest_path ∧
      rt.load_store_shortest_path < rt.texture_shortest_path) ∧
    ((GetMidgardBoundPipes X rt).LongestBound = "Arithmetic" ↔
      rt.load_store_longest_path ≤ rt.arithmetic_longest_path ∧
      rt.texture_longest_path ≤ rt.arithmetic_longest_path) ∧
    ((GetMidgardBoundPipes X rt).LongestBound = "Load/Store" ↔
      rt.arithmetic_longest_path < rt.load_store_longest_path ∧
      rt.texture_longest_path ≤ rt.load_store_longest_path) ∧
    ((GetMidgardBoundPipes X rt).LongestBound = "Texture" ↔
      rt.arithmetic_longest_path < rt.texture_longest_path ∧
      rt.load_store_longest_path < rt.texture_longest_path) := by
  have hlt : ∀ x y : F, X.toUInt32 x < X.toUInt32 y ↔ x < y := by
    intro x y
    rw [← not_le, ← not_le, hkeeps]
  unfold GetMidgardBoundPipes
  dsimp only
  obtain ⟨s1, s2, s3⟩ := GetMidgardBoundPipe_greatest
    (X.toUInt32 rt.arithmetic_shortest_path) (X.toUInt32 rt.load_store_shortest_path)
    (X.toUInt32 rt.texture_shortest_path)
  obtain ⟨l1, l2, l3⟩ := GetMidgardBoundPipe_greatest
    (X.toUInt32 rt.arithmetic_longest_path) (X.toUInt32 rt.load_store_longest_path)
    (X.toUInt32 rt.texture_longest_path)
  rw [s1, s2, s3, l1, l2, l3]
  simp only [hkeeps, hlt, iff_self, and_self]

theorem GetMidgardBoundPipes_order_kept_sample :
    (GetMidgardBoundPipes wholeExternals
      { FRenderTarget.init wholeExternals with
        arithmetic_shortest_path := 10, load_store_shortest_path := 11,
        texture_shortest_path := 1 }).ShortestBound = "Load/Store" :=
  (GetMidgardBoundPipes_order_kept wholeExternals _ (fun _ _ => Iff.rfl)).2.1.mpr
    ⟨by decide, by decide⟩

end ScanLemmas

section ScanClaims

/-- C27 (the code fails the claim). A render target whose shortest path takes 10.2
arithmetic, 10.9 load/store and 1.0 texture cycles has its greatest count in the load/store
pipe, but `GetMidgardBoundPipe` takes its three arguments as `uint32`, so the counts arrive
as 10, 10 and 1 and the pipe reported is "Arithmetic". The counts 10.0, 3.0 and 1.0 of the
longest path do give "Arithmetic". -/
theorem bound_pipe_drops_fractions :
    parseRenderTarget tenthsExternals
      { list := ["architecture", "midgard", "arithmetic_shortest_path", "10.2",
                 "load_store_shortest_path", "10.9", "texture_shortest_path", "1.0",
                 "arithmetic_longest_path", "10.0", "load_store_longest_path", "3.0",
                 "texture_longest_path", "1.0"] } = .ok demoCloseCounts ∧
    demoCloseCounts.arithmetic_shortest_path < demoCloseCounts.load_store_shortest_path ∧
    demoCloseCounts.texture_shortest_path < demoCloseCounts.load_store_shortest_path ∧
    tenthsExternals.toUInt32 demoCloseCounts.arithmetic_shortest_path = 10 ∧
    tenthsExternals.toUInt32 demoCloseCounts.load_store_shortest_path = 10 ∧
    tenthsExternals.toUInt32 demoCloseCounts.texture_shortest_path = 1 ∧
    (GetMidgardBoundPipes tenthsExternals demoCloseCounts).ShortestBound = "Arithmetic" ∧
    (GetMidgardBoundPipes tenthsExternals demoCloseCounts).ShortestBound ≠ "Load/Store" ∧
    (GetMidgardBoundPipes tenthsExternals demoCloseCounts).LongestBound = "Arithmetic" :=
  ⟨rfl, by decide, by decide, rfl, rfl, rfl, rfl, by decide, rfl⟩

/-- C28 (the code fails the claim). For a block with `number_of_entries = 0` the bound
`number_of_entries - 1` of the three key scans is `4294967295` in `unsigned int`, so each
scan enters its loop and reads `list[0]`, an index that is not below `number_of_entries`;
a backend answer whose first block is such a block does not yield the unknown-format
error entry. -/
theorem key_scans_read_outside_empty_block :
    malioc_key_value_pairs.number_of_entries { list := [] } = 0 ∧
    entriesBound { list := [] } = 4294967295 ∧
    readEntry [] 0 = .error Failure.outOfBoundsRead ∧
    detectArch { list := [] } = .error Failure.outOfBoundsRead ∧
    parseRenderTarget demoExternals { list := [] } = .error Failure.outOfBoundsRead ∧
    ParseUtgardFlexibleOutputs demoExternals [{ list := [] }] =
      .error Failure.outOfBoundsRead ∧
    entryOfOutputs demoExternals true demoEmptyBlock demoCommonOutput =
      .error Failure.outOfBoundsRead ∧
    entryOfOutputs demoExternals true demoEmptyBlock demoCommonOutput ≠
      .ok (errorEntry demoCommonOutput ["Unknown verbose output format from compiler"]) := by
  refine ⟨rfl, rfl, rfl, rfl, rfl, rfl, rfl, ?_⟩
  intro h
  rw [entryOfOutputs_empty_first_block demoExternals demoEmptyBlock demoCommonOutput [] rfl rfl]
    at h
  cases h

end ScanClaims

/-! ## The capability graph: how names match and what a driver stores -/

section GraphLemmas4

/-- A search by name reuses a node whose name is the one looked for, leaving the list of
names as it was, and otherwise puts the called-on new node last. -/
theorem findOrEmplace_reuse {α : Type} (name : α → String) (target : String) (call : α → α)
    (emplaced : α) (l : List α) (hcall : ∀ a, name (call a) = name a) :
    ((∃ x, x ∈ l ∧ name x = target) →
      (findOrEmplace (fun a => decide (name a = target)) call emplaced l).map name =
        l.map name) ∧
    ((∀ x, x ∈ l → name x ≠ target) →
      findOrEmplace (fun a => decide (name a = target)) call emplaced l =
        l ++ [call emplaced]) := by
  rcases findOrEmplace_cases (fun a => decide (name a = target)) call emplaced l with
    ⟨pre, x, post, hl, hx, _, hres⟩ | ⟨hall, hres⟩
  · constructor
    · intro _
      rw [hres, hl]
      simp only [List.map_append, List.map_cons, hcall]
    · intro hno
      have hx' : name x = target := by simpa using hx
      exact absurd hx' (hno x (by rw [hl]; simp))
  · constructor
    · rintro ⟨x, hx, hname⟩
      have := hall x hx
      simp only [decide_eq_false_iff_not] at this
      exact absurd hname this
    · intro _
      exact hres

theorem AddDriver_source (M : FCompilerManager) (compilers : List malicm_compiler)
    (r : FMaliCoreRevision) (fresh : Nat) (Compiler : malicm_compiler)
    (PlatformName : String) (Platform : EShaderPlatform) (hmem : Compiler ∈ compilers)
    (h : ∀ Driver, Driver ∈ r.Drivers → Driver.builtFrom M compilers) :
    ∀ Driver,
      Driver ∈ (r.AddDriver fresh (M.malicm_get_driver_name Compiler) Compiler
        (M.malicm_get_highest_api_version Compiler) (M.malicm_get_extensions Compiler)
        PlatformName Platform).Drivers →
      Driver.builtFrom M compilers := by
  apply findOrEmplace_forall (fun Driver : FMaliDriver => Driver.builtFrom M compilers)
  · exact h
  · intro x hx _
    exact h x hx
  · exact ⟨hmem, rfl, rfl, rfl⟩

theorem AddRevision_source (M : FCompilerManager) (compilers : List malicm_compiler)
    (c : FMaliCore) (fresh : Nat) (RevisionName : String) (Compiler : malicm_compiler)
    (PlatformName : String) (Platform : EShaderPlatform) (hmem : Compiler ∈ compilers)
    (h : ∀ Revision, Revision ∈ c.Revisions →
      ∀ Driver, Driver ∈ Revision.Drivers → Driver.builtFrom M compilers) :
    ∀ Revision,
      Revision ∈ (c.AddRevision fresh RevisionName (M.malicm_get_driver_name Compiler) Compiler
        (M.malicm_get_highest_api_version Compiler) (M.malicm_get_extensions Compiler)
        PlatformName Platform).Revisions →
      ∀ Driver, Driver ∈ Revision.Drivers → Driver.builtFrom M compilers := by
  apply findOrEmplace_forall (fun Revision : FMaliCoreRevision =>
      ∀ Driver, Driver ∈ Revision.Drivers → Driver.builtFrom M compilers)
  · exact h
  · intro x hx _
    exact AddDriver_source M compilers x _ _ _ _ hmem (h x hx)
  · exact AddDriver_source M compilers _ _ _ _ _ hmem
      (fun d hd => absurd hd (List.not_mem_nil d))

theorem builtFrom_mono (M : FCompilerManager) (compilers more : List malicm_compiler)
    (Driver : FMaliDriver) (h : Driver.builtFrom M compilers) :
    Driver.builtFrom M (compilers ++ more) :=
  ⟨List.mem_append_left _ h.1, h.2⟩

theorem addCompiler_source (M : FCompilerManager) (processed : List malicm_compiler)
    (MaliCores : List FMaliCore) (i : Nat) (compiler : malicm_compiler)
    (h : ∀ core, core ∈ MaliCores → ∀ Revision, Revision ∈ core.Revisions →
      ∀ Driver, Driver ∈ Revision.Drivers → Driver.builtFrom M processed) :
    ∀ core, core ∈ addCompiler M MaliCores i compiler →
      ∀ Revision, Revision ∈ core.Revisions →
        ∀ Driver, Driver ∈ Revision.Drivers → Driver.builtFrom M (processed ++ [compiler]) := by
  have hold : ∀ core, core ∈ MaliCores → ∀ Revision, Revision ∈ core.Revisions →
      ∀ Driver, Driver ∈ Revision.Drivers → Driver.builtFrom M (processed ++ [compiler]) :=
    fun core hcore Revision hr Driver hd =>
      builtFrom_mono M processed [compiler] Driver (h core hcore Revision hr Driver hd)
  rw [addCompiler_eq]
  apply findOrEmplace_forall (fun core : FMaliCore =>
    ∀ Revision, Revision ∈ core.Revisions →
      ∀ Driver, Driver ∈ Revision.Drivers → Driver.builtFrom M (processed ++ [compiler]))
  · exact hold
  · intro x hx _
    exact AddRevision_source M (processed ++ [compiler]) x _ _ _ _ _ (by simp) (hold x hx)
  · exact AddRevision_source M (processed ++ [compiler]) _ _ _ _ _ _ (by simp)
      (fun r hr => absurd hr (List.not_mem_nil r))

/-- Every driver of the graph the constructor builds stores one of the backend's compiler
tokens, and its name, highest API version and extensions are the backend's answers for
that token. -/
theorem constructMaliCores_source (M : FCompilerManager) :
    ∀ core, core ∈ constructMaliCores M → ∀ Revision, Revision ∈ core.Revisions →
      ∀ Driver, Driver ∈ Revision.Drivers → Driver.builtFrom M M.malicm_get_compilers :=
  constructMaliCores_invariant M
    (fun _ processed MaliCores =>
      ∀ core, core ∈ MaliCores → ∀ Revision, Revision ∈ core.Revisions →
        ∀ Driver, Driver ∈ Revision.Drivers → Driver.builtFrom M processed)
    (fun core hcore => absurd hcore (List.not_mem_nil core))
    (fun i processed MaliCores compiler h => addCompiler_source M processed MaliCores i compiler h)

/-- When the backend reports at least 100 for every compiler it lists, every driver of the
graph stores a highest API version of at least 100. -/
theorem constructMaliCores_max_api (M : FCompilerManager)
    (hbackend : ∀ compiler, compiler ∈ M.malicm_get_compilers →
      100 ≤ M.malicm_get_highest_api_version compiler) :
    ∀ core, core ∈ constructMaliCores M → ∀ Revision, Revision ∈ core.Revisions →
      ∀ Driver, Driver ∈ Revision.Drivers → 100 ≤ Driver.MaxAPI := by
  intro core hcore Revision hr Driver hd
  obtain ⟨hmem, _, hapi, _⟩ := constructMaliCores_source M core hcore Revision hr Driver hd
  rw [hapi]
  exact hbackend _ hmem

theorem demoCore_mem : demoCore ∈ constructMaliCores demoManager := by
  rw [constructMaliCores_demoManager]
  exact List.mem_cons_self _ _

theorem constructMaliCores_max_api_sample : 100 ≤ demoDriver.MaxAPI :=
  constructMaliCores_max_api demoManager (by decide) demoCore demoCore_mem demoRevision
    (List.mem_cons_self _ _) demoDriver (List.mem_cons_self _ _)

end GraphLemmas4

section GraphClaims3

/-- C21 (the claim fails). Four compilers whose names differ in letter case only, the
second in its core name, the third in its revision name and the fourth in its driver name,
give two cores, two revisions under the first core and two drivers under its first
revision: a name that equals an existing one up to letter case gets a new node. -/
theorem names_differing_in_case_get_new_nodes :
    equalUpToCase (demoCaseManager.malicm_get_core_name 2)
      (demoCaseManager.malicm_get_core_name 1) = true ∧
    equalUpToCase (demoCaseManager.malicm_get_core_revision 3)
      (demoCaseManager.malicm_get_core_revision 1) = true ∧
    equalUpToCase (demoCaseManager.malicm_get_driver_name 4)
      (demoCaseManager.malicm_get_driver_name 1) = true ∧
    (constructMaliCores demoCaseManager).map (fun core => core.CoreName) =
      ["Mali-T600", "MALI-T600"] ∧
    (constructMaliCores demoCaseManager).map
        (fun core => core.Revisions.map fun Revision => Revision.RevisionName) =
      [["r0p0", "R0P0"], ["r0p0"]] ∧
    (constructMaliCores demoCaseManager).map
        (fun core => core.Revisions.map fun Revision =>
          Revision.Drivers.map fun Driver => Driver.DriverName) =
      [[["Mali-T600_r4p0-00rel0", "Mali-T600_R4P0-00REL0"], ["Mali-T600_r4p0-00rel0"]],
       [["Mali-T600_r4p0-00rel0"]]] :=
  ⟨rfl, rfl, rfl, rfl, rfl, rfl⟩

/-- C21 (amended). Node reuse matches names exactly, letter case included: at each of the
three levels, when a node of the list has the very name looked for, the names of the list
stay as they are and no node is appended; when no node has that very name, a new node with
the name is appended at the end. -/
theorem node_reuse_by_exact_name (M : FCompilerManager) (MaliCores : List FMaliCore) (i : Nat)
    (compiler : malicm_compiler) (c : FMaliCore) (r : FMaliCoreRevision) (fresh : Nat)
    (RevisionName DriverName : String) (Compiler : malicm_compiler) (MaxAPI : Nat)
    (Extensions PlatformName : String) (Platform : EShaderPlatform) :
    ((∃ core, core ∈ MaliCores ∧ core.CoreName = M.malicm_get_core_name compiler) →
      (addCompiler M MaliCores i compiler).map (fun core => core.CoreName) =
        MaliCores.map (fun core => core.CoreName)) ∧
    ((∀ core, core ∈ MaliCores → core.CoreName ≠ M.malicm_get_core_name compiler) →
      (addCompiler M MaliCores i compiler).map (fun core => core.CoreName) =
        MaliCores.map (fun core => core.CoreName) ++ [M.malicm_get_core_name compiler]) ∧
    ((∃ Revision, Revision ∈ c.Revisions ∧ Revision.RevisionName = RevisionName) →
      (c.AddRevision fresh RevisionName DriverName Compiler MaxAPI Extensions PlatformName
          Platform).Revisions.map (fun Revision => Revision.RevisionName) =
        c.Revisions.map (fun Revision => Revision.RevisionName)) ∧
    ((∀ Revision, Revision ∈ c.Revisions → Revision.RevisionName ≠ RevisionName) →
      (c.AddRevision fresh RevisionName DriverName Compiler MaxAPI Extensions PlatformName
          Platform).Revisions.map (fun Revision => Revision.RevisionName) =
        c.Revisions.map (fun Revision => Revision.RevisionName) ++ [RevisionName]) ∧
    ((∃ Driver, Driver ∈ r.Drivers ∧ Driver.DriverName = DriverName) →
      (r.AddDriver fresh DriverName Compiler MaxAPI Extensions PlatformName
          Platform).Drivers.map (fun Driver => Driver.DriverName) =
        r.Drivers.map (fun Driver => Driver.DriverName)) ∧
    ((∀ Driver, Driver ∈ r.Drivers → Driver.DriverName ≠ DriverName) →
      (r.AddDriver fresh DriverName Compiler MaxAPI Extensions PlatformName
          Platform).Drivers.map (fun Driver => Driver.DriverName) =
        r.Drivers.map (fun Driver => Driver.DriverName) ++ [DriverName]) := by
  refine ⟨?_, ?_, ?_, ?_, ?_, ?_⟩
  · intro h
    rw [addCompiler_eq]
    refine (findOrEmplace_reuse (fun core : FMaliCore => core.CoreName) _ _ _ _ ?_).1 h
    intro a
    rfl
  · intro h
    rw [addCompiler_eq]
    refine Eq.trans (congrArg (List.map fun core : FMaliCore => core.CoreName)
      ((findOrEmplace_reuse (fun core : FMaliCore => core.CoreName) _ _ _ _ ?_).2 h)) ?_
    · intro a
      rfl
    · simp only [List.map_append, List.map_cons, List.map_nil]
      rfl
  · intro h
    unfold FMaliCore.AddRevision
    dsimp only
    refine (findOrEmplace_reuse (fun Revision : FMaliCoreRevision => Revision.RevisionName)
      _ _ _ _ ?_).1 h
    intro a
    rfl
  · intro h
    unfold FMaliCore.AddRevision
    dsimp only
    refine Eq.trans (congrArg (List.map fun Revision : FMaliCoreRevision => Revision.RevisionName)
      ((findOrEmplace_reuse (fun Revision : FMaliCoreRevision => Revision.RevisionName) _ _ _ _ ?_).2 h)) ?_
    · intro a
      rfl
    · simp only [List.map_append, List.map_cons, List.map_nil]
      rfl
  · intro h
    unfold FMaliCoreRevision.AddDriver
    dsimp only
    refine (findOrEmplace_reuse (fun Driver : FMaliDriver => Driver.DriverName)
      _ _ _ _ ?_).1 h
    intro a
    rfl
  · intro h
    unfold FMaliCoreRevision.AddDriver
    dsimp only
    refine Eq.trans (congrArg (List.map fun Driver : FMaliDriver => Driver.DriverName)
      ((findOrEmplace_reuse (fun Driver : FMaliDriver => Driver.DriverName) _ _ _ _ ?_).2 h)) ?_
    · intro a
      rfl
    · simp only [List.map_append, List.map_cons, List.map_nil]
      rfl

theorem node_reuse_by_exact_name_witness :
    (addCompiler demoManager [demoCore] 1 8).map (fun core => core.CoreName) =
      [demoCore].map (fun core => core.CoreName) ∧
    (addCompiler demoManager [demoCore] 2 9).map (fun core => core.CoreName) =
      [demoCore].map (fun core => core.CoreName) ++ ["Mali-T760"] ∧
    (demoCore.AddRevision 1 "r0p0" "d" 8 310 "" "OpenGL ES 2.0"
        EShaderPlatform.SP_OPENGL_ES2_ANDROID).Revisions.map
        (fun Revision => Revision.RevisionName) =
      demoCore.Revisions.map (fun Revision => Revision.RevisionName) ∧
    (demoCore.AddRevision 1 "R0P0" "d" 8 310 "" "OpenGL ES 2.0"
        EShaderPlatform.SP_OPENGL_ES2_ANDROID).Revisions.map
        (fun Revision => Revision.RevisionName) =
      demoCore.Revisions.map (fun Revision => Revision.RevisionName) ++ ["R0P0"] ∧
    (demoRevision.AddDriver 1 "Mali-T600_r4p0-00rel0" 8 310 "" "OpenGL ES 2.0"
        EShaderPlatform.SP_OPENGL_ES2_ANDROID).Drivers.map
        (fun Driver => Driver.DriverName) =
      demoRevision.Drivers.map (fun Driver => Driver.DriverName) ∧
    (demoRevision.AddDriver 1 "d" 8 310 "" "OpenGL ES 2.0"
        EShaderPlatform.SP_OPENGL_ES2_ANDROID).Drivers.map
        (fun Driver => Driver.DriverName) =
      demoRevision.Drivers.map (fun Driver => Driver.DriverName) ++ ["d"] :=
  ⟨(node_reuse_by_exact_name demoManager [demoCore] 1 8 demoCore demoRevision 1 "r0p0" "d" 8
      310 "" "OpenGL ES 2.0" EShaderPlatform.SP_OPENGL_ES2_ANDROID).1
      ⟨demoCore, List.mem_cons_self _ _, rfl⟩,
    (node_reuse_by_exact_name demoManager [demoCore] 2 9 demoCore demoRevision 1 "r0p0" "d" 8
      310 "" "OpenGL ES 2.0" EShaderPlatform.SP_OPENGL_ES2_ANDROID).2.1 (by decide),
    (node_reuse_by_exact_name demoManager [demoCore] 1 8 demoCore demoRevision 1 "r0p0" "d" 8
      310 "" "OpenGL ES 2.0" EShaderPlatform.SP_OPENGL_ES2_ANDROID).2.2.1
      ⟨demoRevision, List.mem_cons_self _ _, rfl⟩,
    (node_reuse_by_exact_name demoManager [demoCore] 1 8 demoCore demoRevision 1 "R0P0" "d" 8
      310 "" "OpenGL ES 2.0" EShaderPlatform.SP_OPENGL_ES2_ANDROID).2.2.2.1 (by decide),
    (node_reuse_by_exact_name demoManager [demoCore] 1 8 demoCore demoRevision 1 "r0p0"
      "Mali-T600_r4p0-00rel0" 8 310 "" "OpenGL ES 2.0"
      EShaderPlatform.SP_OPENGL_ES2_ANDROID).2.2.2.2.1
      ⟨demoDriver, List.mem_cons_self _ _, rfl⟩,
    (node_reuse_by_exact_name demoManager [demoCore] 1 8 demoCore demoRevision 1 "r0p0" "d" 8
      310 "" "OpenGL ES 2.0" EShaderPlatform.SP_OPENGL_ES2_ANDROID).2.2.2.2.2 (by decide)⟩

/-- C22 (the code fails the claim). A backend may report `0` as the highest API version of
a compiler it lists; the constructor stores that value and adds the platform
`OpenGL ES 2.0` all the same, so the graph has a driver whose highest API version is below
100. -/
theorem driver_below_baseline_kept :
    demoNoApiManager.malicm_get_compilers = [7] ∧
    demoNoApiManager.malicm_get_highest_api_version 7 = 0 ∧
    (constructMaliCores demoNoApiManager).map
        (fun core => core.Revisions.map fun Revision =>
          Revision.Drivers.map fun Driver => (Driver.Compiler, Driver.MaxAPI,
            Driver.Platforms.map fun Platform => Platform.PlatformName)) =
      [[[(7, 0, ["OpenGL ES 2.0"])]]] ∧
    ¬ (100 ≤ 0) :=
  ⟨rfl, rfl, rfl, by decide⟩

/-- C23. For every list of compiler entries and every driver of the graph the constructor
builds, the stored highest API version is the backend's answer for the compiler token the
driver stores, and that token is one of the listed compilers; this holds as well for a
driver into which several entries with different tokens and versions were merged, since
the driver keeps the token and the version of the entry that created it. -/
theorem driver_max_api_is_of_stored_compiler (M : FCompilerManager) :
    ∀ core, core ∈ constructMaliCores M → ∀ Revision, Revision ∈ core.Revisions →
      ∀ Driver, Driver ∈ Revision.Drivers →
        Driver.MaxAPI = M.malicm_get_highest_api_version Driver.Compiler ∧
        Driver.Compiler ∈ M.malicm_get_compilers := by
  intro core hcore Revision hr Driver hd
  obtain ⟨hmem, _, hapi, _⟩ := constructMaliCores_source M core hcore Revision hr Driver hd
  exact ⟨hapi, hmem⟩

theorem driver_max_api_is_of_stored_compiler_witness :
    demoCore ∈ constructMaliCores demoManager ∧ demoRevision ∈ demoCore.Revisions ∧
    demoDriver ∈ demoRevision.Drivers ∧
    demoManager.malicm_get_driver_name 8 = demoManager.malicm_get_driver_name 7 ∧
    demoManager.malicm_get_highest_api_version 7 = 300 ∧
    demoManager.malicm_get_highest_api_version 8 = 310 ∧
    demoDriver.Compiler = 7 ∧
    demoDriver.MaxAPI = demoManager.malicm_get_highest_api_version demoDriver.Compiler ∧
    demoDriver.Compiler ∈ demoManager.malicm_get_compilers :=
  ⟨demoCore_mem, List.mem_cons_self _ _, List.mem_cons_self _ _, rfl, rfl, rfl, rfl,
    driver_max_api_is_of_stored_compiler demoManager demoCore demoCore_mem demoRevision
      (List.mem_cons_self _ _) demoDriver (List.mem_cons_self _ _)⟩

end GraphClaims3

/-! ## Loading, initialising and unloading the backend library -/

section LoaderLemmas

theorem foldl_and_eq_all {α : Type} (f : α → Bool) (l : List α) :
    ∀ b : Bool, l.foldl (fun loaded name => loaded && f name) b = (b && l.all f) := by
  induction l with
  | nil =>
    intro b
    simp
  | cons a l ih =>
    intro b
    rw [List.foldl_cons, ih, List.all_cons, Bool.and_assoc]

/-- Whether every name of `entryPointNames` resolves. -/
theorem allLoaded_iff (L : FNativeLibrary) :
    entryPointNames.foldl (fun loaded name => loaded && L.GetDllExport name) true = true ↔
      ∀ name, name ∈ entryPointNames → L.GetDllExport name = true := by
  rw [foldl_and_eq_all, Bool.true_and, List.all_eq_true]

theorem version_expected_iff (version : malicm_version) :
    ¬ (version.major ≠ FCompilerManager.GetExpectedCompilerManagerVersion.major ∨
        version.minor ≠ FCompilerManager.GetExpectedCompilerManagerVersion.minor ∨
        version.patch ≠ FCompilerManager.GetExpectedCompilerManagerVersion.patch) ↔
      version = { major := 4, minor := 0, patch := 1 } := by
  cases version with
  | mk major minor patch =>
    simp only [FCompilerManager.GetExpectedCompilerManagerVersion, malicm_version.mk.injEq]
    tauto

/-- The five ways `FCompilerManager::Initialize` ends when no compiler manager exists: what
it returns, the compiler manager it leaves and the native calls it makes. -/
theorem Initialize_outcome (L : FNativeLibrary) (p : FSingletons)
    (hnull : p.CompilerManager = none) :
    ∃ (result : Bool) (manager : Option FCompilerManagerObject) (added : List NativeCall),
      FCompilerManager.Initialize L p =
        .ok (result, { CompilerManager := manager, AsyncCompiler := p.AsyncCompiler,
                       calls := p.calls ++ added }) ∧
      ((result = false ∧ manager = none ∧ added = [] ∧
          (L.FileExists = false ∨ L.GetDllHandle = false)) ∨
       (result = false ∧ manager = none ∧
          added = [NativeCall.GetDllHandle, NativeCall.FreeDllHandle] ∧
          L.FileExists = true ∧ L.GetDllHandle = true ∧
          ¬ (∀ name, name ∈ entryPointNames → L.GetDllExport name = true)) ∨
       (result = false ∧ manager = none ∧
          added = [NativeCall.GetDllHandle, NativeCall.malicm_initialize_libraries false,
                   NativeCall.FreeDllHandle] ∧
          L.FileExists = true ∧ L.GetDllHandle = true ∧
          (∀ name, name ∈ entryPointNames → L.GetDllExport name = true) ∧
          L.malicm_initialize_libraries = false) ∨
       (result = false ∧ manager = none ∧
          added = [NativeCall.GetDllHandle, NativeCall.malicm_initialize_libraries true,
                   NativeCall.malicm_get_manager_version, NativeCall.FreeDllHandle] ∧
          L.FileExists = true ∧ L.GetDllHandle = true ∧
          (∀ name, name ∈ entryPointNames → L.GetDllExport name = true) ∧
          L.malicm_initialize_libraries = true ∧
          L.malicm_get_manager_version ≠ { major := 4, minor := 0, patch := 1 }) ∨
       (result = true ∧
          manager = some { bIsValid := true, DLLHandle := true, entryPoints := L.entryPoints } ∧
          added = [NativeCall.GetDllHandle, NativeCall.malicm_initialize_libraries true,
                   NativeCall.malicm_get_manager_version] ∧
          L.FileExists = true ∧ L.GetDllHandle = true ∧
          (∀ name, name ∈ entryPointNames → L.GetDllExport name = true) ∧
          L.malicm_initialize_libraries = true ∧
          L.malicm_get_manager_version = { major := 4, minor := 0, patch := 1 })) := by
  unfold FCompilerManager.Initialize
  rw [hnull, if_neg (by simp)]
  dsimp only
  unfold FCompilerManagerObject.create
  by_cases hF : L.FileExists = false
  · rw [if_pos hF]
    refine ⟨false, none, [], ?_, Or.inl ⟨rfl, rfl, rfl, Or.inl hF⟩⟩
    simp [FSingletons.ResetCompilerManager, FCompilerManagerObject.destroy]
  rw [if_neg hF]
  have hF1 : L.FileExists = true := by simpa using hF
  by_cases hH : L.GetDllHandle = false
  · rw [if_pos hH]
    refine ⟨false, none, [], ?_, Or.inl ⟨rfl, rfl, rfl, Or.inr hH⟩⟩
    simp [FSingletons.ResetCompilerManager, FCompilerManagerObject.destroy]
  rw [if_neg hH]
  have hH1 : L.GetDllHandle = true := by simpa using hH
  dsimp only
  by_cases hall :
      entryPointNames.foldl (fun loaded name => loaded && L.GetDllExport name) true = false
  · rw [if_pos hall]
    refine ⟨false, none, [NativeCall.GetDllHandle, NativeCall.FreeDllHandle], ?_,
      Or.inr (Or.inl ⟨rfl, rfl, rfl, hF1, hH1, ?_⟩)⟩
    · simp [FSingletons.ResetCompilerManager, FCompilerManagerObject.destroy]
    · rw [← allLoaded_iff, hall]
      decide
  rw [if_neg hall]
  have hall1 : ∀ name, name ∈ entryPointNames → L.GetDllExport name = true := by
    rw [← allLoaded_iff]
    simpa using hall
  rw [if_neg (by simp)]
  by_cases hI : L.malicm_initialize_libraries = false
  · rw [if_pos hI]
    refine ⟨false, none, [NativeCall.GetDllHandle, NativeCall.malicm_initialize_libraries false,
      NativeCall.FreeDllHandle], ?_, Or.inr (Or.inr (Or.inl ⟨rfl, rfl, rfl, hF1, hH1, hall1, hI⟩))⟩
    simp [FSingletons.ResetCompilerManager, FCompilerManagerObject.destroy, hI]
  rw [if_neg hI]
  have hI1 : L.malicm_initialize_libraries = true := by simpa using hI
  by_cases hV :
      L.malicm_get_manager_version.major ≠
          FCompilerManager.GetExpectedCompilerManagerVersion.major ∨
        L.malicm_get_manager_version.minor ≠
          FCompilerManager.GetExpectedCompilerManagerVersion.minor ∨
        L.malicm_get_manager_version.patch ≠
          FCompilerManager.GetExpectedCompilerManagerVersion.patch
  · rw [if_pos hV]
    refine ⟨false, none, [NativeCall.GetDllHandle, NativeCall.malicm_initialize_libraries true,
      NativeCall.malicm_get_manager_version, NativeCall.FreeDllHandle], ?_,
      Or.inr (Or.inr (Or.inr (Or.inl ⟨rfl, rfl, rfl, hF1, hH1, hall1, hI1, ?_⟩)))⟩
    · simp [FSingletons.ResetCompilerManager, FCompilerManagerObject.destroy, hI1]
    · intro hv
      exact ((version_expected_iff _).mpr hv) hV
  · rw [if_neg hV]
    refine ⟨true, some { bIsValid := true, DLLHandle := true, entryPoints := L.entryPoints },
      [NativeCall.GetDllHandle, NativeCall.malicm_initialize_libraries true,
        NativeCall.malicm_get_manager_version], ?_,
      Or.inr (Or.inr (Or.inr (Or.inr ⟨rfl, rfl, rfl, hF1, hH1, hall1, hI1,
        (version_expected_iff _).mp hV⟩)))⟩
    simp [hI1]

end LoaderLemmas

section LoaderLemmas2

theorem initialisedAfter_append (l1 : List NativeCall) :
    ∀ (b : Bool) (l2 : List NativeCall),
      initialisedAfter b (l1 ++ l2) = initialisedAfter (initialisedAfter b l1) l2 := by
  induction l1 with
  | nil =>
    intro b l2
    rfl
  | cons call l1 ih =>
    intro b l2
    cases call <;> simp only [List.cons_append, initialisedAfter, List.append_eq, ih]

theorem releasedBeforeFree_append (l1 : List NativeCall) :
    ∀ (b : Bool) (l2 : List NativeCall),
      releasedBeforeFree b (l1 ++ l2) =
        (releasedBeforeFree b l1 && releasedBeforeFree (initialisedAfter b l1) l2) := by
  induction l1 with
  | nil =>
    intro b l2
    simp [releasedBeforeFree, initialisedAfter]
  | cons call l1 ih =>
    intro b l2
    cases call <;>
      simp only [List.cons_append, releasedBeforeFree, initialisedAfter, List.append_eq, ih,
        Bool.and_assoc]

theorem Deinitialize_calls (p : FSingletons) :
    (FCompilerManager.Deinitialize p).CompilerManager = none ∧
    (FCompilerManager.Deinitialize p).AsyncCompiler = p.AsyncCompiler ∧
    ((p.CompilerManager = none ∧ (FCompilerManager.Deinitialize p).calls = p.calls) ∨
     (p.CompilerManager.isSome = true ∧
       ((FCompilerManager.Deinitialize p).calls =
          p.calls ++ [NativeCall.malicm_release_libraries, NativeCall.FreeDllHandle] ∨
        (FCompilerManager.Deinitialize p).calls =
          p.calls ++ [NativeCall.malicm_release_libraries]))) := by
  unfold FCompilerManager.Deinitialize
  cases hm : p.CompilerManager with
  | none =>
    simp [hm]
  | some m =>
    simp only [Option.isSome_some, if_true, FSingletons.ResetCompilerManager, hm,
      FCompilerManagerObject.destroy]
    refine ⟨trivial, trivial, Or.inr ⟨trivial, ?_⟩⟩
    cases m.DLLHandle <;> simp

/-- One call of `Initialize` that does not end in a version mismatch, or one call of
`Deinitialize`, keeps this: no free of the library handle so far found the backend
libraries initialised, and they are initialised now exactly when a compiler manager
exists. -/
theorem step_released_before_free (p p1 : FSingletons) (e : ManagerEvent)
    (hversion : ∀ L, e = ManagerEvent.Initialize L → L.malicm_initialize_libraries = true →
      L.malicm_get_manager_version = { major := 4, minor := 0, patch := 1 })
    (hgood : releasedBeforeFree false p.calls = true)
    (hnow : initialisedAfter false p.calls = p.CompilerManager.isSome)
    (hstep : p.step e = .ok p1) :
    releasedBeforeFree false p1.calls = true ∧
    initialisedAfter false p1.calls = p1.CompilerManager.isSome := by
  cases e with
  | Initialize L =>
    simp only [FSingletons.step] at hstep
    cases hm : p.CompilerManager with
    | some m =>
      unfold FCompilerManager.Initialize at hstep
      rw [hm] at hstep
      simp at hstep
    | none =>
      rw [hm] at hnow
      obtain ⟨result, manager, added, hinit, hcases⟩ := Initialize_outcome L p hm
      rw [hinit] at hstep
      dsimp only at hstep
      injection hstep with hstep
      subst hstep
      dsimp only
      rw [releasedBeforeFree_append, initialisedAfter_append, hgood, hnow]
      rcases hcases with ⟨_, hman, hadd, _⟩ | ⟨_, hman, hadd, _⟩ | ⟨_, hman, hadd, _⟩ |
        ⟨_, hman, hadd, _, _, _, hI, hV⟩ | ⟨_, hman, hadd, _⟩
      · subst hman hadd
        exact ⟨rfl, rfl⟩
      · subst hman hadd
        exact ⟨rfl, rfl⟩
      · subst hman hadd
        exact ⟨rfl, rfl⟩
      · exact absurd (hversion L rfl hI) hV
      · subst hman hadd
        exact ⟨rfl, rfl⟩
  | Deinitialize =>
    simp only [FSingletons.step] at hstep
    injection hstep with hstep
    subst hstep
    obtain ⟨hnone, _, hcalls⟩ := Deinitialize_calls p
    rw [hnone]
    rcases hcalls with ⟨hm, hc⟩ | ⟨hm, hc | hc⟩
    · rw [hc, hgood, hnow, hm]
      decide
    · rw [hc, releasedBeforeFree_append, initialisedAfter_append, hgood, hnow, hm]
      decide
    · rw [hc, releasedBeforeFree_append, initialisedAfter_append, hgood, hnow, hm]
      decide

/-- Along every sequence of `Initialize` and `Deinitialize` calls in which no `Initialize`
meets a version other than the expected one after initialising the backend libraries,
every free of the library handle finds the backend libraries released. -/
theorem run_released_before_free (events : List ManagerEvent)
    (hversion : ∀ L, ManagerEvent.Initialize L ∈ events →
      L.malicm_initialize_libraries = true →
      L.malicm_get_manager_version = { major := 4, minor := 0, patch := 1 }) :
    ∀ (p p1 : FSingletons), releasedBeforeFree false p.calls = true →
      initialisedAfter false p.calls = p.CompilerManager.isSome →
      p.run events = .ok p1 →
      releasedBeforeFree false p1.calls = true ∧
      initialisedAfter false p1.calls = p1.CompilerManager.isSome := by
  induction events with
  | nil =>
    intro p p1 hgood hnow hrun
    simp only [FSingletons.run] at hrun
    injection hrun with hrun
    subst hrun
    exact ⟨hgood, hnow⟩
  | cons e rest ih =>
    intro p p1 hgood hnow hrun
    simp only [FSingletons.run] at hrun
    cases hstep : p.step e with
    | error f =>
      rw [hstep] at hrun
      cases hrun
    | ok p2 =>
      rw [hstep] at hrun
      dsimp only at hrun
      obtain ⟨hgood2, hnow2⟩ := step_released_before_free p p2 e
        (fun L hL => hversion L (by rw [hL]; exact List.mem_cons_self _ _)) hgood hnow hstep
      exact ih (fun L hL => hversion L (List.mem_cons_of_mem _ hL)) p2 p1 hgood2 hnow2 hrun

theorem run_released_before_free_sample :
    ∃ p1, FSingletons.run {}
        [ManagerEvent.Initialize demoMissingFile, ManagerEvent.Initialize demoLibrary,
          ManagerEvent.Deinitialize, ManagerEvent.Deinitialize] = .ok p1 ∧
      p1.calls = [NativeCall.GetDllHandle, NativeCall.malicm_initialize_libraries true,
        NativeCall.malicm_get_manager_version, NativeCall.malicm_release_libraries,
        NativeCall.FreeDllHandle] ∧
      releasedBeforeFree false p1.calls = true :=
  ⟨_, rfl, rfl, rfl⟩

/-- A first call of `FAsyncCompiler::Initialize`: it returns; on `true` both singletons
exist; on `false` the async compiler is null, and the compiler manager still exists
exactly when it was initialised and the constructor found no core. -/
theorem AsyncInitialize_outcome (L : FNativeLibrary) (p : FSingletons)
    (hasync : p.AsyncCompiler = none) (hnull : p.CompilerManager = none) :
    ∃ (result : Bool) (p1 : FSingletons),
      FAsyncCompiler.Initialize L p = .ok (result, p1) ∧
      (result = true →
        (FAsyncCompiler.Get p1).isSome = true ∧ (FCompilerManager.Get p1).isSome = true) ∧
      (result = false → FAsyncCompiler.Get p1 = none ∧
        ((FCompilerManager.Get p1).isSome = true ↔
          ((∃ p2, FCompilerManager.Initialize L p = .ok (true, p2)) ∧
            constructMaliCores L.entryPoints = []))) := by
  obtain ⟨result, manager, added, hinit, hcases⟩ := Initialize_outcome L p hnull
  unfold FAsyncCompiler.Initialize
  rw [hasync, if_neg (by simp), hinit]
  dsimp only
  have hfalse : result = false → manager = none := by
    intro hr
    rcases hcases with ⟨_, hman, _⟩ | ⟨_, hman, _⟩ | ⟨_, hman, _⟩ | ⟨_, hman, _⟩ | ⟨hres, _⟩
    · exact hman
    · exact hman
    · exact hman
    · exact hman
    · rw [hres] at hr
      cases hr
  have htrue : result = true →
      manager = some { bIsValid := true, DLLHandle := true, entryPoints := L.entryPoints } := by
    intro hr
    rcases hcases with ⟨hres, _⟩ | ⟨hres, _⟩ | ⟨hres, _⟩ | ⟨hres, _⟩ | ⟨_, hman, _⟩
    · rw [hres] at hr; cases hr
    · rw [hres] at hr; cases hr
    · rw [hres] at hr; cases hr
    · rw [hres] at hr; cases hr
    · exact hman
  cases hr : result with
  | false =>
    rw [if_pos rfl]
    refine ⟨false, _, rfl, (fun h => absurd h (by decide)), fun _ => ⟨hasync, ?_⟩⟩
    simp only [FCompilerManager.Get, hfalse hr, Option.isSome_none, Bool.false_eq_true,
      false_iff, not_and]
    rintro ⟨p2, hp2⟩
    injection hp2 with hp2
    injection hp2 with hp2
    cases hp2
  | true =>
    rw [if_neg (by decide)]
    simp only [FCompilerManager.Get, htrue hr]
    by_cases hzero : (constructMaliCores L.entryPoints).length = 0
    · rw [if_pos hzero]
      refine ⟨false, _, rfl, (fun h => absurd h (by decide)), fun _ => ⟨rfl, ?_⟩⟩
      simp only [FAsyncCompiler.Get, Option.isSome_some, true_iff]
      exact ⟨⟨_, rfl⟩, List.length_eq_zero.mp hzero⟩
    · rw [if_neg hzero]
      exact ⟨true, _, rfl, fun _ => ⟨rfl, rfl⟩, (fun h => absurd h (by decide))⟩

/-- While a compiler manager exists and no async compiler does, `FAsyncCompiler::Initialize`
and the retry of the editor tab end in the assertion of `FCompilerManager::Initialize`,
whatever the library answers. -/
theorem AsyncInitialize_again (L : FNativeLibrary) (p : FSingletons)
    (hasync : p.AsyncCompiler = none) (hmanager : p.CompilerManager.isSome = true) :
    FAsyncCompiler.Initialize L p = .error Failure.checkCompilerManagerNotValid ∧
    FMaterialEditorTabGeneratorImplWrapper.Tick L p =
      .error Failure.checkCompilerManagerNotValid := by
  have h : FAsyncCompiler.Initialize L p = .error Failure.checkCompilerManagerNotValid := by
    unfold FAsyncCompiler.Initialize FCompilerManager.Initialize
    rw [hasync, if_neg (by simp), if_pos hmanager]
  refine ⟨h, ?_⟩
  unfold FMaterialEditorTabGeneratorImplWrapper.Tick
  rw [h]
  simp [FAsyncCompiler.Get, hasync]

/-- After `FAsyncCompiler::Deinitialize` both singletons are null, so a following
`FAsyncCompiler::Initialize` passes both assertions and returns. -/
theorem AsyncDeinitialize_clears (L : FNativeLibrary) (p : FSingletons) :
    FAsyncCompiler.Get (FAsyncCompiler.Deinitialize p) = none ∧
    FCompilerManager.Get (FAsyncCompiler.Deinitialize p) = none ∧
    ∃ r, FAsyncCompiler.Initialize L (FAsyncCompiler.Deinitialize p) = .ok r := by
  obtain ⟨hmanager, hasync, _⟩ :=
    Deinitialize_calls { p with AsyncCompiler := none }
  have hA : (FAsyncCompiler.Deinitialize p).AsyncCompiler = none := hasync
  have hM : (FAsyncCompiler.Deinitialize p).CompilerManager = none := hmanager
  obtain ⟨result, p1, hinit, _⟩ := AsyncInitialize_outcome L _ hA hM
  exact ⟨hA, hM, _, hinit⟩

end LoaderLemmas2

section LoaderClaims

/-- C24. When no compiler manager exists yet, `FCompilerManager::Initialize` returns, and
it returns `true` exactly when the library file exists, the library loads, each of the
fifteen names resolves, `malicm_initialize_libraries` succeeds and the version the backend
reports is 4.0.1; then `Get()` is a valid compiler manager, and in every other case the
function returns `false` and `Get()` is null. -/
theorem Initialize_true_iff (L : FNativeLibrary) (p : FSingletons)
    (hnull : p.CompilerManager = none) :
    entryPointNames.length = 15 ∧
    ∃ (result : Bool) (p1 : FSingletons),
      FCompilerManager.Initialize L p = .ok (result, p1) ∧
      (result = true ↔
        L.FileExists = true ∧ L.GetDllHandle = true ∧
        (∀ name, name ∈ entryPointNames → L.GetDllExport name = true) ∧
        L.malicm_initialize_libraries = true ∧
        L.malicm_get_manager_version = { major := 4, minor := 0, patch := 1 }) ∧
      (result = true → ∃ m, FCompilerManager.Get p1 = some m ∧ m.bIsValid = true) ∧
      (result = false → FCompilerManager.Get p1 = none) := by
  refine ⟨rfl, ?_⟩
  obtain ⟨result, manager, added, hinit, hcases⟩ := Initialize_outcome L p hnull
  refine ⟨result, _, hinit, ?_⟩
  rcases hcases with ⟨hres, hman, _, hno⟩ | ⟨hres, hman, _, _, _, hno⟩ |
    ⟨hres, hman, _, _, _, _, hno⟩ | ⟨hres, hman, _, _, _, _, _, hno⟩ |
    ⟨hres, hman, _, hF, hH, hall, hI, hV⟩
  · subst hres hman
    refine ⟨⟨(fun h => absurd h (by decide)), ?_⟩, (fun h => absurd h (by decide)), fun _ => rfl⟩
    rintro ⟨hF, hH, _⟩
    rcases hno with hno | hno
    · rw [hF] at hno
      cases hno
    · rw [hH] at hno
      cases hno
  · subst hres hman
    exact ⟨⟨(fun h => absurd h (by decide)), fun h => absurd h.2.2.1 hno⟩, (fun h => absurd h (by decide)),
      fun _ => rfl⟩
  · subst hres hman
    refine ⟨⟨(fun h => absurd h (by decide)), ?_⟩, (fun h => absurd h (by decide)), fun _ => rfl⟩
    rintro ⟨_, _, _, hI, _⟩
    rw [hI] at hno
    cases hno
  · subst hres hman
    exact ⟨⟨(fun h => absurd h (by decide)), fun h => absurd h.2.2.2.2 hno⟩, (fun h => absurd h (by decide)),
      fun _ => rfl⟩
  · subst hres hman
    exact ⟨⟨fun _ => ⟨hF, hH, hall, hI, hV⟩, fun _ => rfl⟩, fun _ => ⟨_, rfl, rfl⟩,
      (fun h => absurd h (by decide))⟩

theorem Initialize_true_iff_witness :
    entryPointNames.length = 15 ∧
    ∃ (result : Bool) (p1 : FSingletons),
      FCompilerManager.Initialize demoLibrary {} = .ok (result, p1) ∧
      (result = true ↔
        demoLibrary.FileExists = true ∧ demoLibrary.GetDllHandle = true ∧
        (∀ name, name ∈ entryPointNames → demoLibrary.GetDllExport name = true) ∧
        demoLibrary.malicm_initialize_libraries = true ∧
        demoLibrary.malicm_get_manager_version = { major := 4, minor := 0, patch := 1 }) ∧
      (result = true → ∃ m, FCompilerManager.Get p1 = some m ∧ m.bIsValid = true) ∧
      (result = false → FCompilerManager.Get p1 = none) :=
  Initialize_true_iff demoLibrary {} rfl

/-- C25 (the code fails the claim). When the backend loads and initialises but lists no
compiler, `FAsyncCompiler::Initialize` resets the async compiler and returns `false`
without deinitialising the compiler manager: `FAsyncCompiler::Get()` is null but
`FCompilerManager::Get()` is not, and the next `FAsyncCompiler::Initialize`, as made by
the retry of the editor tab, fails `check(!CompilerManager.IsValid())`, even with a
backend that would now list compilers. -/
theorem zero_cores_leaves_compiler_manager :
    constructMaliCores demoNoCompilers.entryPoints = [] ∧
    ∃ p1, FAsyncCompiler.Initialize demoNoCompilers {} = .ok (false, p1) ∧
      (FAsyncCompiler.Get p1).isNone = true ∧
      (FCompilerManager.Get p1).isSome = true ∧
      FAsyncCompiler.Initialize demoNoCompilers p1 =
        .error Failure.checkCompilerManagerNotValid ∧
      FMaterialEditorTabGeneratorImplWrapper.Tick demoNoCompilers p1 =
        .error Failure.checkCompilerManagerNotValid ∧
      FMaterialEditorTabGeneratorImplWrapper.Tick demoLibrary p1 =
        .error Failure.checkCompilerManagerNotValid :=
  ⟨rfl, _, rfl, rfl, rfl, rfl, rfl, rfl⟩

/-- C30 (the code fails the claim). An `Initialize` that finds another version than the
expected one has called `malicm_initialize_libraries` with success, and its
`CompilerManager.Reset()` runs the destructor, which frees the library handle; no
`malicm_release_libraries` call comes in between, so the library is unloaded with the
backend libraries still initialised. After a successful `Initialize`, `Deinitialize` does
release them first. -/
theorem version_mismatch_frees_initialised_library :
    demoWrongVersion.malicm_get_manager_version ≠
      FCompilerManager.GetExpectedCompilerManagerVersion ∧
    (∃ p1, FSingletons.run {} [ManagerEvent.Initialize demoWrongVersion] = .ok p1 ∧
      p1.calls = [NativeCall.GetDllHandle, NativeCall.malicm_initialize_libraries true,
        NativeCall.malicm_get_manager_version, NativeCall.FreeDllHandle] ∧
      releasedBeforeFree false p1.calls = false ∧
      (FCompilerManager.Deinitialize p1).calls = p1.calls) ∧
    (∃ p2, FSingletons.run {} [ManagerEvent.Initialize demoLibrary, ManagerEvent.Deinitialize] =
        .ok p2 ∧
      p2.calls = [NativeCall.GetDllHandle, NativeCall.malicm_initialize_libraries true,
        NativeCall.malicm_get_manager_version, NativeCall.malicm_release_libraries,
        NativeCall.FreeDllHandle] ∧
      releasedBeforeFree false p2.calls = true) :=
  ⟨by decide, ⟨_, rfl, rfl, rfl, rfl⟩, ⟨_, rfl, rfl, rfl⟩⟩

end LoaderClaims

end MaliOC
